import Mathlib

/-!
Heimdall frontend: flash command builder, package path normalisation and the
Samsung quick-convert partition matcher.

A shallow embedding of the parts of `heimdall-frontend/source/mainwindow.cpp`
that build the `heimdall flash` argument list (`MainWindow::StartFlash`),
normalise the destination path of a package (`MainWindow::BuildPackage`) and
map loose image files onto PIT partitions (`MainWindow::ConvertSamsungQuick`).

Conventions of the embedding:

* a `QString` is a Lean `String`; every operation is defined on its list of
  characters, one `Char` standing for one UTF-16 code unit (strings of the
  Basic Multilingual Plane);
* `QString::toLower`, `QString::toUpper` and the case-insensitive comparisons
  fold the letters `A`..`Z` / `a`..`z` only;
* `unsigned int` is a `Nat` read modulo `2^32`, `int` is an `Int`; the cast
  `(int)` of an `unsigned int` is `toInt32`, and the product of two `int`
  values in `TEE::analyze` is the 32-bit product `TEE.mulInt`.
-/

namespace Heimdall

/-! ## libpit data model -/

/-- Modelled from the spec: the class `PitEntry` of libpit (its header is not
among the sources). One partition descriptor: identifier, partition name,
flash filename and the flashable flag that `IsFlashable()` returns. -/
structure PitEntry where
  identifier : Nat
  partitionName : String
  flashFilename : String
  flashable : Bool
  deriving DecidableEq, Repr

namespace PitEntry

/-- Modelled from the spec: `PitEntry::GetIdentifier` of libpit, an
`unsigned int`. -/
def GetIdentifier (e : PitEntry) : Nat := e.identifier % 2 ^ 32

/-- Modelled from the spec: `PitEntry::IsFlashable` of libpit, the entry's
flashable flag. -/
def IsFlashable (e : PitEntry) : Bool := e.flashable

/-- Modelled from the spec: `PitEntry::GetPartitionName` of libpit. -/
def GetPartitionName (e : PitEntry) : String := e.partitionName

/-- Modelled from the spec: `PitEntry::GetFlashFilename` of libpit. -/
def GetFlashFilename (e : PitEntry) : String := e.flashFilename

end PitEntry

/-- Modelled from the spec: the class `PitData` of libpit, an ordered sequence
of entries. -/
abbrev PitData := List PitEntry

namespace PitData

/-- Modelled from the spec: `PitData::FindEntry(unsigned int)` of libpit, a
linear scan for the first entry with the identifier. -/
def FindEntry (pit : PitData) (partitionIdentifier : Nat) : Option PitEntry :=
  pit.find? (fun e => e.GetIdentifier == partitionIdentifier % 2 ^ 32)

/-- Modelled from the spec: `PitData::FindEntry(const char *)` of libpit, a
linear scan for the first entry whose partition name is byte-equal. -/
def FindEntryByName (pit : PitData) (partitionName : String) : Option PitEntry :=
  pit.find? (fun e => e.GetPartitionName == partitionName)

end PitData

/-! ## Firmware model (`FirmwareInfo.h`, used through its accessors) -/

/-- A binding of a partition identifier to a source file (`FileInfo`). -/
structure FileInfo where
  partitionId : Nat
  filename : String
  deriving DecidableEq, Repr

namespace FileInfo

/-- The accessor `FileInfo::GetPartitionId`, an `unsigned int`. -/
def GetPartitionId (f : FileInfo) : Nat := f.partitionId % 2 ^ 32

/-- The accessor `FileInfo::GetFilename`. -/
def GetFilename (f : FileInfo) : String := f.filename

end FileInfo

/-- One supported device (`DeviceInfo`). -/
structure DeviceInfo where
  manufacturer : String
  product : String
  name : String
  deriving DecidableEq, Repr

/-- The target platform (`PlatformInfo`). -/
structure PlatformInfo where
  name : String
  version : String
  deriving DecidableEq, Repr

/-- The firmware metadata and its ordered list of bindings (`FirmwareInfo`). -/
structure FirmwareInfo where
  name : String
  version : String
  platformInfo : PlatformInfo
  developers : List String
  url : String
  donateUrl : String
  deviceInfos : List DeviceInfo
  pitFilename : String
  repartition : Bool
  noReboot : Bool
  fileInfos : List FileInfo
  deriving DecidableEq, Repr

/-! ## The `QString` operations the code uses -/

namespace QString

/-- The call `QString::isEmpty`. -/
def isEmpty (s : String) : Bool := s.data.isEmpty

/-- The call `QString::length`. -/
def length (s : String) : Int := s.data.length

/-- The call `QString::toLower`. -/
def toLower (s : String) : String := ⟨s.data.map Char.toLower⟩

/-- The call `QString::toUpper`. -/
def toUpper (s : String) : String := ⟨s.data.map Char.toUpper⟩

/-- The call `QString::append`. -/
def append (s t : String) : String := ⟨s.data ++ t.data⟩

/-- The call `QString::startsWith`, case sensitive. -/
def startsWith (s t : String) : Bool := t.data.isPrefixOf s.data

/-- The call `QString::endsWith`, case sensitive. -/
def endsWith (s t : String) : Bool := t.data.isSuffixOf s.data

/-- The call `QString::endsWith(..., Qt::CaseInsensitive)`. -/
def endsWithCI (s t : String) : Bool := endsWith (toLower s) (toLower t)

/-- Whether `t` occurs in `s` as a run of consecutive characters. -/
def isInfixOf (t : List Char) : List Char → Bool
  | [] => t.isEmpty
  | c :: s => t.isPrefixOf (c :: s) || isInfixOf t s

/-- The call `QString::contains(const QString &)`, case sensitive. -/
def contains (s t : String) : Bool := isInfixOf t.data s.data

/-- The call `QString::lastIndexOf(QChar)`: the index of the last occurrence,
`-1` when there is none. -/
def lastIndexOf (s : String) (c : Char) : Int :=
  let n := s.data.length
  let k := s.data.reverse.indexOf c
  if k < n then (n : Int) - 1 - (k : Int) else -1

/-- The call `QString::left(n)`: the first `n` characters, the whole string
when `n` is negative or not below the length. -/
def left (s : String) (n : Int) : String :=
  if n < 0 ∨ length s ≤ n then s else ⟨s.data.take n.toNat⟩

/-- The conversion `QChar(int)`: the code unit `rc & 0xffff`. -/
def QCharOfInt (rc : Int) : Nat := (rc % 65536).toNat

/-- The overload `QString::replace(QChar c, const QString &after)`: every
occurrence of the code unit `c` is replaced by `after`. This is the overload
that the two-argument call `replace(int, const char *)` resolves to, the `int`
being converted by `QChar(int)`. -/
def replaceQChar (s : String) (c : Nat) (after : String) : String :=
  ⟨s.data.flatMap (fun x => if x.toNat = c then after.data else [x])⟩

/-- The overload `QString::replace(int position, int n, const QString &after)`,
for a position and a count inside the string. -/
def replaceAt (s : String) (position n : Int) (after : String) : String :=
  ⟨s.data.take position.toNat ++ after.data ++ s.data.drop (position.toNat + n.toNat)⟩

/-- The call `QFileInfo(path).fileName()`: what follows the last `/`. -/
def fileName (path : String) : String :=
  ⟨path.data.drop (lastIndexOf path '/' + 1).toNat⟩

end QString

/-! ## `MainWindow::StartFlash`: the argument list -/

/-- The flag computed in the body of the loop of `StartFlash`: the partition
name when the entry is found and `IsFlashable()`, else `sprintf("--%u")` of the
identifier. -/
def StartFlash.flag (currentPitData : PitData) (fileInfo : FileInfo) : String :=
  match currentPitData.FindEntry fileInfo.GetPartitionId with
  | some pe =>
    if pe.IsFlashable then "--" ++ pe.GetPartitionName
    else "--" ++ Nat.repr fileInfo.GetPartitionId
  | none => "--" ++ Nat.repr fileInfo.GetPartitionId

/-- The loop `for (int i = 0; i < fileInfos.length(); i++)` of `StartFlash`:
each turn appends the flag and then the filename. -/
def StartFlash.loop (currentPitData : PitData) :
    List FileInfo → List String → List String
  | [], arguments => arguments
  | fileInfo :: rest, arguments =>
    let arguments := arguments ++ [StartFlash.flag currentPitData fileInfo]
    let arguments := arguments ++ [fileInfo.GetFilename]
    StartFlash.loop currentPitData rest arguments

/-- The `QStringList arguments` that `MainWindow::StartFlash` hands to
`StartHeimdall`, from the working firmware, the current PIT and the members
`resume` and `verboseOutput`. -/
def StartFlash.arguments (currentPitData : PitData) (firmwareInfo : FirmwareInfo)
    (resume verboseOutput : Bool) : List String :=
  let fileInfos := firmwareInfo.fileInfos
  let singlePartitionFlash : Bool := fileInfos.length == 1
  let arguments : List String := []
  let arguments := arguments ++ ["flash"]
  let arguments :=
    if firmwareInfo.repartition && !singlePartitionFlash then
      arguments ++ ["--repartition"]
    else arguments
  let arguments := arguments ++ ["--PIT"]
  let arguments := arguments ++ [firmwareInfo.pitFilename]
  let arguments := StartFlash.loop currentPitData fileInfos arguments
  let arguments := if firmwareInfo.noReboot then arguments ++ ["--no-reboot"] else arguments
  let arguments := if resume then arguments ++ ["--resume"] else arguments
  let arguments := if verboseOutput then arguments ++ ["--verbose"] else arguments
  arguments ++ ["--stdout-errors"]

/-- A firmware with the fields that do not reach the command line left empty. -/
def FirmwareInfo.ofFlash (pitFilename : String) (repartition noReboot : Bool)
    (fileInfos : List FileInfo) : FirmwareInfo :=
  { name := "", version := "", platformInfo := ⟨"", ""⟩, developers := [], url := "",
    donateUrl := "", deviceInfos := [], pitFilename := pitFilename,
    repartition := repartition, noReboot := noReboot, fileInfos := fileInfos }

/-! ## `MainWindow::BuildPackage`: the destination path -/

/-- The value of `packagePath` that `MainWindow::BuildPackage` passes to
`Packaging::BuildPackage`, for a non-empty path returned by the file dialog. -/
def BuildPackage.packagePath (packagePath : String) : String :=
  if !QString.endsWithCI packagePath ".tar.gz" then
    if QString.endsWithCI packagePath ".tar" then
      QString.append packagePath ".gz"
    else if QString.endsWithCI packagePath ".gz" then
      QString.replaceQChar packagePath
        (QString.QCharOfInt (QString.length packagePath - 3)) ".tar.gz"
    else if QString.endsWithCI packagePath ".tgz" then
      QString.replaceQChar packagePath
        (QString.QCharOfInt (QString.length packagePath - 4)) ".tar.gz"
    else
      QString.append packagePath ".tar.gz"
  else packagePath

/-- The value of `outPath` that `MainWindow::ConvertSamsungQuick` passes to
`Packaging::BuildPackage`, for a non-empty path returned by the file dialog. -/
def ConvertSamsungQuick.outPath (outPath : String) : String :=
  if !QString.endsWithCI outPath ".tar.gz" then
    if QString.endsWithCI outPath ".tar" then
      QString.append outPath ".gz"
    else if QString.endsWithCI outPath ".gz" then
      QString.replaceAt outPath (QString.length outPath - 3) 3 ".tar.gz"
    else if QString.endsWithCI outPath ".tgz" then
      QString.replaceAt outPath (QString.length outPath - 4) 4 ".tar.gz"
    else
      QString.append outPath ".tar.gz"
  else outPath

/-- The normalisation of a destination path as the specification words it:
a path ending in `.tar.gz` is kept, `.tar` gets `.gz` appended, `.gz` loses its
last 3 characters and `.tgz` its last 4 before `.tar.gz` is appended, any other
path gets `.tar.gz` appended (suffix tests ignore letter case). -/
def normalisePathSpec (p : String) : String :=
  if QString.endsWithCI p ".tar.gz" then p
  else if QString.endsWithCI p ".tar" then ⟨p.data ++ ".gz".data⟩
  else if QString.endsWithCI p ".gz" then ⟨p.data.take (p.data.length - 3) ++ ".tar.gz".data⟩
  else if QString.endsWithCI p ".tgz" then ⟨p.data.take (p.data.length - 4) ++ ".tar.gz".data⟩
  else ⟨p.data ++ ".tar.gz".data⟩

/-! ## `MainWindow::ConvertSamsungQuick`: the partition matcher -/

/-- The cast `(int)` of an `unsigned int`: values from `2^31` on wrap to the
negative numbers. -/
def toInt32 (u : Nat) : Int :=
  if u % 2 ^ 32 < 2 ^ 31 then ((u % 2 ^ 32 : Nat) : Int)
  else ((u % 2 ^ 32 : Nat) : Int) - 2 ^ 32

/-- The static function `basenameLower`. -/
def basenameLower (path : String) : String :=
  let base := QString.fileName path
  QString.toLower base

/-- One turn of the loop of `stripExtensions`. -/
def stripExtensions.turn (s : String) : String :=
  let idx := QString.lastIndexOf s '.'
  if idx > 0 then QString.left s idx else s

/-- The static function `stripExtensions`: its loop runs twice. -/
def stripExtensions (name : String) : String :=
  let s := name
  let s := stripExtensions.turn s
  let s := stripExtensions.turn s
  s

/-- The lambda `findPartitionIdByName` of `ConvertSamsungQuick`. -/
def findPartitionIdByName (currentPitData : PitData) (cand : String) : Int :=
  if QString.isEmpty cand then -1
  else
    match currentPitData.FindEntryByName cand with
    | some e => toInt32 e.GetIdentifier
    | none => -1

/-- The lambda `findPartitionIdByFlashFilename` of `ConvertSamsungQuick`; the
recursion is its loop over the entries of the table, in table order. -/
def findPartitionIdByFlashFilename : PitData → String → Int
  | [], _ => -1
  | pe :: rest, fileBase =>
    if !pe.IsFlashable then findPartitionIdByFlashFilename rest fileBase
    else
      let flash := QString.toLower pe.GetFlashFilename
      if QString.isEmpty flash then findPartitionIdByFlashFilename rest fileBase
      else if flash == fileBase || QString.contains flash fileBase then
        toInt32 pe.GetIdentifier
      else findPartitionIdByFlashFilename rest fileBase

/-- The lambda `tryCandidates` of `ConvertSamsungQuick`; the recursion is its
loop over the candidate names. -/
def tryCandidates (currentPitData : PitData) : List String → String → Int
  | [], fileBase => findPartitionIdByFlashFilename currentPitData fileBase
  | c :: cands, fileBase =>
    let id := findPartitionIdByName currentPitData c
    if id ≥ 0 then id else tryCandidates currentPitData cands fileBase

/-- The list `cands` that the loop body of `ConvertSamsungQuick` builds from
the lowercased basename, one `if` of the source per line. -/
def ConvertSamsungQuick.cands (lower : String) : List String :=
  let cands : List String := []
  let cands := if QString.contains lower "home_csc" then cands ++ ["CSC", "ODM", "OMC"] else cands
  let cands := if QString.contains lower "csc" then cands ++ ["CSC", "ODM", "OMC"] else cands
  let cands := if QString.contains lower "modem" || QString.startsWith lower "cp_" then
    cands ++ ["MODEM", "CP"] else cands
  let cands := if QString.contains lower "bootloader" || QString.contains lower "sboot" then
    cands ++ ["SBOOT", "BOOTLOADER"] else cands
  let cands := if QString.contains lower "boot" && !QString.contains lower "bootloader" then
    cands ++ ["BOOT"] else cands
  let cands := if QString.contains lower "recovery" then cands ++ ["RECOVERY"] else cands
  let cands := if QString.contains lower "system" then cands ++ ["SYSTEM"] else cands
  let cands := if QString.contains lower "vendor" then cands ++ ["VENDOR"] else cands
  let cands := if QString.contains lower "product" then cands ++ ["PRODUCT"] else cands
  let cands := if QString.contains lower "userdata" then cands ++ ["USERDATA"] else cands
  let cands := if QString.contains lower "cache" then cands ++ ["CACHE"] else cands
  let cands := if QString.contains lower "dtbo" then cands ++ ["DTBO"] else cands
  let cands := if QString.contains lower "vbmeta" then
    cands ++ ["VBMETA_SYSTEM", "VBMETA_VENDOR", "VBMETA"] else cands
  let cands := if QString.contains lower "param" then cands ++ ["PARAM"] else cands
  let cands := if lower == "cm.bin" || QString.contains lower "cm" then cands ++ ["CM"] else cands
  cands ++ [QString.toUpper (stripExtensions lower)]

/-- The value `partId` that the loop body of `ConvertSamsungQuick` computes for
a file that is not skipped: the matcher. A negative value is no match. -/
def ConvertSamsungQuick.partId (currentPitData : PitData) (path : String) : Int :=
  let lower := basenameLower path
  let baseNoExt := stripExtensions lower
  tryCandidates currentPitData (ConvertSamsungQuick.cands lower) baseNoExt

/-- The two lists the loop of `ConvertSamsungQuick` fills. -/
structure ConvertSamsungQuick.Lists where
  skippedArchives : List String
  mapped : List FileInfo
  deriving DecidableEq, Repr

/-- The body of the loop `for (const QString &path : srcFiles)` of
`ConvertSamsungQuick`. -/
def ConvertSamsungQuick.body (currentPitData : PitData)
    (lists : ConvertSamsungQuick.Lists) (path : String) : ConvertSamsungQuick.Lists :=
  let lower := basenameLower path
  if QString.endsWith lower ".tar" || QString.endsWith lower ".md5" then
    { lists with skippedArchives := lists.skippedArchives ++ [lower] }
  else
    let partId := ConvertSamsungQuick.partId currentPitData path
    if partId ≥ 0 then
      { lists with mapped := lists.mapped ++ [⟨partId.toNat % 2 ^ 32, path⟩] }
    else lists

/-- The loop `for (const QString &path : srcFiles)` of `ConvertSamsungQuick`,
started with both lists empty. -/
def ConvertSamsungQuick.loop (currentPitData : PitData) (srcFiles : List String) :
    ConvertSamsungQuick.Lists :=
  srcFiles.foldl (ConvertSamsungQuick.body currentPitData) ⟨[], []⟩

/-- The flashability rule as the specification words it: the flashable flag is
set and the name is neither `PIT` nor `PT`. -/
def isFlashableSpec (e : PitEntry) : Bool :=
  e.flashable && e.partitionName != "PIT" && e.partitionName != "PT"

/-- The flag of a binding as the specification words it: the partition name
when the entry is found and flashable by the rule, else the decimal
identifier. -/
def flagSpec (pit : PitData) (fileInfo : FileInfo) : String :=
  match pit.FindEntry fileInfo.GetPartitionId with
  | some pe =>
    if isFlashableSpec pe then "--" ++ pe.partitionName
    else "--" ++ Nat.repr fileInfo.GetPartitionId
  | none => "--" ++ Nat.repr fileInfo.GetPartitionId

/-- The tokens in front of the bindings: `flash`, the repartition flag when it
is emitted, `--PIT` and the PIT filename. -/
def StartFlash.head (firmwareInfo : FirmwareInfo) : List String :=
  ["flash"] ++
    (if (firmwareInfo.repartition && !(firmwareInfo.fileInfos.length == 1)) = true then
      ["--repartition"] else []) ++
    ["--PIT", firmwareInfo.pitFilename]

/-! ## Further `QString` operations -/

/-- The call `QString::mid(position, n)` for a position that is not negative:
`n` characters from `position` on, all that are left when `n` is negative, the
null string when `position` is beyond the end. -/
def QString.mid (s : String) (position n : Int) : String :=
  if position > QString.length s then ""
  else if n < 0 then ⟨s.data.drop position.toNat⟩
  else ⟨(s.data.drop position.toNat).take n.toNat⟩

/-- The call `QString::remove(QChar)`: every occurrence of the character is
removed. -/
def QString.removeQChar (s : String) (c : Char) : String :=
  ⟨s.data.filter (fun x => x != c)⟩

/-- The scan of `QString::remove(const QString &)`: `skip` characters of an
occurrence found earlier are still to be dropped; otherwise an occurrence that
starts here is dropped and the scan goes on behind it. -/
def QString.removeScan (pat : List Char) : Nat → List Char → List Char
  | _, [] => []
  | skip + 1, _ :: s => QString.removeScan pat skip s
  | 0, c :: s =>
    if pat.isPrefixOf (c :: s) then QString.removeScan pat (pat.length - 1) s
    else c :: QString.removeScan pat 0 s

/-- The call `QString::remove(const QString &)`, case sensitive: every
occurrence of the text is removed, scanning from the left; an empty text
removes nothing. -/
def QString.removeAll (s pat : String) : String :=
  if pat.data.isEmpty then s else ⟨QString.removeScan pat.data 0 s.data⟩

/-- The number a run of decimal digits writes. -/
def QString.digitsValue (digits : List Char) : Nat :=
  digits.foldl (fun acc c => 10 * acc + (c.toNat - 48)) 0

/-- The call `QString::toInt()` on a run of decimal digits: the number when it
fits an `int`, else 0 (the failed conversion); 0 on any other text the code
does not pass. -/
def QString.toInt (s : String) : Int :=
  if s.data.all Char.isDigit && !s.data.isEmpty then
    if QString.digitsValue s.data ≤ 2147483647 then (QString.digitsValue s.data : Int) else 0
  else 0

/-! ## `QRegExp`: the two expressions of `HandleHeimdallStdout` -/

/-- The backward search of `QString::lastIndexOf(const QRegExp &)`: with
`matchAt` giving the text the expression matches at the start of a suffix, the
captured text of the match that starts last, `none` for the result `-1`. -/
def QRegExp.lastMatch (matchAt : List Char → Option (List Char)) :
    List Char → Option (List Char)
  | [] => matchAt []
  | c :: s =>
    match QRegExp.lastMatch matchAt s with
    | some m => some m
    | none => matchAt (c :: s)

/-- The expression `"Uploading [^\n]+\n"` matched at the start of a text: the
literal, then the run of characters up to the next newline, which must not be
empty and must be followed by that newline. -/
def uploadingExp.matchAt (s : List Char) : Option (List Char) :=
  if "Uploading ".data.isPrefixOf s then
    let rest := s.drop "Uploading ".data.length
    let run := rest.takeWhile (fun c => c != '\n')
    if !run.isEmpty && (rest.drop run.length).head? == some '\n' then
      some ("Uploading ".data ++ run ++ ['\n'])
    else none
  else none

/-- The expression `"[\b\n][0-9]+%"` matched at the start of a text: a
backspace or a newline, a run of decimal digits that is not empty, a percent
sign. -/
def percentExp.matchAt (s : List Char) : Option (List Char) :=
  match s with
  | [] => none
  | c :: rest =>
    if c == '\x08' || c == '\n' then
      let run := rest.takeWhile Char.isDigit
      if !run.isEmpty && (rest.drop run.length).head? == some '%' then
        some (c :: run ++ ['%'])
      else none
    else none

/-! ## The state of the main window and the tool session -/

/-- Modelled from the spec: the enumeration `HeimdallState` of `mainwindow.h`,
one bit per state and one for the sticky no-reboot flag. -/
def HeimdallState.Stopped : Nat := 1

/-- Modelled from the spec: the bit `HeimdallState::Flashing`. -/
def HeimdallState.Flashing : Nat := 2

/-- Modelled from the spec: the bit `HeimdallState::DetectingDevice`. -/
def HeimdallState.DetectingDevice : Nat := 4

/-- Modelled from the spec: the bit `HeimdallState::ClosingPcScreen`. -/
def HeimdallState.ClosingPcScreen : Nat := 8

/-- Modelled from the spec: the bit `HeimdallState::PrintingPit`. -/
def HeimdallState.PrintingPit : Nat := 16

/-- Modelled from the spec: the bit `HeimdallState::DownloadingPit`. -/
def HeimdallState.DownloadingPit : Nat := 32

/-- Modelled from the spec: the bit `HeimdallState::NoReboot`. -/
def HeimdallState.NoReboot : Nat := 64

/-- The test `!!(state & flag)`. -/
def HeimdallState.has (state flag : Nat) : Bool := state &&& flag != 0

/-- The enumeration `QProcess::ProcessError`. -/
inductive ProcessError where
  | FailedToStart
  | Crashed
  | Timedout
  | ReadError
  | WriteError
  | UnknownError
  deriving DecidableEq, Repr

/-- The enumeration `QProcess::ExitStatus`. -/
inductive ExitStatus where
  | NormalExit
  | CrashExit
  deriving DecidableEq, Repr

/-- Modelled from the spec: the lower end of the range of `flashProgressBar`
(the form `mainwindow.ui` is not among the sources). -/
def ProgressBar.minimum : Int := 0

/-- Modelled from the spec: the upper end of the range of `flashProgressBar`. -/
def ProgressBar.maximum : Int := 100

/-- The progress bar `flashProgressBar`: its value and whether it is enabled. -/
structure ProgressBar where
  value : Int := 0
  enabled : Bool := false
  deriving DecidableEq, Repr

/-- The call `QProgressBar::setValue`: a value outside the range has no
effect, unless the range is 0 to 0. -/
def ProgressBar.setValue (bar : ProgressBar) (value : Int) : ProgressBar :=
  if bar.value = value ∨
      ((value > ProgressBar.maximum ∨ value < ProgressBar.minimum) ∧
        (ProgressBar.maximum ≠ 0 ∨ ProgressBar.minimum ≠ 0)) then
    bar
  else { bar with value := value }

/-- The call `FirmwareInfo::Clear`: every field is reset. -/
def FirmwareInfo.Clear (_firmwareInfo : FirmwareInfo) : FirmwareInfo :=
  FirmwareInfo.ofFlash "" false false []

/-- A backing file of a package (`QTemporaryFile`): its template, its name on
disk, and the bytes read from it, `none` when it cannot be opened. -/
structure TemporaryFile where
  fileTemplate : String
  fileName : String
  contents : Option (List Nat)
  deriving DecidableEq, Repr

/-- Modelled from the spec: the class `PackageData` of `PackageData.h`, the
firmware information and the backing files the package owns. -/
structure PackageData where
  firmwareInfo : FirmwareInfo := FirmwareInfo.ofFlash "" false false []
  files : List TemporaryFile := []
  deriving DecidableEq, Repr

/-- Modelled from the spec: `PackageData::Clear`, which resets the firmware
information and deletes the backing files. -/
def PackageData.Clear (_package : PackageData) : PackageData := {}

/-- Modelled from the spec: `PackageData::RemoveAllFiles`, which forgets the
backing files without deleting them. -/
def PackageData.RemoveAllFiles (package : PackageData) : PackageData :=
  { package with files := [] }

/-- The members of `MainWindow` and the contents of the widgets that the
modelled functions read or write. `workingFirmwareInfo` and `workingFiles` are
the two parts of `workingPackageData`. -/
structure MainWindow where
  heimdallState : Nat := HeimdallState.Stopped
  heimdallFailed : Bool := false
  resume : Bool := false
  verboseOutput : Bool := false
  currentPitData : PitData := []
  workingFirmwareInfo : FirmwareInfo := FirmwareInfo.ofFlash "" false false []
  unusedPartitionIds : List Nat := []
  partitionsListWidgetRow : Int := -1
  populatingPartitionNames : Bool := false
  flashLabel : String := ""
  flashProgressBar : ProgressBar := {}
  outputPlainTextEdit : String := ""
  utilityOutputPlainTextEdit : String := ""
  deviceDetectedRadioButton : Bool := false
  pitDestinationLineEdit : String := ""
  printPitLocalFileRadioBox : Bool := false
  printLocalPitLineEdit : String := ""
  loadedPackageData : PackageData := {}
  workingFiles : List TemporaryFile := []
  partitionsListWidget : List String := []
  partitionNameComboBoxEnabled : Bool := false
  startFlashButton : Bool := false
  noRebootCheckBoxEnabled : Bool := false
  resumeCheckboxEnabled : Bool := false
  deriving DecidableEq, Repr

/-- The function `MainWindow::SetResume(bool)`. -/
def SetResume (w : MainWindow) (enabled : Bool) : MainWindow :=
  { w with resume := enabled }

/-! ## The run-starting operations, up to their call of `StartHeimdall` -/

/-- The function `MainWindow::StartFlash`: the state and the arguments at its
call of `StartHeimdall`. -/
def StartFlash (w : MainWindow) : MainWindow × List String :=
  let w := { w with outputPlainTextEdit := "" }
  let w := { w with heimdallState := HeimdallState.Flashing }
  let w := { w with heimdallFailed := false }
  let firmwareInfo := w.workingFirmwareInfo
  let singlePartitionFlash : Bool := firmwareInfo.fileInfos.length == 1
  let w :=
    if firmwareInfo.repartition && !singlePartitionFlash then w
    else if firmwareInfo.repartition && singlePartitionFlash then
      { w with flashLabel := "Skipping repartition (single partition flash)" }
    else w
  let w :=
    if firmwareInfo.noReboot then
      { w with heimdallState := w.heimdallState ||| HeimdallState.NoReboot }
    else w
  (w, StartFlash.arguments w.currentPitData firmwareInfo w.resume w.verboseOutput)

/-- The function `MainWindow::DetectDevice`: the state and the arguments at
its call of `StartHeimdall`. -/
def DetectDevice (w : MainWindow) : MainWindow × List String :=
  let w := { w with deviceDetectedRadioButton := false }
  let w := { w with utilityOutputPlainTextEdit := "" }
  let w := { w with heimdallState := HeimdallState.DetectingDevice }
  let w := { w with heimdallFailed := false }
  let arguments : List String := ["detect"]
  let arguments := if w.verboseOutput then arguments ++ ["--verbose"] else arguments
  (w, arguments ++ ["--stdout-errors"])

/-- The function `MainWindow::ClosePcScreen`: the state and the arguments at
its call of `StartHeimdall`. -/
def ClosePcScreen (w : MainWindow) : MainWindow × List String :=
  let w := { w with utilityOutputPlainTextEdit := "" }
  let w := { w with heimdallState := HeimdallState.ClosingPcScreen }
  let w := { w with heimdallFailed := false }
  let arguments : List String := ["close-pc-screen"]
  let arguments := if w.resume then arguments ++ ["--resume"] else arguments
  let arguments := if w.verboseOutput then arguments ++ ["--verbose"] else arguments
  (w, arguments ++ ["--stdout-errors"])

/-- The function `MainWindow::DownloadPit`: the state and the arguments at its
call of `StartHeimdall`. -/
def DownloadPit (w : MainWindow) : MainWindow × List String :=
  let w := { w with deviceDetectedRadioButton := false }
  let w := { w with utilityOutputPlainTextEdit := "" }
  let w := { w with
    heimdallState := HeimdallState.DownloadingPit ||| HeimdallState.NoReboot }
  let w := { w with heimdallFailed := false }
  let arguments : List String := ["download-pit"]
  let arguments := arguments ++ ["--output"]
  let arguments := arguments ++ [w.pitDestinationLineEdit]
  let arguments := arguments ++ ["--no-reboot"]
  let arguments := if w.resume then arguments ++ ["--resume"] else arguments
  let arguments := if w.verboseOutput then arguments ++ ["--verbose"] else arguments
  (w, arguments ++ ["--stdout-errors"])

/-- The function `MainWindow::PrintPit`: the state and the arguments at its
call of `StartHeimdall`. -/
def PrintPit (w : MainWindow) : MainWindow × List String :=
  let w := { w with utilityOutputPlainTextEdit := "" }
  let w := { w with heimdallState := HeimdallState.PrintingPit ||| HeimdallState.NoReboot }
  let w := { w with heimdallFailed := false }
  let arguments : List String := ["print-pit"]
  let arguments :=
    if w.printPitLocalFileRadioBox then arguments ++ ["--file"] ++ [w.printLocalPitLineEdit]
    else arguments
  let arguments := arguments ++ ["--stdout-errors"]
  let arguments := arguments ++ ["--no-reboot"]
  let arguments := if w.resume then arguments ++ ["--resume"] else arguments
  let arguments := if w.verboseOutput then arguments ++ ["--verbose"] else arguments
  (w, arguments)

/-! ## The handlers of the tool's output and of its end -/

/-- The text `HandleHeimdallStdout` inserts into the display: the output with
`remove(QChar('\b'))` and then `replace(QChar('%'), "%\n")` applied. -/
def HandleHeimdallStdout.display (output : String) : String :=
  let output := QString.removeQChar output '\x08'
  QString.replaceQChar output ('%').toNat "%\n"

/-- The first statement of `HandleHeimdallStdout`: the last upload-status
line of the output, without its newline, goes to the flash label. -/
def HandleHeimdallStdout.status (w : MainWindow) (output : String) : MainWindow :=
  match QRegExp.lastMatch uploadingExp.matchAt output.data with
  | some cap =>
    { w with flashLabel := QString.left ⟨cap⟩ (QString.length ⟨cap⟩ - 1) }
  | none => w

/-- The second statement of `HandleHeimdallStdout`: the number of the last
percentage marker of the output goes to the progress bar. -/
def HandleHeimdallStdout.progress (w : MainWindow) (output : String) : MainWindow :=
  match QRegExp.lastMatch percentExp.matchAt output.data with
  | some cap =>
    let percentString : String := ⟨cap⟩
    let value := QString.toInt (QString.mid percentString 1 (QString.length percentString - 2))
    { w with flashProgressBar := w.flashProgressBar.setValue value }
  | none => w

/-- The last statement of `HandleHeimdallStdout`: the display text is
inserted into the flash output during a flash, into the utility output
otherwise. The display is a text edit whose cursor stays at its end. -/
def HandleHeimdallStdout.insert (w : MainWindow) (output : String) : MainWindow :=
  let output := HandleHeimdallStdout.display output
  if HeimdallState.has w.heimdallState HeimdallState.Flashing then
    { w with outputPlainTextEdit := QString.append w.outputPlainTextEdit output }
  else
    { w with utilityOutputPlainTextEdit := QString.append w.utilityOutputPlainTextEdit output }

/-- The function `MainWindow::HandleHeimdallStdout`, `output` being what
`heimdallProcess.readAll()` returns. -/
def HandleHeimdallStdout (w : MainWindow) (output : String) : MainWindow :=
  let w := HandleHeimdallStdout.status w output
  let w := HandleHeimdallStdout.progress w output
  HandleHeimdallStdout.insert w output

/-- The text `HandleHeimdallReturned` puts on the flash label when a flash
did not end with a normal exit and code 0, from what
`readAllStandardError()` returns. -/
def HandleHeimdallReturned.error (error : String) : String :=
  let lastNewLineChar := QString.lastIndexOf error '\n'
  if lastNewLineChar = 0 then
    QString.removeAll (QString.mid error 1 (-1)) "ERROR: "
  else
    QString.removeAll (QString.left error lastNewLineChar) "ERROR: "

/-- The function `MainWindow::HandleHeimdallReturned`; `output` is what is
left to read on the standard output, `error` what `readAllStandardError()`
returns. -/
def HandleHeimdallReturned (w : MainWindow) (output error : String) (exitCode : Int)
    (exitStatus : ExitStatus) : MainWindow :=
  let w := HandleHeimdallStdout w output
  let w :=
    if exitStatus = ExitStatus.NormalExit ∧ exitCode = 0 then
      let w := SetResume w (HeimdallState.has w.heimdallState HeimdallState.NoReboot)
      if HeimdallState.has w.heimdallState HeimdallState.Flashing then
        { w with flashLabel := "Flash completed successfully!" }
      else if HeimdallState.has w.heimdallState HeimdallState.DetectingDevice then
        { w with deviceDetectedRadioButton := true }
      else w
    else
      if HeimdallState.has w.heimdallState HeimdallState.Flashing then
        { w with flashLabel := HandleHeimdallReturned.error error }
      else if HeimdallState.has w.heimdallState HeimdallState.DetectingDevice then
        { w with deviceDetectedRadioButton := false }
      else w
  let w := { w with heimdallState := HeimdallState.Stopped }
  let w := { w with flashProgressBar := w.flashProgressBar.setValue 0 }
  { w with flashProgressBar := { w.flashProgressBar with enabled := false } }

/-- The function `MainWindow::HandleHeimdallError`; `stderrText` is what
`readAllStandardError()` returns. -/
def HandleHeimdallError (w : MainWindow) (stderrText : String) (error : ProcessError) :
    MainWindow :=
  if error = ProcessError.FailedToStart ∨ error = ProcessError.Timedout then
    let w :=
      if HeimdallState.has w.heimdallState HeimdallState.Flashing then
        let w := { w with flashLabel := "Failed to start Heimdall!" }
        { w with flashProgressBar := { w.flashProgressBar with enabled := false } }
      else
        { w with utilityOutputPlainTextEdit :=
            QString.append "\nFRONTEND ERROR: Failed to start Heimdall!\n" stderrText }
    let w := { w with heimdallFailed := true }
    { w with heimdallState := HeimdallState.Stopped }
  else if error = ProcessError.Crashed then
    let w :=
      if HeimdallState.has w.heimdallState HeimdallState.Flashing then
        let w := { w with flashLabel := "Heimdall crashed!" }
        { w with flashProgressBar := { w.flashProgressBar with enabled := false } }
      else
        let text := QString.append "\nFRONTEND ERROR: Heimdall crashed!\n" stderrText
        { w with utilityOutputPlainTextEdit :=
            QString.append w.utilityOutputPlainTextEdit (QString.append "\n" text) }
    { w with heimdallState := HeimdallState.Stopped }
  else
    let w :=
      if HeimdallState.has w.heimdallState HeimdallState.Flashing then
        let w := { w with flashLabel := "Heimdall reported an unknown error!" }
        { w with flashProgressBar := { w.flashProgressBar with enabled := false } }
      else
        let text :=
          QString.append "\nFRONTEND ERROR: Heimdall reported an unknown error!\n" stderrText
        { w with utilityOutputPlainTextEdit :=
            QString.append w.utilityOutputPlainTextEdit (QString.append "\n" text) }
    { w with heimdallState := HeimdallState.Stopped }

/-- The status text of a failed flash as the specification words it: the last
line of the error output (a final newline only ends that line), without a
leading `ERROR: `. -/
def errorTextSpec (error : String) : String :=
  let text := if error.data.getLast? = some '\n' then error.data.dropLast else error.data
  let line := (text.reverse.takeWhile (fun c => c != '\n')).reverse
  if "ERROR: ".data.isPrefixOf line then ⟨line.drop "ERROR: ".data.length⟩ else ⟨line⟩

/-- The test under which the loop of `findPartitionIdByFlashFilename` returns
an entry: `IsFlashable()`, a lowercased flash filename that is not empty and
that equals or contains `fileBase`. -/
def findPartitionIdByFlashFilename.accepts (pe : PitEntry) (fileBase : String) : Bool :=
  pe.IsFlashable && !QString.isEmpty (QString.toLower pe.GetFlashFilename) &&
    (QString.toLower pe.GetFlashFilename == fileBase
      || QString.contains (QString.toLower pe.GetFlashFilename) fileBase)

/-- The fallback of the matcher as the specification words it: the identifier
of the first entry in table order that is flashable by the rule and whose
flash filename equals or contains the extension-stripped lowercased basename. -/
def fallbackSpec (pit : PitData) (fileBase : String) : Option Nat :=
  (pit.find? (fun e => isFlashableSpec e &&
    (e.flashFilename == fileBase || QString.contains e.flashFilename fileBase))).map
    PitEntry.identifier

/-! ## The bindings and the unused partition identifiers -/

/-- The first loop of `UpdateUnusedPartitionIds`: the identifier of every entry
that `IsFlashable()` and is named neither `PIT` nor `PT` is appended, in table
order. -/
def UpdateUnusedPartitionIds.populate : PitData → List Nat → List Nat
  | [], unusedPartitionIds => unusedPartitionIds
  | pitEntry :: rest, unusedPartitionIds =>
    if pitEntry.IsFlashable && pitEntry.GetPartitionName != "PIT"
        && pitEntry.GetPartitionName != "PT" then
      UpdateUnusedPartitionIds.populate rest (unusedPartitionIds ++ [pitEntry.GetIdentifier])
    else UpdateUnusedPartitionIds.populate rest unusedPartitionIds

/-- The second loop of `UpdateUnusedPartitionIds`: `removeOne` of the
identifier of every binding, which removes its first occurrence. -/
def UpdateUnusedPartitionIds.removeUsed : List FileInfo → List Nat → List Nat
  | [], unusedPartitionIds => unusedPartitionIds
  | fileInfo :: rest, unusedPartitionIds =>
    UpdateUnusedPartitionIds.removeUsed rest (unusedPartitionIds.erase fileInfo.GetPartitionId)

/-- The function `MainWindow::UpdateUnusedPartitionIds`. -/
def UpdateUnusedPartitionIds (w : MainWindow) : MainWindow :=
  let unusedPartitionIds : List Nat := []
  let unusedPartitionIds := UpdateUnusedPartitionIds.populate w.currentPitData unusedPartitionIds
  { w with unusedPartitionIds :=
      UpdateUnusedPartitionIds.removeUsed w.workingFirmwareInfo.fileInfos unusedPartitionIds }

/-- The call `QList::removeAt`: nothing happens for an index outside the
list. -/
def QList.removeAt {α : Type} (l : List α) (i : Int) : List α :=
  if 0 ≤ i ∧ i < l.length then l.eraseIdx i.toNat else l

/-- The function `MainWindow::AddPartition`. `unusedPartitionIds.first()` is
undefined on an empty list, for which the result is `none`. The row of the
list widget is that of the binding. -/
def AddPartition (w : MainWindow) : Option MainWindow :=
  match w.unusedPartitionIds with
  | [] => none
  | first :: _ =>
    let partitionInfo : FileInfo := ⟨first, ""⟩
    let w := { w with workingFirmwareInfo :=
      { w.workingFirmwareInfo with
        fileInfos := w.workingFirmwareInfo.fileInfos ++ [partitionInfo] } }
    let w := UpdateUnusedPartitionIds w
    some { w with partitionsListWidgetRow := (w.workingFirmwareInfo.fileInfos.length : Int) - 1 }

/-- The function `MainWindow::RemovePartition`. -/
def RemovePartition (w : MainWindow) : MainWindow :=
  let w := { w with workingFirmwareInfo :=
    { w.workingFirmwareInfo with
      fileInfos := QList.removeAt w.workingFirmwareInfo.fileInfos w.partitionsListWidgetRow } }
  let w := UpdateUnusedPartitionIds w
  { w with partitionsListWidgetRow := -1 }

/-- The operations on the list of bindings: the two buttons, and the choice of
a row of the list widget, which `RemovePartition` reads. -/
inductive BindingOp where
  | add
  | remove
  | selectRow (row : Int)
  deriving DecidableEq, Repr

/-- One operation on the list of bindings. -/
def BindingOp.apply (w : MainWindow) : BindingOp → Option MainWindow
  | BindingOp.add => Heimdall.AddPartition w
  | BindingOp.remove => some (Heimdall.RemovePartition w)
  | BindingOp.selectRow row => some { w with partitionsListWidgetRow := row }

/-- A sequence of operations on the list of bindings. -/
def BindingOp.run : MainWindow → List BindingOp → Option MainWindow
  | w, [] => some w
  | w, op :: ops =>
    match BindingOp.apply w op with
    | some w1 => BindingOp.run w1 ops
    | none => none

/-- The state in which the editing of the bindings starts: the PIT table read,
no binding, the unused identifiers computed from them. -/
def MainWindow.ofPit (pit : PitData) : MainWindow :=
  UpdateUnusedPartitionIds { currentPitData := pit }

/-- The function `MainWindow::SelectPartitionName`, for the members it
changes. Indexing `unusedPartitionIds` or the bindings outside their bounds is
undefined, for which the result is `none`. -/
def SelectPartitionName (w : MainWindow) (index : Int) : Option MainWindow :=
  if !w.populatingPartitionNames && index != -1
      && index != (w.unusedPartitionIds.length : Int) then
    if index < 0 then none
    else
      match w.unusedPartitionIds[index.toNat]?,
          (if w.partitionsListWidgetRow < 0 then none
           else w.workingFirmwareInfo.fileInfos[w.partitionsListWidgetRow.toNat]?) with
      | some newPartitionIndex, some fileInfo =>
        let unusedPartitionIds := QList.removeAt w.unusedPartitionIds index
        let unusedPartitionIds := unusedPartitionIds ++ [fileInfo.GetPartitionId]
        let fileInfo := { fileInfo with partitionId := newPartitionIndex }
        some { w with
          unusedPartitionIds := unusedPartitionIds,
          workingFirmwareInfo := { w.workingFirmwareInfo with
            fileInfos :=
              w.workingFirmwareInfo.fileInfos.set w.partitionsListWidgetRow.toNat fileInfo } }
      | _, _ => none
  else some w

/-- A PIT table of four entries: the table's own `PIT` entry, `BOOT`, `SYSTEM`
and an entry whose flashable flag is unset. -/
def examplePit : PitData :=
  [⟨1, "PIT", "", true⟩, ⟨2, "BOOT", "boot.img", true⟩, ⟨3, "SYSTEM", "system.img", true⟩,
   ⟨4, "X", "", false⟩]

/-- The state after adding two bindings on `examplePit`, choosing the first
row and removing it. -/
def exampleBindingState : MainWindow :=
  { currentPitData := examplePit,
    workingFirmwareInfo := FirmwareInfo.ofFlash "" false false [⟨3, ""⟩],
    unusedPartitionIds := [2],
    partitionsListWidgetRow := -1 }

/-- A state that loading a package leaves: the table has the entry `PIT` with
the flashable flag set and the entry `BOOT`; the one binding of the package is
to the `PIT` entry; its row is chosen; the unused identifiers are computed by
`UpdateUnusedPartitionIds`. -/
def exampleReservedBinding : MainWindow :=
  UpdateUnusedPartitionIds
    { currentPitData := [⟨1, "PIT", "", true⟩, ⟨2, "BOOT", "boot.img", true⟩],
      workingFirmwareInfo := FirmwareInfo.ofFlash "a.pit" false false [⟨1, "x.img"⟩],
      partitionsListWidgetRow := 0 }

/-! ## `MainWindow::StartHeimdall`: the directories of the fallback -/

/-- The pieces of a text between the occurrences of a separator, empty pieces
kept. -/
def QString.splitChars (sep : Char) : List Char → List (List Char)
  | [] => [[]]
  | c :: s =>
    match QString.splitChars sep s with
    | [] => [[]]
    | piece :: pieces => if c == sep then [] :: piece :: pieces else (c :: piece) :: pieces

/-- The call `QString::split(QChar)`. -/
def QString.split (s : String) (sep : Char) : List String :=
  (QString.splitChars sep s.data).map String.mk

/-- The list `paths` that the fallback of `StartHeimdall` iterates over, from
`QProcess::systemEnvironment()`; the recursion is the loop over the
environment, left at the first entry that starts with `PATH=`. -/
def StartHeimdall.paths : List String → List String
  | [] => []
  | entry :: environment =>
    if QString.left entry 5 == "PATH=" then
      let paths := QString.split (QString.mid entry 5 (-1)) ':'
      let paths := if !paths.contains "/usr/local/bin" then "/usr/local/bin" :: paths else paths
      let paths := if !paths.contains "/usr/bin" then "/usr/bin" :: paths else paths
      paths
    else StartHeimdall.paths environment

/-! ## `MainWindow::ReadPit` -/

/-- The function `MainWindow::ReadPit`. `Unpack` stands for `PitData::Unpack`
of libpit: from the table as it is and the buffer it gives its result and the
table as it leaves it. `file` is the bytes of the file, `none` when it cannot
be opened. -/
def ReadPit (Unpack : PitData → List Nat → Bool × PitData) (w : MainWindow)
    (file : Option (List Nat)) : Bool × MainWindow :=
  match file with
  | none => (false, w)
  | some buffer =>
    let unpacked := Unpack w.currentPitData buffer
    let success := unpacked.1
    let w := { w with currentPitData := unpacked.2 }
    let w := if !success then { w with currentPitData := [] } else w
    (success, w)

/-- Modelled from the spec: `PitData::Unpack` of libpit. The header is
`headerSize` bytes and holds the entry count, each record is `recordSize`
bytes; unpacking fails on a buffer shorter than the header, or shorter than
the header and the declared records, or with a record that does not decode
(a string field that is not terminated); on failure the table is what it was
with the records decoded so far added. -/
def PitData.UnpackSpec (headerSize recordSize : Nat) (entryCount : List Nat → Nat)
    (decodeEntry : List Nat → Option PitEntry) (table : PitData) (buffer : List Nat) :
    Bool × PitData :=
  if buffer.length < headerSize then (false, table)
  else if buffer.length < headerSize + entryCount buffer * recordSize then (false, table)
  else
    let records := (List.range (entryCount buffer)).map
      (fun i => decodeEntry ((buffer.drop (headerSize + i * recordSize)).take recordSize))
    if records.all Option.isSome then (true, records.filterMap id)
    else (false, table ++ (records.takeWhile Option.isSome).filterMap id)

/-! ## `MainWindow::UpdateFlashInterfaceAvailability` -/

/-- The loop of `UpdateFlashInterfaceAvailability` that computes
`allPartitionsValid`: it stops with false at the first binding whose filename
is empty. -/
def UpdateFlashInterfaceAvailability.allPartitionsValid : List FileInfo → Bool
  | [] => true
  | fileInfo :: rest =>
    if QString.isEmpty fileInfo.GetFilename then false
    else UpdateFlashInterfaceAvailability.allPartitionsValid rest

/-- The function `MainWindow::UpdateFlashInterfaceAvailability`, for the
widgets of the model. -/
def UpdateFlashInterfaceAvailability (w : MainWindow) : MainWindow :=
  if HeimdallState.has w.heimdallState HeimdallState.Stopped then
    let w := { w with partitionNameComboBoxEnabled := decide (w.partitionsListWidgetRow ≥ 0) }
    let fileList := w.workingFirmwareInfo.fileInfos
    let allPartitionsValid := UpdateFlashInterfaceAvailability.allPartitionsValid fileList
    let validFlashSettings := allPartitionsValid && decide (fileList.length > 0)
    let w := { w with flashProgressBar := { w.flashProgressBar with enabled := false } }
    let w := { w with startFlashButton := validFlashSettings }
    let w := { w with noRebootCheckBoxEnabled := validFlashSettings }
    { w with resumeCheckboxEnabled := validFlashSettings }
  else
    let w := { w with partitionNameComboBoxEnabled := false }
    { w with flashProgressBar := { w.flashProgressBar with enabled := true } }

/-! ## `HeimdallFrontend::TEE::analyze` (`TEEAnalyzer.cpp`) -/

namespace TEE

/-- The enumeration `TeeType`. -/
inductive TeeType where
  | Unknown
  | QualcommQSEE
  | OPTEE
  | TrustonicKinibi
  | SamsungTEEgris
  | MediaTekMicrotrust
  | HuaweiiTEE
  | GoogleStrongBoxTitanM
  deriving DecidableEq, Repr

/-- The structure `TeeAnalysisResult`. -/
structure TeeAnalysisResult where
  type : TeeType
  typeName : String
  confidence : Int
  indicators : List String
  deriving DecidableEq, Repr

/-- The call `QString::contains(..., Qt::CaseInsensitive)`. -/
def containsCI (haystack needle : String) : Bool :=
  QString.contains (QString.toLower haystack) (QString.toLower needle)

/-- The static function `addIfContains`. -/
def addIfContains (indicators : List String) (haystack needle : String) : List String :=
  if containsCI haystack needle then indicators ++ [needle] else indicators

/-- The static function `addIfAny`; the recursion is its loop over the
needles. -/
def addIfAny (indicators : List String) (haystack : String) : List String → List String
  | [] => indicators
  | n :: needles => addIfAny (addIfContains indicators haystack n) haystack needles

/-- The loops over `vendorLibs`: a library that contains one of the texts,
whatever the letter case, is added to the hints. -/
def addLibs (hints : List String) (vendorLibs : List String) (texts : List String) :
    List String :=
  hints ++ vendorLibs.filter (fun lib => texts.any (fun t => containsCI lib t))

/-- The call `hints.filter(QRegExp(pattern, Qt::CaseInsensitive)).size()` for
a pattern that is an alternation of plain texts: the number of hints that
contain one of the texts, whatever the letter case. -/
def filterSize (hints : List String) (alternatives : List String) : Int :=
  ((hints.filter (fun h => alternatives.any (fun a => containsCI h a))).length : Int)

/-- The local structure `Candidate` of `analyze`. -/
structure Candidate where
  type : TeeType
  name : String
  score : Int
  deriving DecidableEq, Repr

/-- The list `cands` of `analyze` with the seven scores, and the hints at the
end of the scoring. -/
def analyze.cands (props devNodes kernelLog : String) (vendorLibs : List String) :
    List Candidate × List String :=
  let hints : List String := []
  let hints := addIfAny hints props ["qcom", "qsee", "qtee", "keymaster.qcom"]
  let hints := addIfContains hints devNodes "qseecom"
  let hints := addIfAny hints kernelLog ["qseecom", "qsee", "qtee"]
  let hints := addLibs hints vendorLibs ["QSEE", "QTEE", "QSEECom"]
  let qseeScore := filterSize hints ["qsee", "qtee", "qcom", "QSEE", "QTEE"]
  let hints := addIfAny hints devNodes ["/dev/tee0", "/dev/teepriv0"]
  let hints := addIfAny hints kernelLog ["optee", "tee core"]
  let hints := addIfAny hints props ["optee", "keymaster.optee"]
  let opteeScore := 0 + filterSize hints ["optee", "teepriv", "/dev/tee"]
  let hints := addIfAny hints props ["trustonic", "mobicore", "kinibi"]
  let hints := addIfAny hints kernelLog ["trustonic", "mobicore", "kinibi"]
  let hints := addLibs hints vendorLibs ["McClient", "trustonic", "mobicore"]
  let trustonicScore := 0 + filterSize hints ["trustonic", "mobicore", "kinibi", "McClient"]
  let hints := addIfAny hints props ["teegris", "tima"]
  let hints := addIfAny hints kernelLog ["teegris", "tima"]
  let hints := addLibs hints vendorLibs ["teegris", "tima"]
  let teegrisScore := 0 + filterSize hints ["teegris", "tima"]
  let hints := addIfAny hints props ["mtk", "microtrust"]
  let hints := addIfAny hints kernelLog ["microtrust", "mtk tee"]
  let mtkScore := 0 + filterSize hints ["microtrust", "mtk"]
  let hints := addIfAny hints props ["hisi", "huawei", "itee"]
  let hints := addIfAny hints kernelLog ["hisi", "itee"]
  let hisiScore := 0 + filterSize hints ["itee", "hisi", "huawei"]
  let hints := addIfAny hints props ["strongbox", "titan_m"]
  let hints := addIfAny hints kernelLog ["strongbox"]
  let strongboxScore := 0 + filterSize hints ["strongbox", "titan"]
  ([⟨TeeType.QualcommQSEE, "Qualcomm QSEE (QTEE)", qseeScore⟩,
    ⟨TeeType.OPTEE, "OP-TEE", opteeScore⟩,
    ⟨TeeType.TrustonicKinibi, "Trustonic Kinibi (Mobicore)", trustonicScore⟩,
    ⟨TeeType.SamsungTEEgris, "Samsung TEEgris (TIMA)", teegrisScore⟩,
    ⟨TeeType.MediaTekMicrotrust, "MediaTek Microtrust", mtkScore⟩,
    ⟨TeeType.HuaweiiTEE, "Huawei iTEE", hisiScore⟩,
    ⟨TeeType.GoogleStrongBoxTitanM, "Google StrongBox (Titan M)", strongboxScore⟩], hints)

/-- The loop of `analyze` that chooses `best`: a candidate replaces it when
its score is greater. -/
def analyze.best : Candidate → List Candidate → Candidate
  | best, [] => best
  | best, c :: cands => analyze.best (if c.score > best.score then c else best) cands

/-- The function `qBound(min, value, max)` of Qt. -/
def qBound (min value max : Int) : Int := Max.max min (Min.min max value)

/-- The product of two `int` values as the 32-bit multiplication gives it: the
low 32 bits of the exact product, read in two's complement. It is the exact
product when that is within the range of `int`. -/
def mulInt (a b : Int) : Int := toInt32 ((a * b) % 2 ^ 32).toNat

/-- The function `TEE::analyze`. The scores are `int` values, sizes of lists
of hints; `best.score * 12` is a product of `int` values. -/
def analyze (props devNodes kernelLog : String) (vendorLibs : List String) :
    TeeAnalysisResult :=
  let scored := analyze.cands props devNodes kernelLog vendorLibs
  let best := analyze.best ⟨TeeType.Unknown, "Unknown", 0⟩ scored.1
  { type := best.type,
    typeName := best.name,
    confidence := qBound 0 (mulInt best.score 12) 100,
    indicators := scored.2 }

end TEE

/-! ## `MainWindow::LoadFirmwarePackage` -/

/-- The inner loops of `LoadFirmwarePackage` over the files of the working
package: the first file whose template is the given one. -/
def LoadFirmwarePackage.fileOf : List TemporaryFile → String → Option TemporaryFile
  | [], _ => none
  | file :: files, fileTemplate =>
    if file.fileTemplate == fileTemplate then some file
    else LoadFirmwarePackage.fileOf files fileTemplate

/-- The first loop of `LoadFirmwarePackage`: for each binding of the package,
in order, the file named after it is searched and, when found, a binding with
the same partition identifier and the absolute path of the file is appended to
the working bindings. -/
def LoadFirmwarePackage.bindings (absoluteFilePath : String → String)
    (files : List TemporaryFile) : List FileInfo → List FileInfo → List FileInfo
  | [], fileInfos => fileInfos
  | packageFileInfo :: rest, fileInfos =>
    match LoadFirmwarePackage.fileOf files
        (QString.append "XXXXXX-" packageFileInfo.GetFilename) with
    | some file =>
      let partitionInfo : FileInfo :=
        ⟨packageFileInfo.GetPartitionId, absoluteFilePath file.fileName⟩
      LoadFirmwarePackage.bindings absoluteFilePath files rest (fileInfos ++ [partitionInfo])
    | none => LoadFirmwarePackage.bindings absoluteFilePath files rest fileInfos

/-- The loop of `LoadFirmwarePackage` that fills the list widget with the
partition names of the working bindings; `none` when a binding names an
identifier that `FindEntry` does not find. -/
def LoadFirmwarePackage.populate (pit : PitData) : List FileInfo → List String →
    Option (List String)
  | [], items => some items
  | partitionInfo :: rest, items =>
    match pit.FindEntry partitionInfo.GetPartitionId with
    | some pitEntry => LoadFirmwarePackage.populate pit rest (items ++ [pitEntry.GetPartitionName])
    | none => none

/-- The part of `LoadFirmwarePackage` after the PIT file was searched and
read. -/
def LoadFirmwarePackage.finish (w : MainWindow) : MainWindow :=
  let w := UpdateUnusedPartitionIds w
  let w := { w with workingFirmwareInfo :=
    { w.workingFirmwareInfo with repartition := w.loadedPackageData.firmwareInfo.repartition } }
  let w := { w with workingFirmwareInfo :=
    { w.workingFirmwareInfo with noReboot := w.loadedPackageData.firmwareInfo.noReboot } }
  let w := { w with loadedPackageData := w.loadedPackageData.Clear }
  let w := { w with partitionsListWidget := [] }
  match LoadFirmwarePackage.populate w.currentPitData w.workingFirmwareInfo.fileInfos
      w.partitionsListWidget with
  | some items => { w with partitionsListWidget := items }
  | none =>
    let w := { w with loadedPackageData :=
      { w.loadedPackageData with
        firmwareInfo := FirmwareInfo.Clear w.loadedPackageData.firmwareInfo } }
    let w := { w with currentPitData := [] }
    let w := UpdateUnusedPartitionIds w
    { w with partitionsListWidget := [] }

/-- The function `MainWindow::LoadFirmwarePackage`. `Unpack` stands for
`PitData::Unpack`, `absoluteFilePath` for `QDir::current().absoluteFilePath`. -/
def LoadFirmwarePackage (Unpack : PitData → List Nat → Bool × PitData)
    (absoluteFilePath : String → String) (w : MainWindow) : MainWindow :=
  let w := { w with
    workingFirmwareInfo := FirmwareInfo.Clear w.workingFirmwareInfo, workingFiles := [] }
  let w := { w with currentPitData := [] }
  let w := { w with workingFiles := w.workingFiles ++ w.loadedPackageData.files }
  let w := { w with loadedPackageData := w.loadedPackageData.RemoveAllFiles }
  let packageFileInfos := w.loadedPackageData.firmwareInfo.fileInfos
  let w := { w with workingFirmwareInfo :=
    { w.workingFirmwareInfo with
      fileInfos := LoadFirmwarePackage.bindings absoluteFilePath w.workingFiles
        packageFileInfos w.workingFirmwareInfo.fileInfos } }
  match LoadFirmwarePackage.fileOf w.workingFiles
      (QString.append "XXXXXX-" w.loadedPackageData.firmwareInfo.pitFilename) with
  | some file =>
    let w := { w with workingFirmwareInfo :=
      { w.workingFirmwareInfo with pitFilename := absoluteFilePath file.fileName } }
    let read := ReadPit Unpack w file.contents
    if !read.1 then
      let w := read.2
      let w := { w with loadedPackageData := w.loadedPackageData.Clear }
      let w := { w with
        workingFirmwareInfo := FirmwareInfo.Clear w.workingFirmwareInfo, workingFiles := [] }
      UpdateUnusedPartitionIds w
    else LoadFirmwarePackage.finish read.2
  | none => LoadFirmwarePackage.finish w

/-! ## `MainWindow::SelectPit` -/

/-- The first loop of `SelectPit`: the partition name of every binding, looked
up in the PIT table as it is; `none` when `FindEntry` returns a null pointer,
which the code dereferences. -/
def SelectPit.partitionNames (pit : PitData) : List FileInfo → Option (List String)
  | [] => some []
  | fileInfo :: rest =>
    match pit.FindEntry fileInfo.GetPartitionId, SelectPit.partitionNames pit rest with
    | some pitEntry, some names => some (pitEntry.GetPartitionName :: names)
    | _, _ => none

/-- The loop of `SelectPit` over the partition names, on the local list
`fileInfos`: a name found in the new table sets the identifier of the binding
at `partitionInfoIndex` and moves the index on, a name not found removes the
binding at the index. -/
def SelectPit.remap (pit : PitData) : List String → Nat → List FileInfo → List FileInfo
  | [], _, fileInfos => fileInfos
  | name :: rest, partitionInfoIndex, fileInfos =>
    match pit.FindEntryByName name with
    | some pitEntry =>
      let fileInfos :=
        match fileInfos[partitionInfoIndex]? with
        | some fileInfo =>
          fileInfos.set partitionInfoIndex { fileInfo with partitionId := pitEntry.GetIdentifier }
        | none => fileInfos
      SelectPit.remap pit rest (partitionInfoIndex + 1) fileInfos
    | none =>
      SelectPit.remap pit rest partitionInfoIndex (QList.removeAt fileInfos partitionInfoIndex)

/-- The function `MainWindow::SelectPit`: the state it leaves and the local
list `fileInfos` at its end. `fileInfos` is declared as a `QList<FileInfo>`
initialised from `GetFileInfos()`, so it is a copy of the working bindings.
`path` is the file chosen, `pitFile` its bytes, `originalPitFile` the bytes of
the file the working firmware names. The result is `none` when the first loop
dereferences a null pointer. -/
def SelectPit (Unpack : PitData → List Nat → Bool × PitData) (w : MainWindow) (path : String)
    (pitFile originalPitFile : Option (List Nat)) : Option (MainWindow × List FileInfo) :=
  let validPit : Bool := path != ""
  if validPit then
    let fileInfos := w.workingFirmwareInfo.fileInfos
    match SelectPit.partitionNames w.currentPitData fileInfos with
    | none => none
    | some partitionNames =>
      let w := { w with currentPitData := [] }
      let read := ReadPit Unpack w pitFile
      let w := read.2
      let result : MainWindow × List FileInfo × Bool :=
        if read.1 then
          let w := { w with workingFirmwareInfo :=
            { w.workingFirmwareInfo with pitFilename := path } }
          let w := { w with partitionsListWidget :=
            partitionNames.filterMap (fun name =>
              (w.currentPitData.FindEntryByName name).map PitEntry.GetPartitionName) }
          (w, SelectPit.remap w.currentPitData partitionNames 0 fileInfos, validPit)
        else (w, fileInfos, false)
      let w := result.1
      let fileInfos := result.2.1
      let validPit := result.2.2
      let w :=
        if !validPit then
          if !QString.isEmpty w.workingFirmwareInfo.pitFilename then
            let reread := ReadPit Unpack w originalPitFile
            if reread.1 then reread.2
            else
              let w := reread.2
              let w := { w with
                workingFirmwareInfo := FirmwareInfo.Clear w.workingFirmwareInfo,
                workingFiles := [] }
              { w with partitionsListWidget := [] }
          else w
        else w
      let w := UpdateUnusedPartitionIds w
      some (w, fileInfos)
  else some (w, w.workingFirmwareInfo.fileInfos)

/-- A package as it is loaded: one binding, to the partition identifier 9,
its file and the PIT file among the backing files. -/
def exampleLoadedPackage : MainWindow :=
  { loadedPackageData :=
      { firmwareInfo := FirmwareInfo.ofFlash "a.pit" true false [⟨9, "boot.img"⟩],
        files := [⟨"XXXXXX-boot.img", "/tmp/qt-boot.img", some [0]⟩,
                  ⟨"XXXXXX-a.pit", "/tmp/qt-a.pit", some [1]⟩] } }

/-- A state in which a new PIT is selected: the table has `BOOT` with the
identifier 2 and `OLD` with the identifier 3, both bound. -/
def exampleBeforeSelectPit : MainWindow :=
  UpdateUnusedPartitionIds
    { currentPitData := [⟨2, "BOOT", "boot.img", true⟩, ⟨3, "OLD", "", true⟩],
      workingFirmwareInfo :=
        FirmwareInfo.ofFlash "old.pit" false false [⟨2, "b.img"⟩, ⟨3, "o.img"⟩] }

/-! ## Theorems: the flash command line -/

theorem StartFlash.loop_eq (pit : PitData) (fileInfos : List FileInfo) (arguments : List String) :
    StartFlash.loop pit fileInfos arguments
      = arguments ++ fileInfos.flatMap (fun f => [StartFlash.flag pit f, f.filename]) := by
  induction fileInfos generalizing arguments with
  | nil => simp [StartFlash.loop]
  | cons f rest ih =>
    simp [StartFlash.loop, ih, FileInfo.GetFilename, List.flatMap_cons, List.append_assoc]

theorem StartFlash.arguments_eq (pit : PitData) (fw : FirmwareInfo) (resume verboseOutput : Bool) :
    StartFlash.arguments pit fw resume verboseOutput
      = StartFlash.head fw
        ++ fw.fileInfos.flatMap (fun f => [StartFlash.flag pit f, f.filename])
        ++ (if fw.noReboot = true then ["--no-reboot"] else [])
        ++ (if resume = true then ["--resume"] else [])
        ++ (if verboseOutput = true then ["--verbose"] else [])
        ++ ["--stdout-errors"] := by
  unfold StartFlash.arguments StartFlash.head
  simp only [StartFlash.loop_eq]
  cases fw.noReboot <;> cases resume <;> cases verboseOutput <;>
    cases h : (fw.repartition && !(fw.fileInfos.length == 1)) <;> simp [h]

theorem StartFlash.head_length (fw : FirmwareInfo) :
    (StartFlash.head fw).length
      = if (fw.repartition && !(fw.fileInfos.length == 1)) = true then 4 else 3 := by
  unfold StartFlash.head
  split <;> simp

theorem flatMap_pair_get {α β : Type} (f g : α → β) (l : List α) (i : Nat) (h : i < l.length) :
    (l.flatMap (fun a => [f a, g a]))[2 * i]? = some (f (l.get ⟨i, h⟩)) ∧
    (l.flatMap (fun a => [f a, g a]))[2 * i + 1]? = some (g (l.get ⟨i, h⟩)) := by
  induction l generalizing i with
  | nil => simp at h
  | cons a rest ih =>
    cases i with
    | zero => simp [List.flatMap_cons]
    | succ j =>
      have hj : j < rest.length := by simpa using h
      have e1 : 2 * (j + 1) = (2 * j) + 1 + 1 := by ring
      have e2 : 2 * (j + 1) + 1 = (2 * j + 1) + 1 + 1 := by ring
      have := ih j hj
      simp only [List.flatMap_cons, List.cons_append, List.nil_append, e1, e2,
        List.getElem?_cons_succ, List.get_eq_getElem, List.getElem_cons_succ,
        List.length_cons] at this ⊢
      exact this

/-- C1: for every firmware, PIT table and resume/verbose setting the argument
list of `StartFlash` is, in this order: `flash`; `--repartition` when it is
emitted; `--PIT` and the PIT filename; for each binding in list order its flag
and then its file path; `--no-reboot` when noReboot is set; `--resume` when
resume is active; `--verbose` when verbose is active; `--stdout-errors`. -/
theorem StartFlash_arguments_order (pit : PitData) (fw : FirmwareInfo)
    (resume verboseOutput : Bool) :
    StartFlash.arguments pit fw resume verboseOutput
      = ["flash"]
        ++ (if fw.repartition = true ∧ fw.fileInfos.length ≠ 1 then ["--repartition"] else [])
        ++ ["--PIT", fw.pitFilename]
        ++ fw.fileInfos.flatMap (fun f => [StartFlash.flag pit f, f.filename])
        ++ (if fw.noReboot = true then ["--no-reboot"] else [])
        ++ (if resume = true then ["--resume"] else [])
        ++ (if verboseOutput = true then ["--verbose"] else [])
        ++ ["--stdout-errors"] := by
  rw [StartFlash.arguments_eq, StartFlash.head]
  by_cases hr : fw.repartition = true <;> by_cases hl : fw.fileInfos.length = 1 <;>
    simp [hr, hl]

theorem getElem?_append_of_some {α : Type} {l₁ : List α} (l₂ : List α) {k : Nat} {x : α}
    (h : l₁[k]? = some x) : (l₁ ++ l₂)[k]? = some x := by
  induction l₁ generalizing k with
  | nil => simp at h
  | cons a rest ih =>
    cases k with
    | zero => simpa using h
    | succ j =>
      simp only [List.cons_append, List.getElem?_cons_succ] at h ⊢
      exact ih h

theorem getElem?_append_add {α : Type} (l₁ l₂ : List α) (k : Nat) :
    (l₁ ++ l₂)[l₁.length + k]? = l₂[k]? := by
  induction l₁ with
  | nil => simp
  | cons a rest ih =>
    have e : (a :: rest).length + k = (rest.length + k) + 1 := by simp; ring
    rw [e, List.cons_append, List.getElem?_cons_succ, ih]

theorem StartFlash.arguments_get (pit : PitData) (fw : FirmwareInfo) (resume verboseOutput : Bool)
    (i : Nat) (h : i < fw.fileInfos.length) :
    (StartFlash.arguments pit fw resume verboseOutput)[(StartFlash.head fw).length + 2 * i]?
      = some (StartFlash.flag pit (fw.fileInfos.get ⟨i, h⟩)) ∧
    (StartFlash.arguments pit fw resume verboseOutput)[(StartFlash.head fw).length + (2 * i + 1)]?
      = some (fw.fileInfos.get ⟨i, h⟩).filename := by
  have hp := flatMap_pair_get (StartFlash.flag pit) FileInfo.filename fw.fileInfos i h
  rw [StartFlash.arguments_eq]
  simp only [List.append_assoc]
  rw [getElem?_append_add, getElem?_append_add]
  exact ⟨getElem?_append_of_some _ hp.1, getElem?_append_of_some _ hp.2⟩

theorem StartFlash.flag_cases (pit : PitData) (f : FileInfo) :
    (∃ pe, pit.FindEntry f.GetPartitionId = some pe ∧ pe.flashable = true ∧
        StartFlash.flag pit f = "--" ++ pe.partitionName) ∨
    ((∀ pe, pit.FindEntry f.GetPartitionId = some pe → pe.flashable = false) ∧
        StartFlash.flag pit f = "--" ++ Nat.repr f.GetPartitionId) := by
  unfold StartFlash.flag
  cases hfind : pit.FindEntry f.GetPartitionId with
  | none => right; simp
  | some pe =>
    cases hfl : pe.flashable with
    | true => left; exact ⟨pe, rfl, hfl, by simp [PitEntry.IsFlashable, PitEntry.GetPartitionName, hfl]⟩
    | false =>
      right
      refine ⟨?_, by simp [PitEntry.IsFlashable, hfl]⟩
      intro pe2 h2
      cases h2
      exact hfl

/-- C2, the claim as stated fails: with exactly one binding, bound to a
flashable partition whose name is `repartition`, and the repartition flag off,
the argument list contains the token `--repartition` (as the binding's flag). -/
theorem StartFlash_single_binding_repartition_token :
    (FirmwareInfo.ofFlash "a.pit" false false [⟨1, "a.img"⟩]).fileInfos.length = 1 ∧
    "--repartition" ∈ StartFlash.arguments [⟨1, "repartition", "", true⟩]
      (FirmwareInfo.ofFlash "a.pit" false false [⟨1, "a.img"⟩]) false false := by
  decide

/-- C2, amended: with exactly one binding, whatever the repartition, noReboot,
resume and verbose settings, the argument list does not contain the token
`--repartition`, provided the PIT filename, the binding's flag and the binding's
file path are not themselves that text. -/
theorem StartFlash_single_binding_no_repartition (pit : PitData) (fw : FirmwareInfo)
    (resume verboseOutput : Bool)
    (hone : fw.fileInfos.length = 1)
    (hpit : fw.pitFilename ≠ "--repartition")
    (hbind : ∀ f ∈ fw.fileInfos,
      StartFlash.flag pit f ≠ "--repartition" ∧ f.filename ≠ "--repartition") :
    "--repartition" ∉ StartFlash.arguments pit fw resume verboseOutput := by
  rw [StartFlash.arguments_eq, StartFlash.head]
  have hne1 : ("--repartition" : String) ≠ "flash" := by decide
  have hne2 : ("--repartition" : String) ≠ "--PIT" := by decide
  have hne3 : ("--repartition" : String) ≠ "--no-reboot" := by decide
  have hne4 : ("--repartition" : String) ≠ "--resume" := by decide
  have hne5 : ("--repartition" : String) ≠ "--verbose" := by decide
  have hne6 : ("--repartition" : String) ≠ "--stdout-errors" := by decide
  have hflat : "--repartition" ∉ fw.fileInfos.flatMap (fun f => [StartFlash.flag pit f, f.filename]) := by
    intro hmem
    rw [List.mem_flatMap] at hmem
    obtain ⟨f, hf, hx⟩ := hmem
    have := hbind f hf
    simp only [List.mem_cons, List.mem_singleton, List.not_mem_nil, or_false] at hx
    rcases hx with hx | hx
    · exact this.1 hx.symm
    · exact this.2 hx.symm
  intro hmem
  simp only [hone, beq_self_eq_true, Bool.not_true, Bool.and_false, Bool.false_eq_true,
    if_false, List.append_nil, List.mem_append, List.mem_cons, List.mem_singleton,
    List.not_mem_nil, or_false] at hmem
  rcases hmem with ((((((h | h | h) | h) | h) | h) | h) | h)
  · exact hne1 h
  · exact hne2 h
  · exact hpit h.symm
  · exact hflat h
  · cases hnr : fw.noReboot <;> simp [hnr] at h
  · cases resume <;> simp at h
  · cases verboseOutput <;> simp at h
  · exact hne6 h

/-- Witness of C2 amended: one binding to the partition `BOOT`, repartition
requested. -/
theorem StartFlash_single_binding_no_repartition_witness :
    "--repartition" ∉ StartFlash.arguments [⟨1, "BOOT", "boot.img", true⟩]
      (FirmwareInfo.ofFlash "a.pit" true false [⟨1, "b.img"⟩]) true true :=
  StartFlash_single_binding_no_repartition [⟨1, "BOOT", "boot.img", true⟩]
    (FirmwareInfo.ofFlash "a.pit" true false [⟨1, "b.img"⟩]) true true
    (by decide) (by decide) (by decide)

/-- C3, the code at the failing input: with the repartition flag set and an
empty binding list (so the number of bindings is not greater than 1)
`StartFlash` emits `--repartition` as the token after `flash`. -/
theorem StartFlash_repartition_empty_bindings :
    (FirmwareInfo.ofFlash "a.pit" true false []).repartition = true ∧
    ¬ (1 < (FirmwareInfo.ofFlash "a.pit" true false []).fileInfos.length) ∧
    StartFlash.arguments [] (FirmwareInfo.ofFlash "a.pit" true false []) false false
      = ["flash", "--repartition", "--PIT", "a.pit", "--stdout-errors"] := by
  decide

/-- The guard of `StartFlash` as it is written, `GetRepartition() &&
!singlePartitionFlash` with `singlePartitionFlash` the test `length() == 1`:
the token directly after `flash` is `--repartition` if and only if the
repartition flag is set and the number of bindings is not exactly 1. For a
binding list that is not empty this is the number of bindings greater than
1. -/
theorem StartFlash_repartition_iff (pit : PitData) (fw : FirmwareInfo)
    (resume verboseOutput : Bool) :
    (StartFlash.arguments pit fw resume verboseOutput)[1]? = some "--repartition"
      ↔ (fw.repartition = true ∧ fw.fileInfos.length ≠ 1) := by
  rw [StartFlash.arguments_eq, StartFlash.head]
  have hne : ("--PIT" : String) ≠ "--repartition" := by decide
  by_cases hr : fw.repartition = true <;> by_cases hl : fw.fileInfos.length = 1 <;>
    simp [hr, hl, hne]

/-- C4, the claim as stated fails: a binding to the entry named `PIT` whose
flashable flag is set gets the flag `--PIT`, while the entry is not flashable
by the rule of the specification, which asks for the flag `--1`. -/
theorem StartFlash_flag_reserved_name :
    PitData.FindEntry [⟨1, "PIT", "", true⟩] 1 = some ⟨1, "PIT", "", true⟩ ∧
    isFlashableSpec ⟨1, "PIT", "", true⟩ = false ∧
    flagSpec [⟨1, "PIT", "", true⟩] ⟨1, "pit.bin"⟩ = "--1" ∧
    StartFlash.arguments [⟨1, "PIT", "", true⟩]
      (FirmwareInfo.ofFlash "a.pit" false false [⟨1, "pit.bin"⟩]) false false
      = ["flash", "--PIT", "a.pit", "--PIT", "pit.bin", "--stdout-errors"] := by
  decide

/-- C4, amended: for every binding, at position `i` of the list, the flag
emitted for it is `--` followed by the partition name when the PIT table has
an entry with the binding's identifier whose flashable flag is set (whatever
its name), and `--` followed by the decimal identifier otherwise; the token
after the flag is the binding's file path. -/
theorem StartFlash_binding_flag (pit : PitData) (fw : FirmwareInfo)
    (resume verboseOutput : Bool) (i : Nat) (h : i < fw.fileInfos.length) :
    (StartFlash.arguments pit fw resume verboseOutput)[
        (if fw.repartition = true ∧ fw.fileInfos.length ≠ 1 then 4 else 3) + 2 * i + 1]?
      = some (fw.fileInfos.get ⟨i, h⟩).filename ∧
    ((∃ pe, pit.FindEntry (fw.fileInfos.get ⟨i, h⟩).GetPartitionId = some pe ∧
        pe.flashable = true ∧
        (StartFlash.arguments pit fw resume verboseOutput)[
            (if fw.repartition = true ∧ fw.fileInfos.length ≠ 1 then 4 else 3) + 2 * i]?
          = some ("--" ++ pe.partitionName)) ∨
     ((∀ pe, pit.FindEntry (fw.fileInfos.get ⟨i, h⟩).GetPartitionId = some pe →
          pe.flashable = false) ∧
        (StartFlash.arguments pit fw resume verboseOutput)[
            (if fw.repartition = true ∧ fw.fileInfos.length ≠ 1 then 4 else 3) + 2 * i]?
          = some ("--" ++ Nat.repr (fw.fileInfos.get ⟨i, h⟩).GetPartitionId))) := by
  have hlen : (if fw.repartition = true ∧ fw.fileInfos.length ≠ 1 then 4 else 3)
      = (StartFlash.head fw).length := by
    rw [StartFlash.head_length]
    by_cases hr : fw.repartition = true <;> by_cases hl : fw.fileInfos.length = 1 <;>
      simp [hr, hl]
  have hget := StartFlash.arguments_get pit fw resume verboseOutput i h
  rw [hlen, Nat.add_assoc]
  refine ⟨hget.2, ?_⟩
  rcases StartFlash.flag_cases pit (fw.fileInfos.get ⟨i, h⟩) with ⟨pe, h1, h2, h3⟩ | ⟨h1, h3⟩
  · left
    exact ⟨pe, h1, h2, by rw [hget.1, h3]⟩
  · right
    exact ⟨h1, by rw [hget.1, h3]⟩

/-- Witness of C4 amended: the second of two bindings, with repartition
emitted; its partition is absent from the table. -/
theorem StartFlash_binding_flag_witness :
    (StartFlash.arguments [⟨1, "BOOT", "boot.img", true⟩]
        (FirmwareInfo.ofFlash "a.pit" true false [⟨1, "b.img"⟩, ⟨7, "c.img"⟩]) false false)[
          4 + 2 * 1 + 1]? = some "c.img" ∧
    (StartFlash.arguments [⟨1, "BOOT", "boot.img", true⟩]
        (FirmwareInfo.ofFlash "a.pit" true false [⟨1, "b.img"⟩, ⟨7, "c.img"⟩]) false false)[
          4 + 2 * 1]? = some "--7" :=
  have h := StartFlash_binding_flag [⟨1, "BOOT", "boot.img", true⟩]
    (FirmwareInfo.ofFlash "a.pit" true false [⟨1, "b.img"⟩, ⟨7, "c.img"⟩]) false false 1
    (by decide)
  ⟨h.1, by decide⟩

/-! ## Theorems: the destination path of a package -/

/-- C5, the code at the failing inputs: `BuildPackage` leaves `pkg.gz` and
`pkg.tgz` as they are, where the reference of the claim gives `pkg.tar.gz`; the
same normalisation written in `ConvertSamsungQuick` does give `pkg.tar.gz`. -/
theorem BuildPackage_gz_tgz_unchanged :
    BuildPackage.packagePath "pkg.gz" = "pkg.gz" ∧
    BuildPackage.packagePath "pkg.tgz" = "pkg.tgz" ∧
    normalisePathSpec "pkg.gz" = "pkg.tar.gz" ∧
    normalisePathSpec "pkg.tgz" = "pkg.tar.gz" ∧
    ConvertSamsungQuick.outPath "pkg.gz" = "pkg.tar.gz" ∧
    ConvertSamsungQuick.outPath "pkg.tgz" = "pkg.tar.gz" := by
  decide

/-! ## Theorems: the quick-convert matcher -/

theorem toInt32_of_lt {u : Nat} (h : u < 2 ^ 31) : toInt32 (u % 2 ^ 32) = (u : Int) := by
  have h1 : u % 2 ^ 32 = u := Nat.mod_eq_of_lt (by omega)
  unfold toInt32
  rw [Nat.mod_mod, h1, if_pos h]

theorem QString.isEmpty_eq_false {c : String} (hc : c ≠ "") : QString.isEmpty c = false := by
  cases c with
  | mk data =>
    cases data with
    | nil => exact absurd rfl hc
    | cons a rest => rfl

theorem findPartitionIdByName_of_none {pit : PitData} {c : String}
    (h : pit.FindEntryByName c = none) : findPartitionIdByName pit c = -1 := by
  unfold findPartitionIdByName
  split
  · rfl
  · rw [h]

theorem findPartitionIdByName_of_some {pit : PitData} {c : String} {e : PitEntry}
    (hc : c ≠ "") (h : pit.FindEntryByName c = some e) (hid : e.identifier < 2 ^ 31) :
    findPartitionIdByName pit c = (e.identifier : Int) := by
  unfold findPartitionIdByName
  rw [QString.isEmpty_eq_false hc, h]
  simp only [Bool.false_eq_true, if_false, PitEntry.GetIdentifier]
  exact toInt32_of_lt hid

theorem FindEntryByName_eq_none {pit : PitData} {c : String}
    (h : ∀ e ∈ pit, e.partitionName ≠ c) : pit.FindEntryByName c = none := by
  unfold PitData.FindEntryByName
  rw [List.find?_eq_none]
  intro e he
  simpa [PitEntry.GetPartitionName] using h e he

theorem tryCandidates_of_none (pit : PitData) (cands : List String) (fileBase : String)
    (h : ∀ c ∈ cands, pit.FindEntryByName c = none) :
    tryCandidates pit cands fileBase = findPartitionIdByFlashFilename pit fileBase := by
  induction cands with
  | nil => rfl
  | cons c rest ih =>
    have hc := findPartitionIdByName_of_none (h c (List.mem_cons_self c rest))
    have hrest := ih (fun c' hc' => h c' (List.mem_cons_of_mem c hc'))
    have hneg : ¬ ((-1 : Int) ≥ 0) := by decide
    unfold tryCandidates
    simp only [hc, hneg, if_false]
    exact hrest

theorem tryCandidates_first (pit : PitData) (pre : List String) (c : String)
    (post : List String) (fileBase : String) (e : PitEntry)
    (hpre : ∀ c' ∈ pre, pit.FindEntryByName c' = none)
    (hc : c ≠ "") (hfind : pit.FindEntryByName c = some e) (hid : e.identifier < 2 ^ 31) :
    tryCandidates pit (pre ++ c :: post) fileBase = (e.identifier : Int) := by
  induction pre with
  | nil =>
    have h1 := findPartitionIdByName_of_some hc hfind hid
    have h2 : (e.identifier : Int) ≥ 0 := Int.ofNat_nonneg _
    simp only [List.nil_append, tryCandidates, h1, h2, if_true]
  | cons a rest ih =>
    have ha := findPartitionIdByName_of_none (hpre a (List.mem_cons_self a rest))
    have hrest := ih (fun c' hc' => hpre c' (List.mem_cons_of_mem a hc'))
    have hneg : ¬ ((-1 : Int) ≥ 0) := by decide
    rw [List.cons_append]
    unfold tryCandidates
    simp only [ha, hneg, if_false]
    exact hrest

theorem findPartitionIdByFlashFilename_of_none (pit : PitData) (fileBase : String)
    (h : ∀ e ∈ pit, e.flashable = true →
      QString.toLower e.flashFilename ≠ fileBase ∧
      QString.contains (QString.toLower e.flashFilename) fileBase = false) :
    findPartitionIdByFlashFilename pit fileBase = -1 := by
  induction pit with
  | nil => rfl
  | cons pe rest ih =>
    have hrest := ih (fun e he => h e (List.mem_cons_of_mem pe he))
    unfold findPartitionIdByFlashFilename
    cases hfl : pe.flashable with
    | false => simp [PitEntry.IsFlashable, hfl, hrest]
    | true =>
      have hpe := h pe (List.mem_cons_self pe rest) hfl
      simp [PitEntry.IsFlashable, PitEntry.GetFlashFilename, hfl, hrest, hpe.1, hpe.2]

theorem ite_append_right {c : Prop} [Decidable c] (l x : List String) :
    (if c then l ++ x else l) = l ++ (if c then x else []) := by
  split <;> simp

theorem ConvertSamsungQuick.cands_eq (lower : String) :
    ConvertSamsungQuick.cands lower =
      (if QString.contains lower "home_csc" = true then ["CSC", "ODM", "OMC"] else [])
      ++ (if QString.contains lower "csc" = true then ["CSC", "ODM", "OMC"] else [])
      ++ (if (QString.contains lower "modem" || QString.startsWith lower "cp_") = true then
            ["MODEM", "CP"] else [])
      ++ (if (QString.contains lower "bootloader" || QString.contains lower "sboot") = true then
            ["SBOOT", "BOOTLOADER"] else [])
      ++ (if (QString.contains lower "boot" && !QString.contains lower "bootloader") = true then
            ["BOOT"] else [])
      ++ (if QString.contains lower "recovery" = true then ["RECOVERY"] else [])
      ++ (if QString.contains lower "system" = true then ["SYSTEM"] else [])
      ++ (if QString.contains lower "vendor" = true then ["VENDOR"] else [])
      ++ (if QString.contains lower "product" = true then ["PRODUCT"] else [])
      ++ (if QString.contains lower "userdata" = true then ["USERDATA"] else [])
      ++ (if QString.contains lower "cache" = true then ["CACHE"] else [])
      ++ (if QString.contains lower "dtbo" = true then ["DTBO"] else [])
      ++ (if QString.contains lower "vbmeta" = true then
            ["VBMETA_SYSTEM", "VBMETA_VENDOR", "VBMETA"] else [])
      ++ (if QString.contains lower "param" = true then ["PARAM"] else [])
      ++ (if (lower == "cm.bin" || QString.contains lower "cm") = true then ["CM"] else [])
      ++ [QString.toUpper (stripExtensions lower)] := by
  unfold ConvertSamsungQuick.cands
  simp only [ite_append_right, List.nil_append]

theorem ConvertSamsungQuick.body_mapped (pit : PitData) (lists : ConvertSamsungQuick.Lists)
    (path : String) (b : FileInfo) (hb : b ∈ (ConvertSamsungQuick.body pit lists path).mapped) :
    b ∈ lists.mapped ∨
      (b.filename = path ∧
        (QString.endsWith (basenameLower path) ".tar"
          || QString.endsWith (basenameLower path) ".md5") = false ∧
        ConvertSamsungQuick.partId pit path ≥ 0) := by
  unfold ConvertSamsungQuick.body at hb
  cases harch : (QString.endsWith (basenameLower path) ".tar"
      || QString.endsWith (basenameLower path) ".md5") with
  | true =>
    simp only [harch, if_true] at hb
    exact Or.inl hb
  | false =>
    simp only [harch, Bool.false_eq_true, if_false] at hb
    by_cases hp : ConvertSamsungQuick.partId pit path ≥ 0
    · simp only [hp, if_true, List.mem_append, List.mem_singleton] at hb
      rcases hb with hb | hb
      · exact Or.inl hb
      · right
        exact ⟨by rw [hb], rfl, hp⟩
    · simp only [hp, if_false] at hb
      exact Or.inl hb

theorem ConvertSamsungQuick.foldl_mapped (pit : PitData) (srcFiles : List String)
    (lists : ConvertSamsungQuick.Lists) (b : FileInfo)
    (hb : b ∈ (srcFiles.foldl (ConvertSamsungQuick.body pit) lists).mapped) :
    b ∈ lists.mapped ∨
      (b.filename ∈ srcFiles ∧
        (QString.endsWith (basenameLower b.filename) ".tar"
          || QString.endsWith (basenameLower b.filename) ".md5") = false ∧
        ConvertSamsungQuick.partId pit b.filename ≥ 0) := by
  induction srcFiles generalizing lists with
  | nil => exact Or.inl hb
  | cons p rest ih =>
    rw [List.foldl_cons] at hb
    rcases ih _ hb with h | ⟨h1, h2, h3⟩
    · rcases ConvertSamsungQuick.body_mapped pit lists p b h with h | ⟨h1, h2, h3⟩
      · exact Or.inl h
      · right
        subst h1
        exact ⟨List.mem_cons_self _ _, h2, h3⟩
    · right
      exact ⟨List.mem_cons_of_mem _ h1, h2, h3⟩

theorem ConvertSamsungQuick.body_skipped_mono (pit : PitData)
    (lists : ConvertSamsungQuick.Lists) (path x : String) (hx : x ∈ lists.skippedArchives) :
    x ∈ (ConvertSamsungQuick.body pit lists path).skippedArchives := by
  unfold ConvertSamsungQuick.body
  simp only
  split
  · simp [hx]
  · split
    · exact hx
    · exact hx

theorem ConvertSamsungQuick.foldl_skipped_mono (pit : PitData) (srcFiles : List String)
    (lists : ConvertSamsungQuick.Lists) (x : String) (hx : x ∈ lists.skippedArchives) :
    x ∈ (srcFiles.foldl (ConvertSamsungQuick.body pit) lists).skippedArchives := by
  induction srcFiles generalizing lists with
  | nil => exact hx
  | cons p rest ih =>
    rw [List.foldl_cons]
    exact ih _ (ConvertSamsungQuick.body_skipped_mono pit lists p x hx)

theorem ConvertSamsungQuick.foldl_skipped (pit : PitData) (srcFiles : List String)
    (lists : ConvertSamsungQuick.Lists) (path : String) (hin : path ∈ srcFiles)
    (harch : (QString.endsWith (basenameLower path) ".tar"
      || QString.endsWith (basenameLower path) ".md5") = true) :
    basenameLower path ∈ (srcFiles.foldl (ConvertSamsungQuick.body pit) lists).skippedArchives := by
  induction srcFiles generalizing lists with
  | nil => simp at hin
  | cons p rest ih =>
    rw [List.foldl_cons]
    rcases List.mem_cons.mp hin with h | h
    · subst h
      apply ConvertSamsungQuick.foldl_skipped_mono
      unfold ConvertSamsungQuick.body
      simp only [harch, if_true, List.mem_append, List.mem_singleton, or_true]
    · exact ih _ h

/-- The matcher on a file whose basename is `boot.img`, when the `BOOT` entry
has an identifier below `2^31`: the identifier of that entry. -/
theorem quickConvert_boot_small_identifier (pit : PitData) (path : String) (e : PitEntry)
    (hbase : QString.fileName path = "boot.img")
    (hfind : pit.FindEntryByName "BOOT" = some e) (hid : e.identifier < 2 ^ 31) :
    ConvertSamsungQuick.partId pit path = (e.identifier : Int) := by
  have hl : basenameLower path = "boot.img" := by
    unfold basenameLower
    rw [hbase]
    decide
  have hc : ConvertSamsungQuick.cands "boot.img" = [] ++ "BOOT" :: ["BOOT"] := by decide
  unfold ConvertSamsungQuick.partId
  simp only [hl, hc]
  exact tryCandidates_first pit [] "BOOT" ["BOOT"] _ e (by simp) (by decide) hfind hid

/-- The matcher on a file whose basename is `modem.bin`, when the `MODEM` entry
has an identifier below `2^31`: the identifier of that entry, whether or not a
`CP` entry exists. -/
theorem quickConvert_modem_small_identifier (pit : PitData) (path : String) (e : PitEntry)
    (hbase : QString.fileName path = "modem.bin")
    (hfind : pit.FindEntryByName "MODEM" = some e) (hid : e.identifier < 2 ^ 31) :
    ConvertSamsungQuick.partId pit path = (e.identifier : Int) := by
  have hl : basenameLower path = "modem.bin" := by
    unfold basenameLower
    rw [hbase]
    decide
  have hc : ConvertSamsungQuick.cands "modem.bin" = [] ++ "MODEM" :: ["CP", "MODEM"] := by
    decide
  unfold ConvertSamsungQuick.partId
  simp only [hl, hc]
  exact tryCandidates_first pit [] "MODEM" ["CP", "MODEM"] _ e (by simp) (by decide) hfind hid

/-- C6, the code at the failing input: the table has an entry named `BOOT`
with the identifier `2^31`; for `boot.img` the matcher returns a negative
value, which is no match, and the file gets no binding. -/
theorem quickConvert_boot_large_identifier :
    PitData.FindEntryByName [⟨2147483648, "BOOT", "boot.img", true⟩] "BOOT"
      = some ⟨2147483648, "BOOT", "boot.img", true⟩ ∧
    ConvertSamsungQuick.partId [⟨2147483648, "BOOT", "boot.img", true⟩] "boot.img"
      = -2147483648 ∧
    (ConvertSamsungQuick.loop [⟨2147483648, "BOOT", "boot.img", true⟩] ["boot.img"]).mapped
      = [] := by
  decide

/-- C7, the code at the failing input: the table has `MODEM` with the
identifier `2^31` and `CP` with the identifier 5; for `modem.bin` the matcher
returns 5, the identifier of `CP`, in either table order. -/
theorem quickConvert_modem_large_identifier :
    ConvertSamsungQuick.partId
      [⟨2147483648, "MODEM", "modem.bin", true⟩, ⟨5, "CP", "", true⟩] "modem.bin" = 5 ∧
    ConvertSamsungQuick.partId
      [⟨5, "CP", "", true⟩, ⟨2147483648, "MODEM", "modem.bin", true⟩] "modem.bin" = 5 ∧
    (ConvertSamsungQuick.loop
      [⟨2147483648, "MODEM", "modem.bin", true⟩, ⟨5, "CP", "", true⟩] ["modem.bin"]).mapped
      = [⟨5, "modem.bin"⟩] := by
  decide

/-- C8, the claim as stated fails, at two inputs. For `cache.img.lz4` no entry
is named as a candidate and no flashable entry has a flash filename that
equals or contains `cache`, yet the file is matched: first by an entry whose
flash filename is `CACHE.IMG` (the code lowercases it before comparing), then
by an entry named `PIT` whose flashable flag is set (the code tests the flag
only). -/
theorem quickConvert_fallback_matches :
    ((∀ e ∈ [(⟨4, "FOO", "CACHE.IMG", true⟩ : PitEntry)],
        ∀ c ∈ ConvertSamsungQuick.cands (basenameLower "cache.img.lz4"), e.partitionName ≠ c) ∧
     (∀ e ∈ [(⟨4, "FOO", "CACHE.IMG", true⟩ : PitEntry)], isFlashableSpec e = true →
        ¬ (e.flashFilename = stripExtensions (basenameLower "cache.img.lz4") ∨
           QString.contains e.flashFilename (stripExtensions (basenameLower "cache.img.lz4"))
             = true)) ∧
     ConvertSamsungQuick.partId [⟨4, "FOO", "CACHE.IMG", true⟩] "cache.img.lz4" = 4 ∧
     (ConvertSamsungQuick.loop [⟨4, "FOO", "CACHE.IMG", true⟩] ["cache.img.lz4"]).mapped
       = [⟨4, "cache.img.lz4"⟩]) ∧
    ((∀ e ∈ [(⟨9, "PIT", "cache.img", true⟩ : PitEntry)],
        ∀ c ∈ ConvertSamsungQuick.cands (basenameLower "cache.img.lz4"), e.partitionName ≠ c) ∧
     (∀ e ∈ [(⟨9, "PIT", "cache.img", true⟩ : PitEntry)], isFlashableSpec e = true →
        ¬ (e.flashFilename = stripExtensions (basenameLower "cache.img.lz4") ∨
           QString.contains e.flashFilename (stripExtensions (basenameLower "cache.img.lz4"))
             = true)) ∧
     ConvertSamsungQuick.partId [⟨9, "PIT", "cache.img", true⟩] "cache.img.lz4" = 9 ∧
     (ConvertSamsungQuick.loop [⟨9, "PIT", "cache.img", true⟩] ["cache.img.lz4"]).mapped
       = [⟨9, "cache.img.lz4"⟩]) := by
  decide

/-- C8, amended: for every file and every PIT table in which no entry's name
equals a candidate name derived from the file and no entry whose flashable
flag is set has a flash filename that, lowercased, equals or contains the
extension-stripped lowercased basename, the matcher returns no match (`-1`) and
no binding of the mapped result is for that file. -/
theorem quickConvert_no_match (pit : PitData) (srcFiles : List String) (path : String)
    (hname : ∀ e ∈ pit, ∀ c ∈ ConvertSamsungQuick.cands (basenameLower path),
      e.partitionName ≠ c)
    (hflash : ∀ e ∈ pit, e.flashable = true →
      QString.toLower e.flashFilename ≠ stripExtensions (basenameLower path) ∧
      QString.contains (QString.toLower e.flashFilename) (stripExtensions (basenameLower path))
        = false) :
    ConvertSamsungQuick.partId pit path = -1 ∧
    ∀ b ∈ (ConvertSamsungQuick.loop pit srcFiles).mapped, b.filename ≠ path := by
  have hpart : ConvertSamsungQuick.partId pit path = -1 := by
    unfold ConvertSamsungQuick.partId
    simp only
    rw [tryCandidates_of_none pit _ _
      (fun c hc => FindEntryByName_eq_none (fun e he => hname e he c hc))]
    exact findPartitionIdByFlashFilename_of_none pit _ hflash
  refine ⟨hpart, ?_⟩
  intro b hb hbp
  rcases ConvertSamsungQuick.foldl_mapped pit srcFiles _ b hb with h | ⟨_, _, h3⟩
  · simp at h
  · rw [hbp, hpart] at h3
    exact absurd h3 (by decide)

/-- Witness of C8 amended: `cache.img.lz4` against a table with a `BOOT` entry
only, selected together with `boot.img`. -/
theorem quickConvert_no_match_witness :
    ConvertSamsungQuick.partId [⟨3, "BOOT", "boot.img", true⟩] "cache.img.lz4" = -1 ∧
    ∀ b ∈ (ConvertSamsungQuick.loop [⟨3, "BOOT", "boot.img", true⟩]
        ["cache.img.lz4", "boot.img"]).mapped, b.filename ≠ "cache.img.lz4" :=
  quickConvert_no_match [⟨3, "BOOT", "boot.img", true⟩] ["cache.img.lz4", "boot.img"]
    "cache.img.lz4" (by decide) (by decide)

/-- C9: for every PIT table and every selected file whose lowercased basename
ends with `.tar` or `.md5`, quick-convert records the lowercased basename as
skipped and no binding of the mapped result is for that file. -/
theorem quickConvert_archive_skipped (pit : PitData) (srcFiles : List String) (path : String)
    (hin : path ∈ srcFiles)
    (harch : QString.endsWith (basenameLower path) ".tar" = true ∨
      QString.endsWith (basenameLower path) ".md5" = true) :
    basenameLower path ∈ (ConvertSamsungQuick.loop pit srcFiles).skippedArchives ∧
    ∀ b ∈ (ConvertSamsungQuick.loop pit srcFiles).mapped, b.filename ≠ path := by
  have harch2 : (QString.endsWith (basenameLower path) ".tar"
      || QString.endsWith (basenameLower path) ".md5") = true := by
    rcases harch with h | h <;> simp [h]
  refine ⟨ConvertSamsungQuick.foldl_skipped pit srcFiles _ path hin harch2, ?_⟩
  intro b hb hbp
  rcases ConvertSamsungQuick.foldl_mapped pit srcFiles _ b hb with h | ⟨_, h2, _⟩
  · simp at h
  · rw [hbp, harch2] at h2
    exact absurd h2 (by decide)

/-- Witness of C9: `update.tar` selected together with `boot.img`, against a
table whose `BOOT` entry has the flash filename `update.tar`. -/
theorem quickConvert_archive_skipped_witness :
    basenameLower "/fw/update.tar" ∈ (ConvertSamsungQuick.loop
        [⟨3, "BOOT", "update.tar", true⟩, ⟨4, "UPDATE", "update", true⟩]
        ["/fw/update.tar", "/fw/boot.img"]).skippedArchives ∧
    ∀ b ∈ (ConvertSamsungQuick.loop
        [⟨3, "BOOT", "update.tar", true⟩, ⟨4, "UPDATE", "update", true⟩]
        ["/fw/update.tar", "/fw/boot.img"]).mapped, b.filename ≠ "/fw/update.tar" :=
  quickConvert_archive_skipped [⟨3, "BOOT", "update.tar", true⟩, ⟨4, "UPDATE", "update", true⟩]
    ["/fw/update.tar", "/fw/boot.img"] "/fw/update.tar" (by decide) (by decide)

/-- C10, the claim as stated fails: for `modem_csc.bin`, whose basename
contains both `modem` and `csc`, with the entries `MODEM` (identifier 1) and
`CSC` (identifier 2) both present, the candidates are tried with `CSC` first
and the matcher returns 2, the identifier of `CSC`, not that of `MODEM`. -/
theorem quickConvert_csc_before_modem :
    QString.contains (basenameLower "modem_csc.bin") "modem" = true ∧
    QString.contains (basenameLower "modem_csc.bin") "csc" = true ∧
    ConvertSamsungQuick.cands (basenameLower "modem_csc.bin")
      = ["CSC", "ODM", "OMC", "MODEM", "CP", "MODEM_CSC"] ∧
    ConvertSamsungQuick.partId [⟨1, "MODEM", "", true⟩, ⟨2, "CSC", "", true⟩] "modem_csc.bin"
      = 2 := by
  decide

/-- C10, amended: the candidate names are tried in the order of the code:
home_csc → CSC, ODM, OMC; csc → CSC, ODM, OMC; modem/cp_ → MODEM, CP;
bootloader/sboot → SBOOT, BOOTLOADER; boot without bootloader → BOOT; recovery;
system; vendor; product; userdata; cache; dtbo; vbmeta → VBMETA_SYSTEM,
VBMETA_VENDOR, VBMETA; param; cm → CM; then the uppercased extension-stripped
basename. The matcher returns the identifier of the first candidate of that
list that names a PIT entry, for an identifier below `2^31`. -/
theorem quickConvert_candidate_order (pit : PitData) (path lower : String)
    (pre : List String) (c : String) (post : List String) (e : PitEntry)
    (hlower : lower = basenameLower path)
    (hsplit :
      (if QString.contains lower "home_csc" = true then ["CSC", "ODM", "OMC"] else [])
      ++ (if QString.contains lower "csc" = true then ["CSC", "ODM", "OMC"] else [])
      ++ (if (QString.contains lower "modem" || QString.startsWith lower "cp_") = true then
            ["MODEM", "CP"] else [])
      ++ (if (QString.contains lower "bootloader" || QString.contains lower "sboot") = true then
            ["SBOOT", "BOOTLOADER"] else [])
      ++ (if (QString.contains lower "boot" && !QString.contains lower "bootloader") = true then
            ["BOOT"] else [])
      ++ (if QString.contains lower "recovery" = true then ["RECOVERY"] else [])
      ++ (if QString.contains lower "system" = true then ["SYSTEM"] else [])
      ++ (if QString.contains lower "vendor" = true then ["VENDOR"] else [])
      ++ (if QString.contains lower "product" = true then ["PRODUCT"] else [])
      ++ (if QString.contains lower "userdata" = true then ["USERDATA"] else [])
      ++ (if QString.contains lower "cache" = true then ["CACHE"] else [])
      ++ (if QString.contains lower "dtbo" = true then ["DTBO"] else [])
      ++ (if QString.contains lower "vbmeta" = true then
            ["VBMETA_SYSTEM", "VBMETA_VENDOR", "VBMETA"] else [])
      ++ (if QString.contains lower "param" = true then ["PARAM"] else [])
      ++ (if (lower == "cm.bin" || QString.contains lower "cm") = true then ["CM"] else [])
      ++ [QString.toUpper (stripExtensions lower)]
      = pre ++ c :: post)
    (hpre : ∀ c' ∈ pre, pit.FindEntryByName c' = none)
    (hc : c ≠ "") (hfind : pit.FindEntryByName c = some e) (hid : e.identifier < 2 ^ 31) :
    ConvertSamsungQuick.partId pit path = (e.identifier : Int) := by
  subst hlower
  rw [← ConvertSamsungQuick.cands_eq] at hsplit
  unfold ConvertSamsungQuick.partId
  simp only [hsplit]
  exact tryCandidates_first pit pre c post _ e hpre hc hfind hid

/-- Witness of C10 amended: `modem_csc.bin` against a table with `MODEM` and
`CP` but no `CSC`, `ODM` or `OMC`: the three candidates of the csc group come
first and name nothing, `MODEM` is the first that names an entry. -/
theorem quickConvert_candidate_order_witness :
    ConvertSamsungQuick.partId [⟨3, "CP", "", true⟩, ⟨1, "MODEM", "", true⟩] "modem_csc.bin"
      = ((1 : Nat) : Int) :=
  quickConvert_candidate_order [⟨3, "CP", "", true⟩, ⟨1, "MODEM", "", true⟩]
    "modem_csc.bin" "modem_csc.bin" ["CSC", "ODM", "OMC"] "MODEM" ["CP", "MODEM_CSC"]
    ⟨1, "MODEM", "", true⟩ (by decide) (by decide) (by decide) (by decide) (by decide)
    (by decide)

/-! ## Theorems: the tool session -/

theorem ProgressBar.setValue_zero (bar : ProgressBar) : (bar.setValue 0).value = 0 := by
  unfold ProgressBar.setValue
  by_cases h : bar.value = 0
  · simp [h]
  · simp [h, ProgressBar.maximum, ProgressBar.minimum]

theorem HandleHeimdallStdout.status_eq (w : MainWindow) (output : String) :
    ∃ label, HandleHeimdallStdout.status w output = { w with flashLabel := label } := by
  unfold HandleHeimdallStdout.status
  cases QRegExp.lastMatch uploadingExp.matchAt output.data with
  | none => exact ⟨w.flashLabel, rfl⟩
  | some cap => exact ⟨_, rfl⟩

theorem HandleHeimdallStdout.progress_eq (w : MainWindow) (output : String) :
    ∃ bar, HandleHeimdallStdout.progress w output = { w with flashProgressBar := bar } := by
  unfold HandleHeimdallStdout.progress
  cases QRegExp.lastMatch percentExp.matchAt output.data with
  | none => exact ⟨w.flashProgressBar, rfl⟩
  | some cap => exact ⟨_, rfl⟩

theorem HandleHeimdallStdout.insert_eq (w : MainWindow) (output : String) :
    ∃ t u, HandleHeimdallStdout.insert w output
      = { w with outputPlainTextEdit := t, utilityOutputPlainTextEdit := u } := by
  unfold HandleHeimdallStdout.insert
  simp only
  split
  · exact ⟨_, w.utilityOutputPlainTextEdit, rfl⟩
  · exact ⟨w.outputPlainTextEdit, _, rfl⟩

theorem HandleHeimdallStdout_heimdallState (w : MainWindow) (output : String) :
    (HandleHeimdallStdout w output).heimdallState = w.heimdallState := by
  unfold HandleHeimdallStdout
  simp only
  obtain ⟨l, hl⟩ := HandleHeimdallStdout.status_eq w output
  obtain ⟨b, hb⟩ := HandleHeimdallStdout.progress_eq (HandleHeimdallStdout.status w output) output
  obtain ⟨t, u, ht⟩ := HandleHeimdallStdout.insert_eq
    (HandleHeimdallStdout.progress (HandleHeimdallStdout.status w output) output) output
  rw [ht, hb, hl]

theorem HandleHeimdallStdout_flashLabel (w : MainWindow) (output : String) :
    (HandleHeimdallStdout w output).flashLabel
      = (HandleHeimdallStdout.status w output).flashLabel := by
  unfold HandleHeimdallStdout
  simp only
  obtain ⟨b, hb⟩ := HandleHeimdallStdout.progress_eq (HandleHeimdallStdout.status w output) output
  obtain ⟨t, u, ht⟩ := HandleHeimdallStdout.insert_eq
    (HandleHeimdallStdout.progress (HandleHeimdallStdout.status w output) output) output
  rw [ht, hb]

theorem HandleHeimdallStdout_flashProgressBar (w : MainWindow) (output : String) :
    (HandleHeimdallStdout w output).flashProgressBar
      = (HandleHeimdallStdout.progress w output).flashProgressBar := by
  unfold HandleHeimdallStdout
  simp only
  obtain ⟨t, u, ht⟩ := HandleHeimdallStdout.insert_eq
    (HandleHeimdallStdout.progress (HandleHeimdallStdout.status w output) output) output
  rw [ht]
  obtain ⟨l, hl⟩ := HandleHeimdallStdout.status_eq w output
  rw [hl]
  unfold HandleHeimdallStdout.progress
  cases QRegExp.lastMatch percentExp.matchAt output.data <;> rfl

theorem HandleHeimdallStdout_textEdits (w : MainWindow) (output : String) :
    (HandleHeimdallStdout w output).outputPlainTextEdit
      = (HandleHeimdallStdout.insert w output).outputPlainTextEdit ∧
    (HandleHeimdallStdout w output).utilityOutputPlainTextEdit
      = (HandleHeimdallStdout.insert w output).utilityOutputPlainTextEdit := by
  unfold HandleHeimdallStdout
  simp only
  obtain ⟨l, hl⟩ := HandleHeimdallStdout.status_eq w output
  obtain ⟨b, hb⟩ := HandleHeimdallStdout.progress_eq (HandleHeimdallStdout.status w output) output
  rw [hb, hl]
  unfold HandleHeimdallStdout.insert
  simp only
  constructor <;> split <;> rfl

theorem StartFlash_heimdallFailed (w : MainWindow) :
    (StartFlash w).1.heimdallFailed = false := by
  unfold StartFlash
  cases h1 : w.workingFirmwareInfo.repartition <;>
    cases h2 : w.workingFirmwareInfo.noReboot <;>
    cases h3 : (w.workingFirmwareInfo.fileInfos.length == 1) <;>
    simp [h1, h2, h3]

/-- C17, the code at the failing input: a process error reported to
`HandleHeimdallError` during a flash with the progress at 42, be it a crash, a
timeout, a failure to start or an unknown error, leaves the state `Stopped`
but the progress at 42; `HandleHeimdallReturned` on the same state leaves the
progress at 0. -/
theorem HandleHeimdallError_keeps_progress :
    (HandleHeimdallError
      { heimdallState := HeimdallState.Flashing, flashProgressBar := { value := 42 } } ""
      ProcessError.Crashed).heimdallState = HeimdallState.Stopped ∧
    (HandleHeimdallError
      { heimdallState := HeimdallState.Flashing, flashProgressBar := { value := 42 } } ""
      ProcessError.Crashed).flashProgressBar.value = 42 ∧
    (HandleHeimdallError
      { heimdallState := HeimdallState.Flashing, flashProgressBar := { value := 42 } } ""
      ProcessError.Timedout).flashProgressBar.value = 42 ∧
    (HandleHeimdallError
      { heimdallState := HeimdallState.Flashing, flashProgressBar := { value := 42 } } ""
      ProcessError.FailedToStart).flashProgressBar.value = 42 ∧
    (HandleHeimdallError
      { heimdallState := HeimdallState.Flashing, flashProgressBar := { value := 42 } } ""
      ProcessError.UnknownError).flashProgressBar.value = 42 ∧
    (HandleHeimdallReturned
      { heimdallState := HeimdallState.Flashing, flashProgressBar := { value := 42 } } "" ""
      1 ExitStatus.CrashExit).flashProgressBar.value = 0 := by
  decide

/-- What the two handlers do to the state and the progress, for every state:
`HandleHeimdallReturned`, for any exit code and exit status, sets the state to
`Stopped` and the progress value to 0; `HandleHeimdallError`, for any process
error, sets the state to `Stopped` and has no statement that sets the
progress value. -/
theorem terminal_state_and_progress (w : MainWindow) (output error : String)
    (exitCode : Int) (exitStatus : ExitStatus) (processError : ProcessError) :
    (HandleHeimdallReturned w output error exitCode exitStatus).heimdallState
      = HeimdallState.Stopped ∧
    (HandleHeimdallReturned w output error exitCode exitStatus).flashProgressBar.value = 0 ∧
    (HandleHeimdallError w error processError).heimdallState = HeimdallState.Stopped ∧
    (HandleHeimdallError w error processError).flashProgressBar.value
      = w.flashProgressBar.value := by
  refine ⟨rfl, ?_, ?_, ?_⟩
  · unfold HandleHeimdallReturned
    simp only
    exact ProgressBar.setValue_zero _
  · unfold HandleHeimdallError
    split
    · rfl
    · split <;> rfl
  · unfold HandleHeimdallError
    simp only
    split
    · split <;> rfl
    · split
      · split <;> rfl
      · split <;> rfl

/-- C19: `HandleHeimdallError` sets the failed flag exactly for the errors
failed-to-start and timed-out and leaves it as it was for a crash and every
other error; each of the five run-starting operations hands a cleared failed
flag to `StartHeimdall`. -/
theorem heimdallFailed_set_and_cleared (w : MainWindow) (stderrText : String)
    (error : ProcessError) :
    (HandleHeimdallError w stderrText error).heimdallFailed
      = (if error = ProcessError.FailedToStart ∨ error = ProcessError.Timedout then true
         else w.heimdallFailed) ∧
    (StartFlash w).1.heimdallFailed = false ∧
    (DetectDevice w).1.heimdallFailed = false ∧
    (ClosePcScreen w).1.heimdallFailed = false ∧
    (DownloadPit w).1.heimdallFailed = false ∧
    (PrintPit w).1.heimdallFailed = false := by
  refine ⟨?_, ?_, rfl, rfl, rfl, rfl⟩
  · unfold HandleHeimdallError
    simp only
    split
    · split <;> rfl
    · split
      · split <;> rfl
      · split <;> rfl
  · exact StartFlash_heimdallFailed w

theorem Char.eq_of_toNat_eq {a b : Char} (h : a.toNat = b.toNat) : a = b := by
  apply Char.ext
  apply UInt32.ext
  exact h

/-- The display text in one pass over the output: a backspace gives nothing,
a percent sign gives itself and a newline, any other character itself. -/
theorem display_data (output : List Char) :
    (HandleHeimdallStdout.display ⟨output⟩).data
      = output.flatMap (fun c =>
          if c = '\x08' then [] else if c = '%' then ['%', '\n'] else [c]) := by
  unfold HandleHeimdallStdout.display QString.replaceQChar QString.removeQChar
  simp only
  induction output with
  | nil => rfl
  | cons c rest ih =>
    by_cases hb : c = '\x08'
    · subst hb
      simpa [List.filter_cons, List.flatMap_cons] using ih
    · by_cases hp : c = '%'
      · subst hp
        have h1 : (('%' : Char) != '\x08') = true := by decide
        simp only [List.filter_cons, h1, if_true, List.flatMap_cons, ih]
        simp
      · have h1 : (c != '\x08') = true := by simpa using hb
        have h2 : ¬ c.toNat = ('%' : Char).toNat := fun h => hp (Char.eq_of_toNat_eq h)
        simp only [List.filter_cons, h1, if_true, List.flatMap_cons, ih, h2, hb, hp, if_false]

theorem display_no_backspace (l : List Char) :
    '\x08' ∉ l.flatMap (fun c =>
      if c = '\x08' then [] else if c = '%' then ['%', '\n'] else [c]) := by
  intro hmem
  rw [List.mem_flatMap] at hmem
  obtain ⟨c, _, hc⟩ := hmem
  by_cases hb : c = '\x08'
  · simp [hb] at hc
  · by_cases hp : c = '%'
    · subst hp
      revert hc
      decide
    · simp only [hb, hp, if_false, List.mem_singleton] at hc
      exact hb hc.symm

theorem display_percent_newline (l : List Char) (pre post : List Char)
    (h : l.flatMap (fun c =>
      if c = '\x08' then [] else if c = '%' then ['%', '\n'] else [c]) = pre ++ '%' :: post) :
    ∃ rest, post = '\n' :: rest := by
  induction l generalizing pre with
  | nil =>
    cases pre <;> simp at h
  | cons c t ih =>
    rw [List.flatMap_cons] at h
    by_cases hb : c = '\x08'
    · simp only [hb, if_true, List.nil_append] at h
      exact ih pre h
    · by_cases hp : c = '%'
      · have hne : ('%' : Char) ≠ '\x08' := by decide
        subst hp
        simp only [hne, if_false, if_true, List.cons_append, List.nil_append] at h
        cases pre with
        | nil =>
          simp only [List.nil_append, List.cons.injEq, true_and] at h
          exact ⟨_, h.symm⟩
        | cons p pre1 =>
          simp only [List.cons_append, List.cons.injEq] at h
          cases pre1 with
          | nil =>
            simp only [List.nil_append, List.cons.injEq] at h
            exact absurd h.2.1 (by decide)
          | cons q pre2 =>
            simp only [List.cons_append, List.cons.injEq] at h
            exact ih pre2 h.2.2
      · simp only [hb, hp, if_false, List.cons_append, List.nil_append] at h
        cases pre with
        | nil =>
          simp only [List.nil_append, List.cons.injEq] at h
          exact absurd h.1 hp
        | cons p pre1 =>
          simp only [List.cons_append, List.cons.injEq] at h
          exact ih pre1 h.2

/-- C16: for every output chunk the text `HandleHeimdallStdout` inserts into
the display (appended to the flash output during a flash, to the utility
output otherwise) is the chunk with every backspace removed and every `%`
replaced by `%` and a newline, the other characters in their order; it
contains no backspace and each of its `%` is directly followed by a newline. -/
theorem HandleHeimdallStdout_display_text (w : MainWindow) (output : String) :
    (HandleHeimdallStdout w output).outputPlainTextEdit
      = (if HeimdallState.has w.heimdallState HeimdallState.Flashing = true then
          QString.append w.outputPlainTextEdit (HandleHeimdallStdout.display output)
         else w.outputPlainTextEdit) ∧
    (HandleHeimdallStdout w output).utilityOutputPlainTextEdit
      = (if HeimdallState.has w.heimdallState HeimdallState.Flashing = true then
          w.utilityOutputPlainTextEdit
         else
          QString.append w.utilityOutputPlainTextEdit (HandleHeimdallStdout.display output)) ∧
    (HandleHeimdallStdout.display output).data
      = output.data.flatMap (fun c =>
          if c = '\x08' then [] else if c = '%' then ['%', '\n'] else [c]) ∧
    '\x08' ∉ (HandleHeimdallStdout.display output).data ∧
    (∀ pre post, (HandleHeimdallStdout.display output).data = pre ++ '%' :: post →
      ∃ rest, post = '\n' :: rest) := by
  have hd := display_data output.data
  refine ⟨?_, ?_, hd, ?_, ?_⟩
  · rw [(HandleHeimdallStdout_textEdits w output).1]
    unfold HandleHeimdallStdout.insert
    simp only
    split <;> rfl
  · rw [(HandleHeimdallStdout_textEdits w output).2]
    unfold HandleHeimdallStdout.insert
    simp only
    split <;> rfl
  · show '\x08' ∉ (HandleHeimdallStdout.display ⟨output.data⟩).data
    rw [hd]
    exact display_no_backspace _
  · intro pre post h
    have h2 : (HandleHeimdallStdout.display ⟨output.data⟩).data = pre ++ '%' :: post := h
    rw [hd] at h2
    exact display_percent_newline _ pre post h2

/-! ## Theorems: the search for the last match -/

theorem QRegExp.lastMatch_eq_none (f : List Char → Option (List Char)) (s : List Char)
    (h : ∀ pre rest, s = pre ++ rest → f rest = none) : QRegExp.lastMatch f s = none := by
  induction s with
  | nil => exact h [] [] rfl
  | cons c t ih =>
    have ht : QRegExp.lastMatch f t = none :=
      ih (fun pre rest hs => h (c :: pre) rest (by rw [hs]; rfl))
    unfold QRegExp.lastMatch
    rw [ht]
    exact h [] (c :: t) rfl

theorem QRegExp.lastMatch_eq_some (f : List Char → Option (List Char)) (pre rest : List Char)
    (m : List Char) (hm : f rest = some m)
    (hlast : ∀ pre2 rest2, pre ++ rest = pre2 ++ rest2 → pre.length < pre2.length →
      f rest2 = none) :
    QRegExp.lastMatch f (pre ++ rest) = some m := by
  induction pre with
  | nil =>
    cases rest with
    | nil => exact hm
    | cons c t =>
      have ht : QRegExp.lastMatch f t = none := by
        apply QRegExp.lastMatch_eq_none
        intro p r hs
        exact hlast (c :: p) r (by rw [hs]; rfl) (by simp)
      show QRegExp.lastMatch f (c :: t) = some m
      unfold QRegExp.lastMatch
      rw [ht]
      exact hm
  | cons p pre1 ih =>
    have h1 : QRegExp.lastMatch f (pre1 ++ rest) = some m := by
      apply ih
      intro pre2 rest2 hs hlen
      exact hlast (p :: pre2) rest2 (by rw [List.cons_append, hs]; rfl) (by simpa using hlen)
    show QRegExp.lastMatch f (p :: (pre1 ++ rest)) = some m
    unfold QRegExp.lastMatch
    rw [h1]

theorem takeWhile_append_stop {p : Char → Bool} (l : List Char) (a : Char) (r : List Char)
    (hall : ∀ x ∈ l, p x = true) (ha : p a = false) :
    (l ++ a :: r).takeWhile p = l := by
  induction l with
  | nil => simp [List.takeWhile_cons, ha]
  | cons x t ih =>
    have hx := hall x (List.mem_cons_self x t)
    have ht := ih (fun y hy => hall y (List.mem_cons_of_mem x hy))
    simp [List.takeWhile_cons, hx, ht]

theorem drop_length_takeWhile (p : Char → Bool) (l : List Char) :
    l.drop (l.takeWhile p).length = l.dropWhile p := by
  induction l with
  | nil => rfl
  | cons x t ih =>
    by_cases hx : p x = true
    · simp [List.takeWhile_cons, List.dropWhile_cons, hx, ih]
    · simp [List.takeWhile_cons, List.dropWhile_cons, hx]

theorem head?_eq_some_cons {l : List Char} {a : Char} (h : l.head? = some a) :
    ∃ t, l = a :: t := by
  cases l with
  | nil => simp at h
  | cons x t =>
    simp only [List.head?_cons, Option.some.injEq] at h
    exact ⟨t, by rw [h]⟩

theorem uploadingExp.matchAt_of_line (body post : List Char) (hne : body ≠ [])
    (hnl : '\n' ∉ body) :
    uploadingExp.matchAt ("Uploading ".data ++ (body ++ '\n' :: post))
      = some ("Uploading ".data ++ body ++ ['\n']) := by
  have hpre : "Uploading ".data.isPrefixOf ("Uploading ".data ++ (body ++ '\n' :: post)) = true := by
    rw [List.isPrefixOf_iff_prefix]
    exact List.prefix_append _ _
  have htake : (body ++ '\n' :: post).takeWhile (fun c => c != '\n') = body := by
    apply takeWhile_append_stop
    · intro x hx
      have : x ≠ '\n' := fun h => hnl (h ▸ hx)
      simpa using this
    · simp
  have hempty : body.isEmpty = false := by
    cases body with
    | nil => exact absurd rfl hne
    | cons a t => rfl
  unfold uploadingExp.matchAt
  simp only [hpre, if_true, List.drop_left, htake, hempty, Bool.not_false, Bool.true_and,
    List.head?_cons, beq_self_eq_true]

theorem uploadingExp.line_of_matchAt (s m : List Char) (h : uploadingExp.matchAt s = some m) :
    ∃ body post, s = "Uploading ".data ++ (body ++ '\n' :: post) ∧ body ≠ [] ∧ '\n' ∉ body ∧
      m = "Uploading ".data ++ body ++ ['\n'] := by
  unfold uploadingExp.matchAt at h
  by_cases hpre : "Uploading ".data.isPrefixOf s = true
  · simp only [hpre, if_true] at h
    rw [List.isPrefixOf_iff_prefix, List.prefix_iff_eq_append] at hpre
    by_cases hc : (!((s.drop "Uploading ".data.length).takeWhile (fun c => c != '\n')).isEmpty
        && ((s.drop "Uploading ".data.length).drop
            ((s.drop "Uploading ".data.length).takeWhile (fun c => c != '\n')).length).head?
          == some '\n') = true
    · simp only [hc, if_true, Option.some.injEq] at h
      rw [Bool.and_eq_true] at hc
      obtain ⟨h1, h2⟩ := hc
      rw [drop_length_takeWhile] at h2
      have h2' := eq_of_beq h2
      obtain ⟨post, hpost⟩ := head?_eq_some_cons h2'
      refine ⟨(s.drop "Uploading ".data.length).takeWhile (fun c => c != '\n'), post, ?_, ?_, ?_,
        h.symm⟩
      · rw [← hpost, List.takeWhile_append_dropWhile]
        exact hpre.symm
      · intro hnil
        rw [hnil] at h1
        simp at h1
      · intro hmem
        have := List.mem_takeWhile_imp hmem
        simp at this
    · simp only [hc] at h
      simp at h
  · simp only [hpre] at h
    simp at h

theorem QString.left_drop_last (x : List Char) (c : Char) :
    QString.left ⟨x ++ [c]⟩ (QString.length ⟨x ++ [c]⟩ - 1) = ⟨x⟩ := by
  unfold QString.left QString.length
  have h1 : ((((x ++ [c]).length : Nat) : Int) - 1) = (x.length : Int) := by
    simp
  simp only [h1]
  have h2 : ¬ ((x.length : Int) < 0 ∨ (((x ++ [c]).length : Nat) : Int) ≤ (x.length : Int)) := by
    simp
  rw [if_neg h2]
  simp

theorem uploadingExp.line_pre_bound (out : List Char) (n : Nat)
    (hn : ∀ k ∈ List.range (out.length + 1), n < k → uploadingExp.matchAt (out.drop k) = none)
    (pre2 body2 post2 : List Char)
    (hout : out = pre2 ++ ("Uploading ".data ++ (body2 ++ '\n' :: post2)))
    (hne : body2 ≠ []) (hnl : '\n' ∉ body2) : pre2.length ≤ n := by
  by_contra hlt
  have hk : pre2.length ∈ List.range (out.length + 1) := by
    rw [List.mem_range, hout, List.length_append]
    omega
  have h := hn pre2.length hk (by omega)
  rw [hout, List.drop_left, uploadingExp.matchAt_of_line body2 post2 hne hnl] at h
  exact absurd h (by simp)

/-- C14: when the chunk contains an upload-status line (`Uploading `, one or
more characters other than a newline, a newline), the status label becomes the
text of the one that starts last in the chunk, without its newline; when it
contains none, the status label is left as it was. -/
theorem HandleHeimdallStdout_status_label (w : MainWindow) (output : String) :
    (∀ pre body post,
      output.data = pre ++ ("Uploading ".data ++ (body ++ '\n' :: post)) →
      body ≠ [] → '\n' ∉ body →
      (∀ pre2 body2 post2,
        output.data = pre2 ++ ("Uploading ".data ++ (body2 ++ '\n' :: post2)) →
        body2 ≠ [] → '\n' ∉ body2 → pre2.length ≤ pre.length) →
      (HandleHeimdallStdout w output).flashLabel = ⟨"Uploading ".data ++ body⟩) ∧
    ((∀ pre body post,
        output.data = pre ++ ("Uploading ".data ++ (body ++ '\n' :: post)) →
        body ≠ [] → '\n' ∈ body) →
      (HandleHeimdallStdout w output).flashLabel = w.flashLabel) := by
  constructor
  · intro pre body post hout hne hnl hmax
    have hlm : QRegExp.lastMatch uploadingExp.matchAt output.data
        = some ("Uploading ".data ++ body ++ ['\n']) := by
      rw [hout]
      apply QRegExp.lastMatch_eq_some _ pre _ _ (uploadingExp.matchAt_of_line body post hne hnl)
      intro pre2 rest2 hs hlen
      cases hm : uploadingExp.matchAt rest2 with
      | none => rfl
      | some m2 =>
        obtain ⟨body2, post2, hr, hne2, hnl2, _⟩ := uploadingExp.line_of_matchAt rest2 m2 hm
        have := hmax pre2 body2 post2 (by rw [hout, hs, hr]) hne2 hnl2
        omega
    rw [HandleHeimdallStdout_flashLabel]
    unfold HandleHeimdallStdout.status
    rw [hlm]
    exact QString.left_drop_last _ _
  · intro hnone
    have hlm : QRegExp.lastMatch uploadingExp.matchAt output.data = none := by
      apply QRegExp.lastMatch_eq_none
      intro pre rest hs
      cases hm : uploadingExp.matchAt rest with
      | none => rfl
      | some m =>
        obtain ⟨body, post, hr, hne, hnl, _⟩ := uploadingExp.line_of_matchAt rest m hm
        exact absurd (hnone pre body post (by rw [hs, hr]) hne) hnl
    rw [HandleHeimdallStdout_flashLabel]
    unfold HandleHeimdallStdout.status
    rw [hlm]

/-- Witness of C14: the chunk `Uploading BOOT`, newline, backspace, `42%`
during a flash sets the status label to `Uploading BOOT`. -/
theorem HandleHeimdallStdout_status_label_witness :
    (HandleHeimdallStdout { heimdallState := HeimdallState.Flashing }
      "Uploading BOOT\n\x0842%").flashLabel = "Uploading BOOT" :=
  (HandleHeimdallStdout_status_label { heimdallState := HeimdallState.Flashing }
      "Uploading BOOT\n\x0842%").1 [] "BOOT".data "\x0842%".data (by decide) (by decide)
    (by decide) (uploadingExp.line_pre_bound _ 0 (by decide))

theorem percentExp.matchAt_of_marker (c : Char) (digits post : List Char)
    (hc : c = '\x08' ∨ c = '\n') (hne : digits ≠ [])
    (hd : ∀ d ∈ digits, d.isDigit = true) :
    percentExp.matchAt (c :: (digits ++ '%' :: post)) = some (c :: digits ++ ['%']) := by
  have hcb : (c == '\x08' || c == '\n') = true := by
    rcases hc with h | h <;> simp [h]
  have htake : (digits ++ '%' :: post).takeWhile Char.isDigit = digits :=
    takeWhile_append_stop digits '%' post hd (by decide)
  have hempty : digits.isEmpty = false := by
    cases digits with
    | nil => exact absurd rfl hne
    | cons a t => rfl
  unfold percentExp.matchAt
  simp only [hcb, if_true, htake, hempty, Bool.not_false, Bool.true_and, List.drop_left,
    List.head?_cons, beq_self_eq_true]

theorem percentExp.marker_of_matchAt (s m : List Char) (h : percentExp.matchAt s = some m) :
    ∃ c digits post, s = c :: (digits ++ '%' :: post) ∧ (c = '\x08' ∨ c = '\n') ∧
      digits ≠ [] ∧ (∀ d ∈ digits, d.isDigit = true) ∧ m = c :: digits ++ ['%'] := by
  cases s with
  | nil => simp [percentExp.matchAt] at h
  | cons c rest =>
    unfold percentExp.matchAt at h
    by_cases hcb : (c == '\x08' || c == '\n') = true
    · simp only [hcb, if_true] at h
      by_cases hc : (!(rest.takeWhile Char.isDigit).isEmpty
          && (rest.drop (rest.takeWhile Char.isDigit).length).head? == some '%') = true
      · simp only [hc, if_true, Option.some.injEq] at h
        rw [Bool.and_eq_true] at hc
        obtain ⟨h1, h2⟩ := hc
        rw [drop_length_takeWhile] at h2
        obtain ⟨post, hpost⟩ := head?_eq_some_cons (eq_of_beq h2)
        refine ⟨c, rest.takeWhile Char.isDigit, post, ?_, ?_, ?_, ?_, h.symm⟩
        · rw [← hpost, List.takeWhile_append_dropWhile]
        · simpa using hcb
        · intro hnil
          rw [hnil] at h1
          simp at h1
        · intro d hmem
          exact List.mem_takeWhile_imp hmem
      · simp only [hc] at h
        simp at h
    · simp only [hcb] at h
      simp at h

theorem percentExp.marker_pre_bound (out : List Char) (n : Nat)
    (hn : ∀ k ∈ List.range (out.length + 1), n < k → percentExp.matchAt (out.drop k) = none)
    (pre2 : List Char) (c2 : Char) (digits2 post2 : List Char)
    (hout : out = pre2 ++ c2 :: (digits2 ++ '%' :: post2))
    (hc : c2 = '\x08' ∨ c2 = '\n') (hne : digits2 ≠ [])
    (hd : ∀ d ∈ digits2, d.isDigit = true) : pre2.length ≤ n := by
  by_contra hlt
  have hk : pre2.length ∈ List.range (out.length + 1) := by
    rw [List.mem_range, hout, List.length_append]
    omega
  have h := hn pre2.length hk (by omega)
  rw [hout, List.drop_left, percentExp.matchAt_of_marker c2 digits2 post2 hc hne hd] at h
  exact absurd h (by simp)

theorem QString.mid_marker (c : Char) (digits : List Char) :
    QString.mid ⟨c :: digits ++ ['%']⟩ 1 (QString.length ⟨c :: digits ++ ['%']⟩ - 2)
      = ⟨digits⟩ := by
  unfold QString.mid QString.length
  have hlen : (((c :: digits ++ ['%']).length : Nat) : Int) = (digits.length : Int) + 2 := by
    simp
    ring
  simp only [hlen]
  have h1 : ¬ ((1 : Int) > (digits.length : Int) + 2) := by omega
  have h2 : ¬ ((digits.length : Int) + 2 - 2 < 0) := by omega
  rw [if_neg h1, if_neg h2]
  have h3 : ((digits.length : Int) + 2 - 2).toNat = digits.length := by omega
  rw [h3]
  simp

theorem QString.toInt_digits (digits : List Char) (hne : digits ≠ [])
    (hd : ∀ d ∈ digits, d.isDigit = true) (hfit : QString.digitsValue digits ≤ 2147483647) :
    QString.toInt ⟨digits⟩ = (QString.digitsValue digits : Int) := by
  unfold QString.toInt
  have hall : digits.all Char.isDigit = true := by
    rw [List.all_eq_true]
    exact hd
  have hempty : digits.isEmpty = false := by
    cases digits with
    | nil => exact absurd rfl hne
    | cons a t => rfl
  simp only [hall, hempty, Bool.not_false, Bool.and_self, if_true, hfit]

theorem ProgressBar.setValue_in_range (bar : ProgressBar) (v : Int)
    (h0 : 0 ≤ v) (h100 : v ≤ 100) : (bar.setValue v).value = v := by
  unfold ProgressBar.setValue
  by_cases h : bar.value = v
  · simp [h]
  · have hr : ¬ (v > ProgressBar.maximum ∨ v < ProgressBar.minimum) := by
      simp only [ProgressBar.maximum, ProgressBar.minimum]
      omega
    simp [h, hr]

theorem ProgressBar.setValue_above (bar : ProgressBar) (v : Int) (h100 : 100 < v) :
    bar.setValue v = bar := by
  unfold ProgressBar.setValue
  have hr : (v > ProgressBar.maximum ∨ v < ProgressBar.minimum) ∧
      (ProgressBar.maximum ≠ 0 ∨ ProgressBar.minimum ≠ 0) := by
    simp only [ProgressBar.maximum, ProgressBar.minimum]
    constructor
    · left; omega
    · left; decide
  simp [hr]

theorem HandleHeimdallStdout.progress_of_last_marker (w : MainWindow) (output : String)
    (pre : List Char) (c : Char) (digits post : List Char)
    (hout : output.data = pre ++ c :: (digits ++ '%' :: post))
    (hc : c = '\x08' ∨ c = '\n') (hne : digits ≠ [])
    (hd : ∀ d ∈ digits, d.isDigit = true)
    (hmax : ∀ pre2 c2 digits2 post2,
      output.data = pre2 ++ c2 :: (digits2 ++ '%' :: post2) →
      (c2 = '\x08' ∨ c2 = '\n') → digits2 ≠ [] → (∀ d ∈ digits2, d.isDigit = true) →
      pre2.length ≤ pre.length) :
    (HandleHeimdallStdout w output).flashProgressBar
      = w.flashProgressBar.setValue (QString.toInt ⟨digits⟩) := by
  have hlm : QRegExp.lastMatch percentExp.matchAt output.data
      = some (c :: digits ++ ['%']) := by
    rw [hout]
    apply QRegExp.lastMatch_eq_some _ pre _ _ (percentExp.matchAt_of_marker c digits post hc hne hd)
    intro pre2 rest2 hs hlen
    cases hm : percentExp.matchAt rest2 with
    | none => rfl
    | some m2 =>
      obtain ⟨c2, digits2, post2, hr, hc2, hne2, hd2, _⟩ :=
        percentExp.marker_of_matchAt rest2 m2 hm
      have := hmax pre2 c2 digits2 post2 (by rw [hout, hs, hr]) hc2 hne2 hd2
      omega
  rw [HandleHeimdallStdout_flashProgressBar]
  unfold HandleHeimdallStdout.progress
  rw [hlm]
  simp only [QString.mid_marker]

/-- C15, the claim as stated fails: the chunk made of a backspace and `250%`
has one percentage marker, whose number is 250; with the progress at 10 before,
the progress is 10 afterwards, not the number written. -/
theorem HandleHeimdallStdout_progress_above_range :
    ("\x08250%" : String).data = [] ++ '\x08' :: ("250".data ++ '%' :: []) ∧
    QString.digitsValue "250".data = 250 ∧
    (HandleHeimdallStdout
      { heimdallState := HeimdallState.Flashing, flashProgressBar := { value := 10 } }
      "\x08250%").flashProgressBar.value = 10 := by
  decide

/-- C15, amended: when the chunk contains a percentage marker (a backspace or
a newline, one or more decimal digits, `%`), the progress value becomes the
number written in the marker that starts last in the chunk if that number is
at most 100, and stays what it was if the number is larger (up to the largest
`int`); a chunk with no marker leaves the progress as it was. -/
theorem HandleHeimdallStdout_progress_value (w : MainWindow) (output : String) :
    (∀ pre c digits post,
      output.data = pre ++ c :: (digits ++ '%' :: post) →
      (c = '\x08' ∨ c = '\n') → digits ≠ [] → (∀ d ∈ digits, d.isDigit = true) →
      (∀ pre2 c2 digits2 post2,
        output.data = pre2 ++ c2 :: (digits2 ++ '%' :: post2) →
        (c2 = '\x08' ∨ c2 = '\n') → digits2 ≠ [] → (∀ d ∈ digits2, d.isDigit = true) →
        pre2.length ≤ pre.length) →
      (QString.digitsValue digits ≤ 100 →
        (HandleHeimdallStdout w output).flashProgressBar.value
          = (QString.digitsValue digits : Int)) ∧
      (100 < QString.digitsValue digits → QString.digitsValue digits ≤ 2147483647 →
        (HandleHeimdallStdout w output).flashProgressBar = w.flashProgressBar)) ∧
    ((∀ pre c digits post,
        output.data = pre ++ c :: (digits ++ '%' :: post) →
        (c = '\x08' ∨ c = '\n') → digits ≠ [] → ¬ (∀ d ∈ digits, d.isDigit = true)) →
      (HandleHeimdallStdout w output).flashProgressBar = w.flashProgressBar) := by
  constructor
  · intro pre c digits post hout hc hne hd hmax
    have hbar := HandleHeimdallStdout.progress_of_last_marker w output pre c digits post hout hc
      hne hd hmax
    constructor
    · intro hle
      rw [hbar, QString.toInt_digits digits hne hd (by omega)]
      exact ProgressBar.setValue_in_range _ _ (Int.ofNat_nonneg _) (by omega)
    · intro hgt hfit
      rw [hbar, QString.toInt_digits digits hne hd hfit]
      exact ProgressBar.setValue_above _ _ (by omega)
  · intro hnone
    have hlm : QRegExp.lastMatch percentExp.matchAt output.data = none := by
      apply QRegExp.lastMatch_eq_none
      intro pre rest hs
      cases hm : percentExp.matchAt rest with
      | none => rfl
      | some m =>
        obtain ⟨c, digits, post, hr, hc, hne, hd, _⟩ := percentExp.marker_of_matchAt rest m hm
        exact absurd hd (hnone pre c digits post (by rw [hs, hr]) hc hne)
    rw [HandleHeimdallStdout_flashProgressBar]
    unfold HandleHeimdallStdout.progress
    rw [hlm]

/-- Witness of C15 amended: the chunk `Uploading BOOT`, newline, backspace,
`42%` sets the progress to 42. -/
theorem HandleHeimdallStdout_progress_value_witness :
    (HandleHeimdallStdout { heimdallState := HeimdallState.Flashing }
      "Uploading BOOT\n\x0842%").flashProgressBar.value = ((42 : Nat) : Int) :=
  ((HandleHeimdallStdout_progress_value { heimdallState := HeimdallState.Flashing }
      "Uploading BOOT\n\x0842%").1 "Uploading BOOT\n".data '\x08' "42".data [] (by decide)
    (by decide) (by decide) (by decide)
    (percentExp.marker_pre_bound _ 15 (by decide))).1 (by decide)

/-! ## Theorems: the error text of a failed flash -/

theorem QString.removeScan_of_not_infix (pat s : List Char)
    (h : QString.isInfixOf pat s = false) : QString.removeScan pat 0 s = s := by
  induction s with
  | nil => rfl
  | cons c t ih =>
    unfold QString.isInfixOf at h
    rw [Bool.or_eq_false_iff] at h
    unfold QString.removeScan
    simp only [h.1, Bool.false_eq_true, if_false, ih h.2]

theorem QString.removeScan_skip (pat l s : List Char) :
    QString.removeScan pat l.length (l ++ s) = QString.removeScan pat 0 s := by
  induction l with
  | nil => rfl
  | cons c t ih =>
    have hstep : QString.removeScan pat (t.length + 1) (c :: (t ++ s))
        = QString.removeScan pat t.length (t ++ s) := by
      rw [QString.removeScan]
    show QString.removeScan pat (t.length + 1) (c :: (t ++ s)) = _
    rw [hstep, ih]

theorem QString.removeAll_error_head (msg : List Char)
    (h : QString.isInfixOf "ERROR: ".data msg = false) :
    QString.removeAll ⟨"ERROR: ".data ++ msg⟩ "ERROR: " = ⟨msg⟩ := by
  have hpre : "ERROR: ".data.isPrefixOf ("ERROR: ".data ++ msg) = true := by
    rw [List.isPrefixOf_iff_prefix]
    exact List.prefix_append _ _
  have hskip := QString.removeScan_skip "ERROR: ".data "RROR: ".data msg
  unfold QString.removeAll
  have hne : ("ERROR: " : String).data.isEmpty = false := by decide
  simp only [hne, Bool.false_eq_true, if_false]
  show (⟨QString.removeScan "ERROR: ".data 0 ('E' :: ("RROR: ".data ++ msg))⟩ : String) = ⟨msg⟩
  unfold QString.removeScan
  have hpre2 : "ERROR: ".data.isPrefixOf ('E' :: ("RROR: ".data ++ msg)) = true := hpre
  simp only [hpre2, if_true]
  have hlen : "ERROR: ".data.length - 1 = "RROR: ".data.length := by decide
  rw [hlen, hskip, QString.removeScan_of_not_infix _ _ h]

theorem QString.removeAll_error_none (msg : List Char)
    (h : QString.isInfixOf "ERROR: ".data msg = false) :
    QString.removeAll ⟨msg⟩ "ERROR: " = ⟨msg⟩ := by
  unfold QString.removeAll
  have hne : ("ERROR: " : String).data.isEmpty = false := by decide
  simp only [hne, Bool.false_eq_true, if_false]
  rw [QString.removeScan_of_not_infix _ _ h]

theorem QString.lastIndexOf_newline_end (l : List Char) :
    QString.lastIndexOf ⟨l ++ ['\n']⟩ '\n' = (l.length : Int) := by
  unfold QString.lastIndexOf
  simp only [List.reverse_append, List.reverse_cons, List.reverse_nil, List.nil_append,
    List.singleton_append, List.length_append, List.length_singleton]
  have h0 : List.indexOf '\n' ('\n' :: l.reverse) = 0 := by
    simp [List.indexOf_cons_self]
  rw [h0]
  simp

theorem HandleHeimdallReturned.error_of_line (l : List Char) :
    HandleHeimdallReturned.error ⟨l ++ ['\n']⟩ = QString.removeAll ⟨l⟩ "ERROR: " := by
  unfold HandleHeimdallReturned.error
  simp only [QString.lastIndexOf_newline_end]
  cases l with
  | nil =>
    have h : HandleHeimdallReturned.error "\n" = QString.removeAll "" "ERROR: " := by decide
    unfold HandleHeimdallReturned.error at h
    exact h
  | cons c t =>
    have hne : ¬ ((((c :: t).length : Nat) : Int) = 0) := by simp; omega
    rw [if_neg hne]
    have hleft : QString.left ⟨(c :: t) ++ ['\n']⟩ (((c :: t).length : Nat) : Int)
        = ⟨c :: t⟩ := by
      have := QString.left_drop_last (c :: t) '\n'
      unfold QString.length at this
      have h1 : ((((c :: t) ++ ['\n']).length : Nat) : Int) - 1 = (((c :: t).length : Nat) : Int) := by
        simp
      rw [h1] at this
      exact this
    rw [hleft]

theorem HandleHeimdallReturned_flashLabel_failed (w : MainWindow) (output error : String)
    (exitCode : Int) (exitStatus : ExitStatus)
    (hflash : HeimdallState.has w.heimdallState HeimdallState.Flashing = true)
    (hfail : ¬ (exitStatus = ExitStatus.NormalExit ∧ exitCode = 0)) :
    (HandleHeimdallReturned w output error exitCode exitStatus).flashLabel
      = HandleHeimdallReturned.error error := by
  unfold HandleHeimdallReturned
  simp only [HandleHeimdallStdout_heimdallState, hflash, hfail, if_true, if_false]

theorem QString.error_prefix_unbordered (q rest : List Char) (hq : q ≠ [])
    (h : "ERROR: ".data.isPrefixOf q = false) :
    "ERROR: ".data.isPrefixOf (q ++ ("ERROR: ".data ++ rest)) = false := by
  have hpat : "ERROR: ".data = ['E', 'R', 'R', 'O', 'R', ':', ' '] := rfl
  rw [hpat] at h ⊢
  rcases q with _ | ⟨c0, _ | ⟨c1, _ | ⟨c2, _ | ⟨c3, _ | ⟨c4, _ | ⟨c5, _ | ⟨c6, q⟩⟩⟩⟩⟩⟩⟩
  · exact absurd rfl hq
  · simp [List.isPrefixOf]
  · simp [List.isPrefixOf]
  · simp [List.isPrefixOf]
  · simp [List.isPrefixOf]
  · simp [List.isPrefixOf]
  · simp [List.isPrefixOf]
  · simp only [List.cons_append, List.isPrefixOf] at h ⊢
    exact h

theorem QString.removeScan_first (pat p rest : List Char) (hpat : pat ≠ [])
    (hunb : ∀ q : List Char, q ≠ [] → pat.isPrefixOf q = false →
      pat.isPrefixOf (q ++ (pat ++ rest)) = false)
    (h : QString.isInfixOf pat p = false) :
    QString.removeScan pat 0 (p ++ (pat ++ rest)) = p ++ QString.removeScan pat 0 rest := by
  induction p with
  | nil =>
    cases pat with
    | nil => exact absurd rfl hpat
    | cons a tail =>
      have hpre : (a :: tail).isPrefixOf (a :: (tail ++ rest)) = true := by
        rw [List.isPrefixOf_iff_prefix]
        exact List.prefix_append (a :: tail) rest
      have hskip := QString.removeScan_skip (a :: tail) tail rest
      show QString.removeScan (a :: tail) 0 (a :: (tail ++ rest)) = _
      rw [QString.removeScan]
      simp only [hpre, if_true, List.length_cons, Nat.add_sub_cancel]
      rw [hskip, List.nil_append]
  | cons c t ih =>
    unfold QString.isInfixOf at h
    rw [Bool.or_eq_false_iff] at h
    have hno := hunb (c :: t) (List.cons_ne_nil c t) h.1
    rw [List.cons_append] at hno ⊢
    rw [QString.removeScan]
    simp only [hno, Bool.false_eq_true, if_false, ih h.2, List.cons_append]

theorem QString.removeAll_error_first (p rest : List Char)
    (h : QString.isInfixOf "ERROR: ".data p = false) :
    QString.removeAll ⟨p ++ ("ERROR: ".data ++ rest)⟩ "ERROR: "
      = ⟨p ++ (QString.removeAll ⟨rest⟩ "ERROR: ").data⟩ := by
  unfold QString.removeAll
  have hne : ("ERROR: " : String).data.isEmpty = false := by decide
  simp only [hne, Bool.false_eq_true, if_false]
  rw [QString.removeScan_first "ERROR: ".data p rest (by decide)
    (fun q hq hq2 => QString.error_prefix_unbordered q rest hq hq2) h]

theorem QString.lastIndexOf_of_not_mem (l : List Char) (c : Char) (h : c ∉ l) :
    QString.lastIndexOf ⟨l⟩ c = -1 := by
  unfold QString.lastIndexOf
  have hk : l.reverse.indexOf c = l.length := by
    rw [← List.length_reverse l]
    exact List.indexOf_eq_length.mpr (by simpa using h)
  simp only [hk, lt_irrefl, if_false]

theorem QString.lastIndexOf_last (pre post : List Char) (c : Char) (h : c ∉ post) :
    QString.lastIndexOf ⟨pre ++ c :: post⟩ c = (pre.length : Int) := by
  unfold QString.lastIndexOf
  have hrev : (pre ++ c :: post).reverse = post.reverse ++ c :: pre.reverse := by simp
  have hk : (pre ++ c :: post).reverse.indexOf c = post.length := by
    rw [hrev, List.indexOf_append_of_not_mem (by simpa using h), List.indexOf_cons_self]
    simp
  simp only [hk, List.length_append, List.length_cons]
  have hlt : post.length < pre.length + (post.length + 1) := by omega
  rw [if_pos hlt]
  push_cast
  omega

theorem HandleHeimdallReturned.error_no_newline (text : List Char) (h : '\n' ∉ text) :
    HandleHeimdallReturned.error ⟨text⟩ = QString.removeAll ⟨text⟩ "ERROR: " := by
  unfold HandleHeimdallReturned.error
  simp only [QString.lastIndexOf_of_not_mem text '\n' h]
  have hne : ¬ ((-1 : Int) = 0) := by decide
  rw [if_neg hne]
  have hleft : QString.left ⟨text⟩ (-1) = ⟨text⟩ := by
    unfold QString.left
    rw [if_pos (Or.inl (by decide))]
  rw [hleft]

theorem HandleHeimdallReturned.error_before_last_newline (pre post : List Char)
    (hpre : pre ≠ []) (h : '\n' ∉ post) :
    HandleHeimdallReturned.error ⟨pre ++ '\n' :: post⟩ = QString.removeAll ⟨pre⟩ "ERROR: " := by
  unfold HandleHeimdallReturned.error
  simp only [QString.lastIndexOf_last pre post '\n' h]
  have hpos : 0 < pre.length := List.length_pos.mpr hpre
  have hne : ¬ ((pre.length : Int) = 0) := by omega
  rw [if_neg hne]
  have hleft : QString.left ⟨pre ++ '\n' :: post⟩ (pre.length : Int) = ⟨pre⟩ := by
    unfold QString.left QString.length
    have hcond : ¬ ((pre.length : Int) < 0 ∨
        (((pre ++ '\n' :: post).length : Nat) : Int) ≤ (pre.length : Int)) := by
      simp only [List.length_append, List.length_cons]
      push_cast
      omega
    rw [if_neg hcond]
    simp
  rw [hleft]

theorem HandleHeimdallReturned.error_newline_first (post : List Char) (h : '\n' ∉ post) :
    HandleHeimdallReturned.error ⟨'\n' :: post⟩ = QString.removeAll ⟨post⟩ "ERROR: " := by
  unfold HandleHeimdallReturned.error
  have hidx := QString.lastIndexOf_last [] post '\n' h
  simp only [List.nil_append, List.length_nil, Nat.cast_zero] at hidx
  simp only [hidx, if_true]
  have hmid : QString.mid ⟨'\n' :: post⟩ 1 (-1) = ⟨post⟩ := by
    unfold QString.mid QString.length
    have hcond : ¬ ((1 : Int) > ((('\n' :: post).length : Nat) : Int)) := by
      simp only [List.length_cons]
      push_cast
      omega
    rw [if_neg hcond, if_pos (by decide)]
    simp
  rw [hmid]

theorem QString.split_at_last (c : Char) (l : List Char) (h : c ∈ l) :
    ∃ pre post : List Char, l = pre ++ c :: post ∧ c ∉ post := by
  induction l with
  | nil => simp at h
  | cons a t ih =>
    by_cases ht : c ∈ t
    · obtain ⟨pre, post, hl, hpost⟩ := ih ht
      exact ⟨a :: pre, post, by rw [hl, List.cons_append], hpost⟩
    · rcases List.mem_cons.mp h with hca | hct
      · exact ⟨[], t, by rw [hca, List.nil_append], ht⟩
      · exact absurd hct ht

/-- C18, the claim as stated fails: for the error output `line1`, newline,
`ERROR: boom`, newline, a failed flash shows both lines (`line1`, newline,
`boom`), not the last line `boom`; for `ERROR: a ERROR: b`, newline, it shows
`a b`, where removing the leading `ERROR: ` only gives `a ERROR: b`. -/
theorem HandleHeimdallReturned_error_all_lines :
    (HandleHeimdallReturned { heimdallState := HeimdallState.Flashing } ""
      "line1\nERROR: boom\n" 1 ExitStatus.NormalExit).flashLabel = "line1\nboom" ∧
    errorTextSpec "line1\nERROR: boom\n" = "boom" ∧
    (HandleHeimdallReturned { heimdallState := HeimdallState.Flashing } ""
      "ERROR: a ERROR: b\n" 1 ExitStatus.NormalExit).flashLabel = "a b" ∧
    errorTextSpec "ERROR: a ERROR: b\n" = "a ERROR: b" := by
  decide

/-- C18, amended: when a Flashing session does not end with a normal exit and
code 0, the status text is, for every error output, the output cut at its last
newline with every occurrence of `ERROR: ` removed. The cut is the whole output
when it has no newline, what stands before the last newline when something
does, and what follows the newline when the last newline is the first
character. Removing leaves a text without `ERROR: ` as it is, and in a text
that starts with a part without `ERROR: ` followed by `ERROR: ` it keeps the
part, drops the `ERROR: ` and goes on in the same way behind it. The last
part says that the three shapes of the cut cover every error output. -/
theorem HandleHeimdallReturned_error_text (w : MainWindow) (output : String)
    (exitCode : Int) (exitStatus : ExitStatus)
    (hflash : HeimdallState.has w.heimdallState HeimdallState.Flashing = true)
    (hfail : ¬ (exitStatus = ExitStatus.NormalExit ∧ exitCode = 0)) :
    (∀ text : String, '\n' ∉ text.data →
      (HandleHeimdallReturned w output text exitCode exitStatus).flashLabel
        = QString.removeAll text "ERROR: ") ∧
    (∀ pre post : String, pre ≠ "" → '\n' ∉ post.data →
      (HandleHeimdallReturned w output (QString.append (QString.append pre "\n") post)
        exitCode exitStatus).flashLabel = QString.removeAll pre "ERROR: ") ∧
    (∀ post : String, '\n' ∉ post.data →
      (HandleHeimdallReturned w output (QString.append "\n" post)
        exitCode exitStatus).flashLabel = QString.removeAll post "ERROR: ") ∧
    (∀ text : String, QString.contains text "ERROR: " = false →
      QString.removeAll text "ERROR: " = text) ∧
    (∀ part rest : String, QString.contains part "ERROR: " = false →
      QString.removeAll (QString.append (QString.append part "ERROR: ") rest) "ERROR: "
        = QString.append part (QString.removeAll rest "ERROR: ")) ∧
    (∀ error : String,
      ('\n' ∉ error.data ∧
        (HandleHeimdallReturned w output error exitCode exitStatus).flashLabel
          = QString.removeAll error "ERROR: ") ∨
      (∃ pre post : String, error = QString.append (QString.append pre "\n") post ∧
        '\n' ∉ post.data ∧
        (HandleHeimdallReturned w output error exitCode exitStatus).flashLabel
          = QString.removeAll (if pre = "" then post else pre) "ERROR: ")) := by
  have hshape : ∀ pre post : String, QString.append (QString.append pre "\n") post
      = ⟨pre.data ++ '\n' :: post.data⟩ := by
    intro pre post
    show (⟨(pre.data ++ ['\n']) ++ post.data⟩ : String) = _
    rw [List.append_assoc, List.singleton_append]
  refine ⟨?_, ?_, ?_, ?_, ?_, ?_⟩
  · intro text htext
    rw [HandleHeimdallReturned_flashLabel_failed w output _ exitCode exitStatus hflash hfail]
    exact HandleHeimdallReturned.error_no_newline text.data htext
  · intro pre post hpre hpost
    rw [HandleHeimdallReturned_flashLabel_failed w output _ exitCode exitStatus hflash hfail]
    have hne : pre.data ≠ [] := fun hnil => hpre (by
      cases pre with
      | mk data =>
        simp only at hnil
        rw [hnil])
    rw [hshape]
    exact HandleHeimdallReturned.error_before_last_newline pre.data post.data hne hpost
  · intro post hpost
    rw [HandleHeimdallReturned_flashLabel_failed w output _ exitCode exitStatus hflash hfail]
    exact HandleHeimdallReturned.error_newline_first post.data hpost
  · intro text htext
    exact QString.removeAll_error_none text.data htext
  · intro part rest hpart
    have hparts : QString.append (QString.append part "ERROR: ") rest
        = ⟨part.data ++ ("ERROR: ".data ++ rest.data)⟩ := by
      show (⟨(part.data ++ "ERROR: ".data) ++ rest.data⟩ : String) = _
      rw [List.append_assoc]
    rw [hparts]
    exact QString.removeAll_error_first part.data rest.data hpart
  · intro error
    rw [HandleHeimdallReturned_flashLabel_failed w output _ exitCode exitStatus hflash hfail]
    by_cases hmem : '\n' ∈ error.data
    · right
      obtain ⟨pre, post, hl, hpost⟩ := QString.split_at_last '\n' error.data hmem
      have herr : error = ⟨pre ++ '\n' :: post⟩ := by
        cases error with
        | mk data =>
          simp only at hl
          rw [hl]
      refine ⟨⟨pre⟩, ⟨post⟩, by rw [hshape]; exact herr, hpost, ?_⟩
      rw [herr]
      cases pre with
      | nil =>
        have hempty : ((⟨[]⟩ : String) = "") := rfl
        rw [if_pos hempty]
        exact HandleHeimdallReturned.error_newline_first post hpost
      | cons a t =>
        have hne : ¬ ((⟨a :: t⟩ : String) = "") := fun h =>
          absurd (congrArg String.data h) (List.cons_ne_nil a t)
        rw [if_neg hne]
        exact HandleHeimdallReturned.error_before_last_newline (a :: t) post
          (List.cons_ne_nil a t) hpost
    · left
      exact ⟨hmem, HandleHeimdallReturned.error_no_newline error.data hmem⟩

/-- Witness of C18 amended: a flash that exits with code 1 and the error
output `line1`, newline, `ERROR: boom`, newline, which shows both lines, and
the error output `a`, newline, `b`, which shows `a`. -/
theorem HandleHeimdallReturned_error_text_witness :
    (HandleHeimdallReturned { heimdallState := HeimdallState.Flashing } ""
      (QString.append (QString.append "line1\nERROR: boom" "\n") "") 1
      ExitStatus.NormalExit).flashLabel = QString.removeAll "line1\nERROR: boom" "ERROR: " ∧
    QString.removeAll "line1\nERROR: boom" "ERROR: " = "line1\nboom" ∧
    (HandleHeimdallReturned { heimdallState := HeimdallState.Flashing } ""
      (QString.append (QString.append "a" "\n") "b") 1
      ExitStatus.NormalExit).flashLabel = QString.removeAll "a" "ERROR: " ∧
    QString.removeAll "a" "ERROR: " = "a" :=
  ⟨(HandleHeimdallReturned_error_text { heimdallState := HeimdallState.Flashing } "" 1
      ExitStatus.NormalExit (by decide) (by decide)).2.1 "line1\nERROR: boom" ""
      (by decide) (by decide),
   by decide,
   (HandleHeimdallReturned_error_text { heimdallState := HeimdallState.Flashing } "" 1
      ExitStatus.NormalExit (by decide) (by decide)).2.1 "a" "b" (by decide) (by decide),
   by decide⟩

/-! ## Theorems: the fallback of the matcher -/

theorem findPartitionIdByFlashFilename_cons (pe : PitEntry) (rest : PitData)
    (fileBase : String) :
    findPartitionIdByFlashFilename (pe :: rest) fileBase
      = if findPartitionIdByFlashFilename.accepts pe fileBase = true then
          toInt32 pe.GetIdentifier
        else findPartitionIdByFlashFilename rest fileBase := by
  rw [findPartitionIdByFlashFilename]
  unfold findPartitionIdByFlashFilename.accepts
  cases h1 : pe.IsFlashable <;>
    cases h2 : QString.isEmpty (QString.toLower pe.GetFlashFilename) <;>
    cases h3 : (QString.toLower pe.GetFlashFilename == fileBase
      || QString.contains (QString.toLower pe.GetFlashFilename) fileBase) <;>
    simp [h1, h2, h3]

theorem findPartitionIdByFlashFilename_first (pre : PitData) (e : PitEntry) (post : PitData)
    (fileBase : String)
    (hpre : ∀ e' ∈ pre, findPartitionIdByFlashFilename.accepts e' fileBase = false)
    (he : findPartitionIdByFlashFilename.accepts e fileBase = true) :
    findPartitionIdByFlashFilename (pre ++ e :: post) fileBase = toInt32 e.GetIdentifier := by
  induction pre with
  | nil =>
    rw [List.nil_append, findPartitionIdByFlashFilename_cons, if_pos he]
  | cons a rest ih =>
    have ha := hpre a (List.mem_cons_self a rest)
    rw [List.cons_append, findPartitionIdByFlashFilename_cons, ha]
    simp only [Bool.false_eq_true, if_false]
    exact ih (fun e' he' => hpre e' (List.mem_cons_of_mem a he'))

theorem findPartitionIdByFlashFilename_rejected (pit : PitData) (fileBase : String)
    (h : ∀ e ∈ pit, findPartitionIdByFlashFilename.accepts e fileBase = false) :
    findPartitionIdByFlashFilename pit fileBase = -1 := by
  induction pit with
  | nil => rfl
  | cons a rest ih =>
    rw [findPartitionIdByFlashFilename_cons, h a (List.mem_cons_self a rest)]
    simp only [Bool.false_eq_true, if_false]
    exact ih (fun e he => h e (List.mem_cons_of_mem a he))

theorem findPartitionIdByFlashFilename_source (pit : PitData) (fileBase : String)
    (h : findPartitionIdByFlashFilename pit fileBase ≥ 0) :
    ∃ e ∈ pit, findPartitionIdByFlashFilename.accepts e fileBase = true ∧
      findPartitionIdByFlashFilename pit fileBase = toInt32 e.GetIdentifier := by
  induction pit with
  | nil =>
    have hnil : findPartitionIdByFlashFilename [] fileBase = -1 := rfl
    rw [hnil] at h
    exact absurd h (by decide)
  | cons a rest ih =>
    rw [findPartitionIdByFlashFilename_cons] at h ⊢
    by_cases ha : findPartitionIdByFlashFilename.accepts a fileBase = true
    · rw [if_pos ha]
      exact ⟨a, List.mem_cons_self a rest, ha, rfl⟩
    · rw [if_neg ha] at h ⊢
      obtain ⟨e, he, h1, h2⟩ := ih h
      exact ⟨e, List.mem_cons_of_mem a he, h1, h2⟩

/-- C11, the claim as stated fails, at two inputs, both for `cache.img.lz4`
with no candidate naming an entry. With an entry named `PIT` whose flashable
flag is set in front of the entry `FOO`, both with the flash filename
`cache.img`, the fallback returns 9, the identifier of the `PIT` entry, which
is not flashable by the rule, where the claim gives 4. With the single entry
`FOO` whose flash filename is `CACHE.IMG` it returns 4, where the claim gives
no match. -/
theorem quickConvert_fallback_reserved_and_case :
    ((∀ c ∈ ConvertSamsungQuick.cands (basenameLower "cache.img.lz4"),
        PitData.FindEntryByName
          [⟨9, "PIT", "cache.img", true⟩, ⟨4, "FOO", "cache.img", true⟩] c = none) ∧
     isFlashableSpec ⟨9, "PIT", "cache.img", true⟩ = false ∧
     fallbackSpec [⟨9, "PIT", "cache.img", true⟩, ⟨4, "FOO", "cache.img", true⟩]
       (stripExtensions (basenameLower "cache.img.lz4")) = some 4 ∧
     ConvertSamsungQuick.partId
       [⟨9, "PIT", "cache.img", true⟩, ⟨4, "FOO", "cache.img", true⟩] "cache.img.lz4" = 9) ∧
    ((∀ c ∈ ConvertSamsungQuick.cands (basenameLower "cache.img.lz4"),
        PitData.FindEntryByName [⟨4, "FOO", "CACHE.IMG", true⟩] c = none) ∧
     fallbackSpec [⟨4, "FOO", "CACHE.IMG", true⟩]
       (stripExtensions (basenameLower "cache.img.lz4")) = none ∧
     ConvertSamsungQuick.partId [⟨4, "FOO", "CACHE.IMG", true⟩] "cache.img.lz4" = 4) := by
  decide

/-- C11, amended: when no candidate name is the name of a PIT entry, the
matcher returns the identifier of the first entry in table order whose
flashable flag is set (whatever its name) and whose flash filename, lowercased,
is not empty and equals or contains the extension-stripped lowercased
basename, for an identifier below `2^31`; it returns no match (`-1`) when no
entry passes that test; and a match it returns is always the identifier of an
entry that passes the test, so never of an entry whose flashable flag is
unset. -/
theorem quickConvert_fallback (pit : PitData) (path : String)
    (hname : ∀ c ∈ ConvertSamsungQuick.cands (basenameLower path),
      pit.FindEntryByName c = none) :
    (∀ pre e post, pit = pre ++ e :: post →
      (∀ e' ∈ pre, findPartitionIdByFlashFilename.accepts e'
        (stripExtensions (basenameLower path)) = false) →
      findPartitionIdByFlashFilename.accepts e (stripExtensions (basenameLower path)) = true →
      e.identifier < 2 ^ 31 →
      ConvertSamsungQuick.partId pit path = (e.identifier : Int)) ∧
    ((∀ e ∈ pit, findPartitionIdByFlashFilename.accepts e
        (stripExtensions (basenameLower path)) = false) →
      ConvertSamsungQuick.partId pit path = -1) ∧
    (ConvertSamsungQuick.partId pit path ≥ 0 →
      ∃ e ∈ pit, e.flashable = true ∧
        findPartitionIdByFlashFilename.accepts e (stripExtensions (basenameLower path)) = true ∧
        ConvertSamsungQuick.partId pit path = toInt32 e.GetIdentifier) := by
  have hpart : ConvertSamsungQuick.partId pit path
      = findPartitionIdByFlashFilename pit (stripExtensions (basenameLower path)) := by
    unfold ConvertSamsungQuick.partId
    exact tryCandidates_of_none pit _ _ hname
  refine ⟨?_, ?_, ?_⟩
  · intro pre e post hpit hpre he hid
    rw [hpart, hpit, findPartitionIdByFlashFilename_first pre e post _ hpre he]
    exact toInt32_of_lt hid
  · intro hall
    rw [hpart]
    exact findPartitionIdByFlashFilename_rejected pit _ hall
  · intro hge
    rw [hpart] at hge ⊢
    obtain ⟨e, he, hacc, hres⟩ := findPartitionIdByFlashFilename_source pit _ hge
    refine ⟨e, he, ?_, hacc, hres⟩
    unfold findPartitionIdByFlashFilename.accepts at hacc
    simp only [Bool.and_eq_true] at hacc
    exact hacc.1.1

/-- Witness of C11 amended: `boot.img.lz4` against a table with no `BOOT`
entry; the first entry has the flash filename `boot.img` but its flashable
flag is unset, the second has the flag and the flash filename `Boot.IMG`. -/
theorem quickConvert_fallback_witness :
    ConvertSamsungQuick.partId
      [⟨3, "X", "boot.img", false⟩, ⟨5, "KERNEL", "Boot.IMG", true⟩] "boot.img.lz4"
      = ((5 : Nat) : Int) :=
  (quickConvert_fallback [⟨3, "X", "boot.img", false⟩, ⟨5, "KERNEL", "Boot.IMG", true⟩]
    "boot.img.lz4" (by decide)).1 [⟨3, "X", "boot.img", false⟩]
    ⟨5, "KERNEL", "Boot.IMG", true⟩ [] rfl (by decide) (by decide) (by decide)

/-! ## Theorems: the unused partition identifiers -/

theorem UpdateUnusedPartitionIds.populate_eq (pit : PitData) (unused : List Nat) :
    UpdateUnusedPartitionIds.populate pit unused
      = unused ++ (pit.filter isFlashableSpec).map PitEntry.GetIdentifier := by
  induction pit generalizing unused with
  | nil => simp [UpdateUnusedPartitionIds.populate]
  | cons e rest ih =>
    rw [UpdateUnusedPartitionIds.populate]
    have hcond : (e.IsFlashable && e.GetPartitionName != "PIT" && e.GetPartitionName != "PT")
        = isFlashableSpec e := rfl
    rw [hcond]
    cases h : isFlashableSpec e
    · simp [h, ih]
    · simp [h, ih]

theorem UpdateUnusedPartitionIds.removeUsed_spec (fileInfos : List FileInfo)
    (unused : List Nat) (hnd : unused.Nodup) :
    (UpdateUnusedPartitionIds.removeUsed fileInfos unused).Nodup ∧
    ∀ x, x ∈ UpdateUnusedPartitionIds.removeUsed fileInfos unused
      ↔ (x ∈ unused ∧ x ∉ fileInfos.map FileInfo.GetPartitionId) := by
  induction fileInfos generalizing unused with
  | nil => simp [UpdateUnusedPartitionIds.removeUsed, hnd]
  | cons f rest ih =>
    rw [UpdateUnusedPartitionIds.removeUsed]
    obtain ⟨h1, h2⟩ := ih (unused.erase f.GetPartitionId) (hnd.erase _)
    refine ⟨h1, ?_⟩
    intro x
    rw [h2 x, hnd.mem_erase_iff]
    simp only [List.map_cons, List.mem_cons, not_or]
    tauto

theorem flashable_ids_nodup (pit : PitData) (hunique : (pit.map PitEntry.GetIdentifier).Nodup) :
    ((pit.filter isFlashableSpec).map PitEntry.GetIdentifier).Nodup :=
  hunique.sublist ((List.filter_sublist pit).map _)

theorem mem_flashable_ids (pit : PitData) (x : Nat) :
    x ∈ (pit.filter isFlashableSpec).map PitEntry.GetIdentifier
      ↔ ∃ e ∈ pit, isFlashableSpec e = true ∧ e.GetIdentifier = x := by
  simp only [List.mem_map, List.mem_filter]
  constructor
  · rintro ⟨e, ⟨he, hf⟩, hx⟩
    exact ⟨e, he, hf, hx⟩
  · rintro ⟨e, he, hf, hx⟩
    exact ⟨e, ⟨he, hf⟩, hx⟩

/-- The invariant the operations keep: the PIT table is the one read at the
start and the unused identifiers are those `UpdateUnusedPartitionIds` computes
from the table and the bindings. -/
theorem BindingOp.apply_keeps (pit : PitData) (w w1 : MainWindow) (op : BindingOp)
    (hpit : w.currentPitData = pit)
    (hstep : BindingOp.apply w op = some w1)
    (hun : w.unusedPartitionIds
      = UpdateUnusedPartitionIds.removeUsed w.workingFirmwareInfo.fileInfos
          (UpdateUnusedPartitionIds.populate pit [])) :
    w1.currentPitData = pit ∧
    w1.unusedPartitionIds
      = UpdateUnusedPartitionIds.removeUsed w1.workingFirmwareInfo.fileInfos
          (UpdateUnusedPartitionIds.populate pit []) := by
  cases op with
  | add =>
    unfold BindingOp.apply AddPartition at hstep
    cases hu : w.unusedPartitionIds with
    | nil => simp [hu] at hstep
    | cons first rest =>
      simp only [hu, Option.some.injEq] at hstep
      subst hstep
      exact ⟨hpit, by simp [UpdateUnusedPartitionIds, hpit]⟩
  | remove =>
    unfold BindingOp.apply RemovePartition at hstep
    simp only [Option.some.injEq] at hstep
    subst hstep
    exact ⟨hpit, by simp [UpdateUnusedPartitionIds, hpit]⟩
  | selectRow row =>
    unfold BindingOp.apply at hstep
    simp only [Option.some.injEq] at hstep
    subst hstep
    exact ⟨hpit, hun⟩

theorem BindingOp.run_keeps (pit : PitData) (ops : List BindingOp) (w w1 : MainWindow)
    (hpit : w.currentPitData = pit)
    (hrun : BindingOp.run w ops = some w1)
    (hun : w.unusedPartitionIds
      = UpdateUnusedPartitionIds.removeUsed w.workingFirmwareInfo.fileInfos
          (UpdateUnusedPartitionIds.populate pit [])) :
    w1.currentPitData = pit ∧
    w1.unusedPartitionIds
      = UpdateUnusedPartitionIds.removeUsed w1.workingFirmwareInfo.fileInfos
          (UpdateUnusedPartitionIds.populate pit []) := by
  induction ops generalizing w with
  | nil =>
    unfold BindingOp.run at hrun
    simp only [Option.some.injEq] at hrun
    subst hrun
    exact ⟨hpit, hun⟩
  | cons op rest ih =>
    unfold BindingOp.run at hrun
    cases hstep : BindingOp.apply w op with
    | none => simp [hstep] at hrun
    | some w2 =>
      simp only [hstep] at hrun
      obtain ⟨h1, h2⟩ := BindingOp.apply_keeps pit w w2 op hpit hstep hun
      exact ih w2 h1 hrun h2

/-- An `AddPartition` with an unused identifier left is defined: the sequence
of operations stops only at an `AddPartition` on an empty list of unused
identifiers. -/
theorem AddPartition_isSome (w : MainWindow) (h : w.unusedPartitionIds ≠ []) :
    (AddPartition w).isSome = true := by
  unfold AddPartition
  cases hu : w.unusedPartitionIds with
  | nil => exact absurd hu h
  | cons first rest => rfl

/-- C12: for every PIT table with unique identifiers and every sequence of
`AddPartition` and `RemovePartition` operations (and choices of a row) from the
empty binding list, the unused identifiers are disjoint from the bound
identifiers, and an identifier is unused or bound and flashable exactly when
it is the identifier of a flashable entry (flashable flag set, name neither
`PIT` nor `PT`). -/
theorem unusedPartitionIds_invariant (pit : PitData)
    (hunique : (pit.map PitEntry.GetIdentifier).Nodup)
    (ops : List BindingOp) (w : MainWindow)
    (hrun : BindingOp.run (MainWindow.ofPit pit) ops = some w) :
    (∀ x ∈ w.unusedPartitionIds,
      x ∉ w.workingFirmwareInfo.fileInfos.map FileInfo.GetPartitionId) ∧
    (∀ x,
      (x ∈ w.unusedPartitionIds ∨
        (x ∈ w.workingFirmwareInfo.fileInfos.map FileInfo.GetPartitionId ∧
          ∃ e ∈ pit, isFlashableSpec e = true ∧ e.GetIdentifier = x))
      ↔ ∃ e ∈ pit, isFlashableSpec e = true ∧ e.GetIdentifier = x) := by
  have hinit : (MainWindow.ofPit pit).unusedPartitionIds
      = UpdateUnusedPartitionIds.removeUsed (MainWindow.ofPit pit).workingFirmwareInfo.fileInfos
          (UpdateUnusedPartitionIds.populate pit []) := rfl
  obtain ⟨_, hun⟩ := BindingOp.run_keeps pit ops (MainWindow.ofPit pit) w rfl hrun hinit
  have hpop : UpdateUnusedPartitionIds.populate pit []
      = (pit.filter isFlashableSpec).map PitEntry.GetIdentifier := by
    rw [UpdateUnusedPartitionIds.populate_eq, List.nil_append]
  rw [hpop] at hun
  obtain ⟨_, hmem⟩ := UpdateUnusedPartitionIds.removeUsed_spec w.workingFirmwareInfo.fileInfos _
    (flashable_ids_nodup pit hunique)
  rw [← hun] at hmem
  constructor
  · intro x hx
    exact ((hmem x).mp hx).2
  · intro x
    rw [hmem x, mem_flashable_ids]
    generalize (∃ e ∈ pit, isFlashableSpec e = true ∧ e.GetIdentifier = x) = F
    generalize (x ∈ w.workingFirmwareInfo.fileInfos.map FileInfo.GetPartitionId) = B
    by_cases hF : F <;> by_cases hB : B <;> simp [hF, hB]

/-- Witness of C12: on `examplePit`, two bindings added, the first row chosen
and removed: the identifier 2 is unused, 3 is bound. -/
theorem unusedPartitionIds_invariant_witness :
    (∀ x ∈ exampleBindingState.unusedPartitionIds,
      x ∉ exampleBindingState.workingFirmwareInfo.fileInfos.map FileInfo.GetPartitionId) ∧
    (∀ x,
      (x ∈ exampleBindingState.unusedPartitionIds ∨
        (x ∈ exampleBindingState.workingFirmwareInfo.fileInfos.map FileInfo.GetPartitionId ∧
          ∃ e ∈ examplePit, isFlashableSpec e = true ∧ e.GetIdentifier = x))
      ↔ ∃ e ∈ examplePit, isFlashableSpec e = true ∧ e.GetIdentifier = x) :=
  unusedPartitionIds_invariant examplePit (by decide)
    [BindingOp.add, BindingOp.add, BindingOp.selectRow 0, BindingOp.remove]
    exampleBindingState (by decide)

/-- C13, the code at the failing input: the only binding is to the entry
`PIT` (identifier 1) and the unused identifiers are `[2]`; choosing index 0
re-binds it to 2 and leaves the unused identifiers `[1]`, while
`UpdateUnusedPartitionIds` computes the empty list from the same table and the
new bindings. -/
theorem SelectPartitionName_reserved_binding :
    exampleReservedBinding.unusedPartitionIds = [2] ∧
    (SelectPartitionName exampleReservedBinding 0).map
        (fun w => (w.workingFirmwareInfo.fileInfos, w.unusedPartitionIds,
          (UpdateUnusedPartitionIds w).unusedPartitionIds))
      = some ([⟨2, "x.img"⟩], [1], []) := by
  decide

theorem mem_map_set_of_nodup (fs : List FileInfo) (r : Nat) (hr : r < fs.length)
    (g : FileInfo) (hnd : (fs.map FileInfo.GetPartitionId).Nodup) (x : Nat) :
    x ∈ (fs.set r g).map FileInfo.GetPartitionId
      ↔ x = g.GetPartitionId ∨
        (x ∈ fs.map FileInfo.GetPartitionId ∧ x ≠ (fs.get ⟨r, hr⟩).GetPartitionId) := by
  induction fs generalizing r with
  | nil => simp at hr
  | cons f t ih =>
    rw [List.map_cons, List.nodup_cons] at hnd
    obtain ⟨hf, ht⟩ := hnd
    cases r with
    | zero =>
      simp only [List.set_cons_zero, List.map_cons, List.mem_cons, List.get_eq_getElem,
        List.getElem_cons_zero]
      constructor
      · rintro (h | h)
        · exact Or.inl h
        · exact Or.inr ⟨Or.inr h, fun hx => hf (hx ▸ h)⟩
      · rintro (h | ⟨h1 | h1, h2⟩)
        · exact Or.inl h
        · exact absurd h1 h2
        · exact Or.inr h1
    | succ r1 =>
      have hr1 : r1 < t.length := by simpa using hr
      have hmem : (t.get ⟨r1, hr1⟩).GetPartitionId ∈ t.map FileInfo.GetPartitionId :=
        List.mem_map_of_mem _ (List.get_mem t r1 hr1)
      simp only [List.set_cons_succ, List.map_cons, List.mem_cons, List.get_eq_getElem,
        List.getElem_cons_succ]
      rw [ih r1 hr1 ht]
      simp only [List.get_eq_getElem]
      simp only [List.get_eq_getElem] at hmem
      constructor
      · rintro (h | h | ⟨h1, h2⟩)
        · exact Or.inr ⟨Or.inl h, fun hx => hf (h ▸ hx ▸ hmem)⟩
        · exact Or.inl h
        · exact Or.inr ⟨Or.inr h1, h2⟩
      · rintro (h | ⟨h1 | h1, h2⟩)
        · exact Or.inr (Or.inl h)
        · exact Or.inl h1
        · exact Or.inr (Or.inr ⟨h1, h2⟩)

theorem mem_eraseIdx_of_nodup (l : List Nat) (i : Nat) (hi : i < l.length) (hnd : l.Nodup)
    (x : Nat) : x ∈ l.eraseIdx i ↔ x ∈ l ∧ x ≠ l.get ⟨i, hi⟩ := by
  rw [List.get_eq_getElem, ← hnd.erase_getElem i hi, hnd.mem_erase_iff]
  tauto

/-- Where the re-binding of `SelectPartitionName` does agree with
`UpdateUnusedPartitionIds`: the identifiers of the table are unique, those of
the bindings too, the unused identifiers were computed from them, and the
binding that is replaced was to a flashable entry (flag set, name neither `PIT`
nor `PT`). The unused identifiers afterwards are then, as a set, those
`UpdateUnusedPartitionIds` computes from the new bindings. -/
theorem SelectPartitionName_consistent (w : MainWindow) (index row : Nat)
    (hpop : w.populatingPartitionNames = false)
    (hrow : w.partitionsListWidgetRow = (row : Int))
    (hrowlt : row < w.workingFirmwareInfo.fileInfos.length)
    (hidx : index < w.unusedPartitionIds.length)
    (hunique : (w.currentPitData.map PitEntry.GetIdentifier).Nodup)
    (hbound : (w.workingFirmwareInfo.fileInfos.map FileInfo.GetPartitionId).Nodup)
    (hun : w.unusedPartitionIds = (UpdateUnusedPartitionIds w).unusedPartitionIds)
    (hold : ∃ e ∈ w.currentPitData, isFlashableSpec e = true ∧
      e.GetIdentifier = (w.workingFirmwareInfo.fileInfos.get ⟨row, hrowlt⟩).GetPartitionId) :
    ∃ w1, SelectPartitionName w (index : Int) = some w1 ∧
      ∀ x, x ∈ w1.unusedPartitionIds ↔ x ∈ (UpdateUnusedPartitionIds w1).unusedPartitionIds := by
  have hF := flashable_ids_nodup w.currentPitData hunique
  have hpopE : UpdateUnusedPartitionIds.populate w.currentPitData []
      = (w.currentPitData.filter isFlashableSpec).map PitEntry.GetIdentifier := by
    rw [UpdateUnusedPartitionIds.populate_eq, List.nil_append]
  have hun2 : w.unusedPartitionIds
      = UpdateUnusedPartitionIds.removeUsed w.workingFirmwareInfo.fileInfos
          ((w.currentPitData.filter isFlashableSpec).map PitEntry.GetIdentifier) := by
    rw [hun]
    simp only [UpdateUnusedPartitionIds, hpopE]
  obtain ⟨hUnd, hUmem⟩ := UpdateUnusedPartitionIds.removeUsed_spec
    w.workingFirmwareInfo.fileInfos _ hF
  rw [← hun2] at hUnd hUmem
  have hnew := (hUmem (w.unusedPartitionIds.get ⟨index, hidx⟩)).mp (List.get_mem _ index hidx)
  have hnewmod : (w.unusedPartitionIds.get ⟨index, hidx⟩) % 2 ^ 32
      = w.unusedPartitionIds.get ⟨index, hidx⟩ := by
    obtain ⟨e, _, _, he⟩ := (mem_flashable_ids _ _).mp hnew.1
    rw [← he]
    unfold PitEntry.GetIdentifier
    exact Nat.mod_mod _ _
  have hcond : (!w.populatingPartitionNames && ((index : Int) != -1)
      && ((index : Int) != (w.unusedPartitionIds.length : Int))) = true := by
    have h1 : ((index : Int) != -1) = true := by
      simp only [bne_iff_ne, ne_eq]
      omega
    have h2 : ((index : Int) != (w.unusedPartitionIds.length : Int)) = true := by
      simp only [bne_iff_ne, ne_eq]
      omega
    simp [hpop, h1, h2]
  have hlookU : w.unusedPartitionIds[(index : Int).toNat]?
      = some (w.unusedPartitionIds.get ⟨index, hidx⟩) := by
    simp [List.getElem?_eq_getElem hidx]
  have hlookF : (if w.partitionsListWidgetRow < 0 then none
      else w.workingFirmwareInfo.fileInfos[w.partitionsListWidgetRow.toNat]?)
      = some (w.workingFirmwareInfo.fileInfos.get ⟨row, hrowlt⟩) := by
    rw [hrow]
    have : ¬ ((row : Int) < 0) := by omega
    simp [this, List.getElem?_eq_getElem hrowlt]
  have hrem : QList.removeAt w.unusedPartitionIds (index : Int)
      = w.unusedPartitionIds.eraseIdx index := by
    unfold QList.removeAt
    have : (0 : Int) ≤ (index : Int) ∧ (index : Int) < (w.unusedPartitionIds.length : Int) := by
      omega
    simp [this]
  have hsel : SelectPartitionName w (index : Int) = some
      { w with
        unusedPartitionIds := w.unusedPartitionIds.eraseIdx index
          ++ [(w.workingFirmwareInfo.fileInfos.get ⟨row, hrowlt⟩).GetPartitionId],
        workingFirmwareInfo := { w.workingFirmwareInfo with
          fileInfos := w.workingFirmwareInfo.fileInfos.set row
            { w.workingFirmwareInfo.fileInfos.get ⟨row, hrowlt⟩ with
              partitionId := w.unusedPartitionIds.get ⟨index, hidx⟩ } } } := by
    unfold SelectPartitionName
    rw [if_pos hcond]
    have hneg : ¬ ((index : Int) < 0) := by omega
    rw [if_neg hneg, hlookU, hlookF]
    simp only [hrem, hrow, Int.toNat_ofNat]
  refine ⟨_, hsel, ?_⟩
  · intro x
    simp only [UpdateUnusedPartitionIds, hpopE]
    obtain ⟨_, hmem1⟩ := UpdateUnusedPartitionIds.removeUsed_spec
      (w.workingFirmwareInfo.fileInfos.set row
        { w.workingFirmwareInfo.fileInfos.get ⟨row, hrowlt⟩ with
          partitionId := w.unusedPartitionIds.get ⟨index, hidx⟩ })
      _ hF
    rw [hmem1 x, mem_map_set_of_nodup _ row hrowlt _ hbound x, List.mem_append,
      mem_eraseIdx_of_nodup _ index hidx hUnd x, hUmem x, List.mem_singleton]
    have hgid : ({ w.workingFirmwareInfo.fileInfos.get ⟨row, hrowlt⟩ with
        partitionId := w.unusedPartitionIds.get ⟨index, hidx⟩ } : FileInfo).GetPartitionId
        = w.unusedPartitionIds.get ⟨index, hidx⟩ := hnewmod
    rw [hgid]
    have holdF : (w.workingFirmwareInfo.fileInfos.get ⟨row, hrowlt⟩).GetPartitionId
        ∈ (w.currentPitData.filter isFlashableSpec).map PitEntry.GetIdentifier :=
      (mem_flashable_ids _ _).mpr hold
    have holdB : (w.workingFirmwareInfo.fileInfos.get ⟨row, hrowlt⟩).GetPartitionId
        ∈ w.workingFirmwareInfo.fileInfos.map FileInfo.GetPartitionId :=
      List.mem_map_of_mem _ (List.get_mem _ row hrowlt)
    constructor
    · rintro (⟨⟨h1, h2⟩, h3⟩ | h)
      · exact ⟨h1, fun hc => hc.elim h3 (fun hb => h2 hb.1)⟩
      · rw [h]
        refine ⟨holdF, fun hc => hc.elim (fun he => hnew.2 (he ▸ holdB)) (fun hb => hb.2 rfl)⟩
    · rintro ⟨h1, h2⟩
      by_cases hx : x = (w.workingFirmwareInfo.fileInfos.get ⟨row, hrowlt⟩).GetPartitionId
      · exact Or.inr hx
      · left
        exact ⟨⟨h1, fun hb => h2 (Or.inr ⟨hb, hx⟩)⟩, fun he => h2 (Or.inl he)⟩

/-! ## Theorems: the directories of the fallback of `StartHeimdall` -/

/-- Where the fallback does have its directories: for an environment with a
`PATH=` entry the list holds `/usr/local/bin` and `/usr/bin`, and the
directories of the first such entry in their order. -/
theorem StartHeimdall.paths_of_entry (pre : List String) (entry : String) (post : List String)
    (hpre : ∀ e ∈ pre, (QString.left e 5 == "PATH=") = false)
    (hentry : (QString.left entry 5 == "PATH=") = true) :
    "/usr/local/bin" ∈ StartHeimdall.paths (pre ++ entry :: post) ∧
    "/usr/bin" ∈ StartHeimdall.paths (pre ++ entry :: post) ∧
    (QString.split (QString.mid entry 5 (-1)) ':').Sublist
      (StartHeimdall.paths (pre ++ entry :: post)) := by
  induction pre with
  | nil =>
    rw [List.nil_append, StartHeimdall.paths]
    simp only [hentry, if_true]
    generalize QString.split (QString.mid entry 5 (-1)) ':' = dirs
    by_cases h1 : dirs.contains "/usr/local/bin" = true
    · by_cases h2 : dirs.contains "/usr/bin" = true
      · simp only [h1, h2, Bool.not_true, Bool.false_eq_true, if_false]
        exact ⟨by simpa using h1, by simpa using h2, List.Sublist.refl _⟩
      · have h2' : dirs.contains "/usr/bin" = false := by simpa using h2
        simp only [h1, h2', Bool.not_true, Bool.not_false, Bool.false_eq_true, if_false, if_true]
        refine ⟨List.mem_cons_of_mem _ (by simpa using h1), List.mem_cons_self _ _, ?_⟩
        exact List.sublist_cons_self _ _
    · have h1' : dirs.contains "/usr/local/bin" = false := by simpa using h1
      simp only [h1', Bool.not_false, if_true]
      by_cases h2 : ("/usr/local/bin" :: dirs).contains "/usr/bin" = true
      · simp only [h2, Bool.not_true, Bool.false_eq_true, if_false]
        exact ⟨List.mem_cons_self _ _, by simpa using h2, List.sublist_cons_self _ _⟩
      · have h2' : ("/usr/local/bin" :: dirs).contains "/usr/bin" = false := by simpa using h2
        simp only [h2', Bool.not_false, if_true]
        refine ⟨List.mem_cons_of_mem _ (List.mem_cons_self _ _), List.mem_cons_self _ _, ?_⟩
        exact (List.sublist_cons_self _ _).trans (List.sublist_cons_self _ _)
  | cons a rest ih =>
    have ha := hpre a (List.mem_cons_self a rest)
    rw [List.cons_append, StartHeimdall.paths]
    simp only [ha, Bool.false_eq_true, if_false]
    exact ih (fun e he => hpre e (List.mem_cons_of_mem a he))

/-- C21, the code at the failing input: for an inherited environment without
a `PATH=` entry the list of candidate directories is empty, so it holds neither
`/usr/local/bin` nor `/usr/bin`. -/
theorem StartHeimdall_paths_without_PATH :
    StartHeimdall.paths ["HOME=/root", "SHELL=/bin/sh"] = [] ∧
    "/usr/local/bin" ∉ StartHeimdall.paths ["HOME=/root", "SHELL=/bin/sh"] ∧
    "/usr/bin" ∉ StartHeimdall.paths ["HOME=/root", "SHELL=/bin/sh"] := by
  decide

/-! ## Theorems: reading and searching the PIT table -/

/-- C22: for every buffer on which unpacking fails, whatever `Unpack` leaves
in the table, `ReadPit` returns false and leaves the current PIT table cleared,
with zero entries, and the rest of the state as it was; with `Unpack` as the
specification describes it, this is so for every buffer shorter than the
header plus the declared entry count times the record size. -/
theorem ReadPit_failure_clears (Unpack : PitData → List Nat → Bool × PitData)
    (w : MainWindow) (buffer : List Nat) (headerSize recordSize : Nat)
    (entryCount : List Nat → Nat) (decodeEntry : List Nat → Option PitEntry) :
    ((Unpack w.currentPitData buffer).1 = false →
      (ReadPit Unpack w (some buffer)).1 = false ∧
      (ReadPit Unpack w (some buffer)).2 = { w with currentPitData := [] } ∧
      (ReadPit Unpack w (some buffer)).2.currentPitData.length = 0) ∧
    (buffer.length < headerSize + entryCount buffer * recordSize →
      ReadPit (PitData.UnpackSpec headerSize recordSize entryCount decodeEntry) w (some buffer)
        = (false, { w with currentPitData := [] })) := by
  constructor
  · intro hfail
    unfold ReadPit
    simp only [hfail, Bool.not_false, if_true, List.length_nil, and_self]
  · intro hshort
    have hfail : (PitData.UnpackSpec headerSize recordSize entryCount decodeEntry
        w.currentPitData buffer).1 = false := by
      unfold PitData.UnpackSpec
      by_cases h1 : buffer.length < headerSize
      · simp [h1]
      · simp [h1, hshort]
    unfold ReadPit
    simp only [hfail, Bool.not_false, if_true]

/-- Witness of C22: an `Unpack` that fails after putting an entry in the
table, and a buffer of 3 bytes against a header of 28 bytes. -/
theorem ReadPit_failure_clears_witness :
    ((ReadPit (fun _ _ => (false, [⟨1, "BOOT", "", true⟩])) {} (some [1, 2, 3])).1 = false ∧
      (ReadPit (fun _ _ => (false, [⟨1, "BOOT", "", true⟩])) {} (some [1, 2, 3])).2
        = { ({} : MainWindow) with currentPitData := [] } ∧
      (ReadPit (fun _ _ => (false, [⟨1, "BOOT", "", true⟩])) {}
        (some [1, 2, 3])).2.currentPitData.length = 0) ∧
    ReadPit (PitData.UnpackSpec 28 132 (fun _ => 1) (fun _ => none)) {} (some [1, 2, 3])
      = (false, { ({} : MainWindow) with currentPitData := [] }) :=
  ⟨(ReadPit_failure_clears (fun _ _ => (false, [⟨1, "BOOT", "", true⟩])) {} [1, 2, 3] 28 132
      (fun _ => 1) (fun _ => none)).1 rfl,
   (ReadPit_failure_clears (fun _ _ => (false, [⟨1, "BOOT", "", true⟩])) {} [1, 2, 3] 28 132
      (fun _ => 1) (fun _ => none)).2 (by decide)⟩

/-- C23, the claim as stated fails: in a table with unique identifiers and
two entries named `BOOT`, the second entry is found by its identifier, while
the search by its name returns the first entry. -/
theorem FindEntry_duplicate_name :
    (([⟨1, "BOOT", "", true⟩, ⟨2, "BOOT", "", true⟩] : PitData).map
      PitEntry.GetIdentifier).Nodup ∧
    PitData.FindEntry [⟨1, "BOOT", "", true⟩, ⟨2, "BOOT", "", true⟩] 2
      = some ⟨2, "BOOT", "", true⟩ ∧
    PitData.FindEntryByName [⟨1, "BOOT", "", true⟩, ⟨2, "BOOT", "", true⟩] "BOOT"
      = some ⟨1, "BOOT", "", true⟩ := by
  decide

/-- C23, amended: for every PIT table whose identifiers are unique and every
entry E of it whose partition name no other entry has, the search by E's
identifier and the search by E's name both return E. -/
theorem FindEntry_by_identifier_and_name (pit : PitData) (E : PitEntry)
    (hunique : (pit.map PitEntry.GetIdentifier).Nodup) (hE : E ∈ pit)
    (hname : ∀ E' ∈ pit, E'.partitionName = E.partitionName → E' = E) :
    pit.FindEntry E.identifier = some E ∧ pit.FindEntryByName E.partitionName = some E := by
  constructor
  · unfold PitData.FindEntry
    cases hfind : pit.find? (fun e => e.GetIdentifier == E.identifier % 2 ^ 32) with
    | none =>
      rw [List.find?_eq_none] at hfind
      have := hfind E hE
      simp [PitEntry.GetIdentifier] at this
    | some e =>
      have hmem := List.mem_of_find?_eq_some hfind
      have hp := List.find?_some hfind
      have hid : e.GetIdentifier = E.GetIdentifier := by
        simpa [PitEntry.GetIdentifier] using hp
      rw [List.inj_on_of_nodup_map hunique hmem hE hid]
  · unfold PitData.FindEntryByName
    cases hfind : pit.find? (fun e => e.GetPartitionName == E.partitionName) with
    | none =>
      rw [List.find?_eq_none] at hfind
      have := hfind E hE
      simp [PitEntry.GetPartitionName] at this
    | some e =>
      have hmem := List.mem_of_find?_eq_some hfind
      have hp := List.find?_some hfind
      have hn : e.partitionName = E.partitionName := by
        simpa [PitEntry.GetPartitionName] using hp
      rw [hname e hmem hn]

/-- Witness of C23 amended: the entry `SYSTEM` of `examplePit`. -/
theorem FindEntry_by_identifier_and_name_witness :
    PitData.FindEntry examplePit 3 = some ⟨3, "SYSTEM", "system.img", true⟩ ∧
    PitData.FindEntryByName examplePit "SYSTEM" = some ⟨3, "SYSTEM", "system.img", true⟩ :=
  FindEntry_by_identifier_and_name examplePit ⟨3, "SYSTEM", "system.img", true⟩ (by decide)
    (by decide) (by decide)

/-- C29, the code at the failing inputs: for `Pkg.GZ` and for `fw.TGZ` the
normalisation written in `BuildPackage` returns the path as it is, the one
written in `ConvertSamsungQuick` returns `Pkg.tar.gz` and `fw.tar.gz`. -/
theorem BuildPackage_outPath_differ :
    BuildPackage.packagePath "Pkg.GZ" = "Pkg.GZ" ∧
    ConvertSamsungQuick.outPath "Pkg.GZ" = "Pkg.tar.gz" ∧
    BuildPackage.packagePath "fw.TGZ" = "fw.TGZ" ∧
    ConvertSamsungQuick.outPath "fw.TGZ" = "fw.tar.gz" := by
  decide

/-! ## Theorems: the permission to flash -/

theorem TEE.analyze.best_spec (best : TEE.Candidate) (cands : List TEE.Candidate)
    (h0 : 0 ≤ best.score)
    (hun : best.type = TEE.TeeType.Unknown ↔ best.score = 0)
    (hc : ∀ c ∈ cands, c.type ≠ TEE.TeeType.Unknown) :
    0 ≤ (TEE.analyze.best best cands).score ∧
    ((TEE.analyze.best best cands).type = TEE.TeeType.Unknown
      ↔ (TEE.analyze.best best cands).score = 0) ∧
    (TEE.analyze.best best cands).score
      = (cands.map TEE.Candidate.score).foldl Max.max best.score := by
  induction cands generalizing best with
  | nil => exact ⟨h0, hun, rfl⟩
  | cons c rest ih =>
    have hrest : ∀ c' ∈ rest, c'.type ≠ TEE.TeeType.Unknown :=
      fun c' hc' => hc c' (List.mem_cons_of_mem c hc')
    have hct := hc c (List.mem_cons_self c rest)
    unfold TEE.analyze.best
    by_cases hgt : c.score > best.score
    · simp only [hgt, if_true, List.map_cons, List.foldl_cons]
      have hmax : Max.max best.score c.score = c.score := max_eq_right (le_of_lt hgt)
      rw [hmax]
      apply ih c (by omega)
      · constructor
        · intro h
          exact absurd h hct
        · intro h
          omega
      · exact hrest
    · simp only [hgt, if_false, List.map_cons, List.foldl_cons]
      have hmax : Max.max best.score c.score = best.score := max_eq_left (by omega)
      rw [hmax]
      exact ih best h0 hun hrest

theorem TEE.analyze.cands_types (props devNodes kernelLog : String) (vendorLibs : List String) :
    ∀ c ∈ (TEE.analyze.cands props devNodes kernelLog vendorLibs).1,
      c.type ≠ TEE.TeeType.Unknown := by
  intro c hc
  unfold TEE.analyze.cands at hc
  simp only [List.mem_cons, List.mem_singleton, List.not_mem_nil, or_false] at hc
  rcases hc with h | h | h | h | h | h | h <;> rw [h] <;> exact fun hne => by cases hne

/-! ## Theorems: loading a package for flash and selecting a PIT -/

theorem LoadFirmwarePackage.fileOf_eq (files : List TemporaryFile) (fileTemplate : String) :
    LoadFirmwarePackage.fileOf files fileTemplate
      = files.find? (fun file => file.fileTemplate == fileTemplate) := by
  induction files with
  | nil => rfl
  | cons file rest ih =>
    rw [LoadFirmwarePackage.fileOf, List.find?_cons]
    by_cases h : (file.fileTemplate == fileTemplate) = true
    · simp [h]
    · simp only [h, if_false]
      rw [ih]
      simp [h]

theorem LoadFirmwarePackage.bindings_eq (absoluteFilePath : String → String)
    (files : List TemporaryFile) (packageFileInfos fileInfos : List FileInfo) :
    LoadFirmwarePackage.bindings absoluteFilePath files packageFileInfos fileInfos
      = fileInfos ++ packageFileInfos.filterMap (fun packageFileInfo =>
          (files.find? (fun file =>
              file.fileTemplate == QString.append "XXXXXX-" packageFileInfo.GetFilename)).map
            (fun file => ⟨packageFileInfo.GetPartitionId, absoluteFilePath file.fileName⟩)) := by
  induction packageFileInfos generalizing fileInfos with
  | nil => simp [LoadFirmwarePackage.bindings]
  | cons packageFileInfo rest ih =>
    rw [LoadFirmwarePackage.bindings, LoadFirmwarePackage.fileOf_eq, List.filterMap_cons]
    cases h : files.find? (fun file =>
        file.fileTemplate == QString.append "XXXXXX-" packageFileInfo.GetFilename) with
    | none => simp [ih]
    | some file => simp [ih]

theorem LoadFirmwarePackage.finish_spec (w : MainWindow) :
    (LoadFirmwarePackage.finish w).loadedPackageData = {} ∧
    (LoadFirmwarePackage.finish w).workingFiles = w.workingFiles ∧
    (LoadFirmwarePackage.finish w).workingFirmwareInfo.fileInfos
      = w.workingFirmwareInfo.fileInfos := by
  unfold LoadFirmwarePackage.finish
  simp only [UpdateUnusedPartitionIds]
  split
  · exact ⟨rfl, rfl, rfl⟩
  · exact ⟨rfl, rfl, rfl⟩

/-- Claim C24: after `LoadFirmwarePackage` the loaded package is cleared and
owns no backing file, on every path; and unless reading the PIT file of the
package fails, the working package owns the backing files the loaded package
owned, in the same order, and the working bindings are, in package order, one
binding for each package binding whose file is among them, with the same
partition identifier and the absolute path of that file. -/
theorem LoadFirmwarePackage_ownership (Unpack : PitData → List Nat → Bool × PitData)
    (absoluteFilePath : String → String) (w : MainWindow) :
    (LoadFirmwarePackage Unpack absoluteFilePath w).loadedPackageData = {} ∧
    (LoadFirmwarePackage Unpack absoluteFilePath w).loadedPackageData.files = [] ∧
    ((∀ file, w.loadedPackageData.files.find? (fun file => file.fileTemplate
          == QString.append "XXXXXX-" w.loadedPackageData.firmwareInfo.pitFilename) = some file →
        ∃ buffer, file.contents = some buffer ∧ (Unpack [] buffer).1 = true) →
      (LoadFirmwarePackage Unpack absoluteFilePath w).workingFiles = w.loadedPackageData.files ∧
      (LoadFirmwarePackage Unpack absoluteFilePath w).workingFirmwareInfo.fileInfos
        = w.loadedPackageData.firmwareInfo.fileInfos.filterMap (fun packageFileInfo =>
            (w.loadedPackageData.files.find? (fun file =>
                file.fileTemplate == QString.append "XXXXXX-" packageFileInfo.GetFilename)).map
              (fun file => ⟨packageFileInfo.GetPartitionId, absoluteFilePath file.fileName⟩))) := by
  have hloaded : (LoadFirmwarePackage Unpack absoluteFilePath w).loadedPackageData = {} := by
    unfold LoadFirmwarePackage
    simp only []
    split
    · split
      · rfl
      · exact (LoadFirmwarePackage.finish_spec _).1
    · exact (LoadFirmwarePackage.finish_spec _).1
  refine ⟨hloaded, by rw [hloaded], ?_⟩
  intro hread
  unfold LoadFirmwarePackage
  simp only [List.nil_append, LoadFirmwarePackage.fileOf_eq, LoadFirmwarePackage.bindings_eq,
    PackageData.RemoveAllFiles, FirmwareInfo.Clear, FirmwareInfo.ofFlash]
  cases hfind : w.loadedPackageData.files.find? (fun file => file.fileTemplate
      == QString.append "XXXXXX-" w.loadedPackageData.firmwareInfo.pitFilename) with
  | none =>
    simp only []
    refine ⟨(LoadFirmwarePackage.finish_spec _).2.1, ?_⟩
    rw [(LoadFirmwarePackage.finish_spec _).2.2]
  | some file =>
    obtain ⟨buffer, hbuffer, hok⟩ := hread file hfind
    simp only [hbuffer, ReadPit, hok, Bool.not_true, Bool.false_eq_true, if_false]
    refine ⟨(LoadFirmwarePackage.finish_spec _).2.1, ?_⟩
    rw [(LoadFirmwarePackage.finish_spec _).2.2]

theorem LoadFirmwarePackage_ownership_witness :
    (LoadFirmwarePackage (fun _ _ => (true, examplePit)) id exampleLoadedPackage).loadedPackageData
      = {} ∧
    (LoadFirmwarePackage (fun _ _ => (true, examplePit)) id exampleLoadedPackage).workingFiles
      = exampleLoadedPackage.loadedPackageData.files ∧
    (LoadFirmwarePackage (fun _ _ => (true, examplePit)) id
        exampleLoadedPackage).workingFirmwareInfo.fileInfos
      = exampleLoadedPackage.loadedPackageData.firmwareInfo.fileInfos.filterMap
          (fun packageFileInfo =>
            (exampleLoadedPackage.loadedPackageData.files.find? (fun file =>
                file.fileTemplate == QString.append "XXXXXX-" packageFileInfo.GetFilename)).map
              (fun file => ⟨packageFileInfo.GetPartitionId, id file.fileName⟩)) :=
  ⟨(LoadFirmwarePackage_ownership (fun _ _ => (true, examplePit)) id exampleLoadedPackage).1,
   (LoadFirmwarePackage_ownership (fun _ _ => (true, examplePit)) id exampleLoadedPackage).2.2
    (fun file hfile => by
      have hfound : exampleLoadedPackage.loadedPackageData.files.find? (fun file =>
          file.fileTemplate == QString.append "XXXXXX-"
            exampleLoadedPackage.loadedPackageData.firmwareInfo.pitFilename)
          = some ⟨"XXXXXX-a.pit", "/tmp/qt-a.pit", some [1]⟩ := by decide
      rw [hfound] at hfile
      cases hfile
      exact ⟨[1], rfl, rfl⟩)⟩

/-- Claim C25: a package whose only binding names the identifier 9, absent
from the PIT table the package's PIT file unpacks to. `LoadFirmwarePackage`
takes the error path of its last loop, which empties the PIT table and
`unusedPartitionIds` and clears the firmware information of the loaded
package, already cleared; the working firmware keeps the binding. -/
theorem LoadFirmwarePackage_invalid_id_keeps_bindings :
    examplePit.FindEntry 9 = none ∧
    (LoadFirmwarePackage (fun _ _ => (true, examplePit)) id
      exampleLoadedPackage).workingFirmwareInfo.fileInfos = [⟨9, "/tmp/qt-boot.img"⟩] ∧
    (LoadFirmwarePackage (fun _ _ => (true, examplePit)) id
      exampleLoadedPackage).workingFirmwareInfo.pitFilename = "/tmp/qt-a.pit" ∧
    (LoadFirmwarePackage (fun _ _ => (true, examplePit)) id exampleLoadedPackage).currentPitData
      = [] ∧
    (LoadFirmwarePackage (fun _ _ => (true, examplePit)) id exampleLoadedPackage).unusedPartitionIds
      = [] ∧
    (LoadFirmwarePackage (fun _ _ => (false, [])) id
      exampleLoadedPackage).workingFirmwareInfo.fileInfos = [] := by
  decide

/-- Claim C28: `SelectPit` on a state whose table names `BOOT` 2 and `OLD` 3,
both bound, with a new PIT whose only entry is `BOOT` with the identifier 7.
The new PIT is read and becomes the current table, but the working bindings
are as they were, identifiers 2 and 3, neither of which the new table has; the
remapped list, one binding with the identifier 7, is the local copy, which no
statement writes back. -/
theorem SelectPit_bindings_unchanged :
    ∃ r : MainWindow × List FileInfo,
      SelectPit (fun _ _ => (true, [⟨7, "BOOT", "boot.img", true⟩])) exampleBeforeSelectPit
        "new.pit" (some [1]) none = some r ∧
      exampleBeforeSelectPit.workingFirmwareInfo.fileInfos = [⟨2, "b.img"⟩, ⟨3, "o.img"⟩] ∧
      r.1.currentPitData = [⟨7, "BOOT", "boot.img", true⟩] ∧
      r.1.workingFirmwareInfo.pitFilename = "new.pit" ∧
      r.1.workingFirmwareInfo.fileInfos = [⟨2, "b.img"⟩, ⟨3, "o.img"⟩] ∧
      r.1.partitionsListWidget = ["BOOT"] ∧
      r.2 = [⟨7, "b.img"⟩] :=
  ⟨_, rfl, by decide⟩

/-! ## Theorems: the bindings quick-convert produces -/

theorem toInt32_nonneg {u : Nat} (h : toInt32 u ≥ 0) :
    u % 2 ^ 32 < 2 ^ 31 ∧ (toInt32 u).toNat = u % 2 ^ 32 := by
  unfold toInt32 at h ⊢
  by_cases hlt : u % 2 ^ 32 < 2 ^ 31
  · rw [if_pos hlt]
    exact ⟨hlt, Int.toNat_ofNat _⟩
  · rw [if_neg hlt] at h
    have hb : u % 2 ^ 32 < 2 ^ 32 := Nat.mod_lt _ (by decide)
    omega

theorem findPartitionIdByName_source (pit : PitData) (c : String)
    (h : findPartitionIdByName pit c ≥ 0) :
    ∃ e ∈ pit, e.GetPartitionName = c ∧ findPartitionIdByName pit c = toInt32 e.GetIdentifier := by
  unfold findPartitionIdByName at h ⊢
  by_cases hempty : QString.isEmpty c = true
  · rw [if_pos hempty] at h
    exact absurd h (by decide)
  · rw [if_neg hempty] at h ⊢
    cases hfind : pit.FindEntryByName c with
    | none =>
      rw [hfind] at h
      exact absurd h (by decide)
    | some e =>
      have hmem : e ∈ pit := List.mem_of_find?_eq_some hfind
      have hp := List.find?_some hfind
      exact ⟨e, hmem, by simpa using hp, rfl⟩

theorem tryCandidates_source (pit : PitData) (cands : List String) (fileBase : String)
    (h : tryCandidates pit cands fileBase ≥ 0) :
    ∃ e ∈ pit, tryCandidates pit cands fileBase = toInt32 e.GetIdentifier ∧
      (e.GetPartitionName ∈ cands ∨
        findPartitionIdByFlashFilename.accepts e fileBase = true) := by
  induction cands with
  | nil =>
    obtain ⟨e, he, hacc, hid⟩ := findPartitionIdByFlashFilename_source pit fileBase h
    exact ⟨e, he, hid, Or.inr hacc⟩
  | cons c rest ih =>
    rw [tryCandidates] at h ⊢
    by_cases hc : findPartitionIdByName pit c ≥ 0
    · simp only [hc, if_true] at h ⊢
      obtain ⟨e, he, hname, hid⟩ := findPartitionIdByName_source pit c hc
      exact ⟨e, he, hid, Or.inl (by rw [hname]; exact List.mem_cons_self c rest)⟩
    · simp only [hc, if_false] at h ⊢
      obtain ⟨e, he, hid, hor⟩ := ih h
      refine ⟨e, he, hid, ?_⟩
      rcases hor with hor | hor
      · exact Or.inl (List.mem_cons_of_mem c hor)
      · exact Or.inr hor

/-- The binding the loop body of `ConvertSamsungQuick` appends for a file, if
it appends one. -/
theorem ConvertSamsungQuick.foldl_mapped_eq (pit : PitData) (srcFiles : List String)
    (lists : ConvertSamsungQuick.Lists) :
    (srcFiles.foldl (ConvertSamsungQuick.body pit) lists).mapped
      = lists.mapped ++ srcFiles.filterMap (fun path =>
          if (QString.endsWith (basenameLower path) ".tar"
              || QString.endsWith (basenameLower path) ".md5") = true then none
          else if ConvertSamsungQuick.partId pit path ≥ 0 then
            some ⟨(ConvertSamsungQuick.partId pit path).toNat % 2 ^ 32, path⟩
          else none) := by
  induction srcFiles generalizing lists with
  | nil => simp
  | cons path rest ih =>
    rw [List.foldl_cons, ih, List.filterMap_cons]
    unfold ConvertSamsungQuick.body
    by_cases harch : (QString.endsWith (basenameLower path) ".tar"
        || QString.endsWith (basenameLower path) ".md5") = true
    · simp [harch]
    · by_cases hpart : ConvertSamsungQuick.partId pit path ≥ 0
      · simp [harch, hpart]
      · simp [harch, hpart]

theorem List.map_filterMap_sublist {α β : Type} (f : α → Option β) (g : β → α)
    (hfg : ∀ x b, f x = some b → g b = x) (l : List α) :
    ((l.filterMap f).map g).Sublist l := by
  induction l with
  | nil => simp
  | cons x rest ih =>
    rw [List.filterMap_cons]
    cases hfx : f x with
    | none => exact List.Sublist.cons x ih
    | some b =>
      simp only [List.map_cons]
      rw [hfg x b hfx]
      exact List.Sublist.cons₂ x ih

/-- Claim C30, the claim as stated fails: a table whose entry `BOOT` has the
flashable flag unset, and a table whose entry is named `PIT`. The search by
candidate name looks at neither the flag nor the name, so `boot.img` is bound
to the identifier 3 and `pit.bin` to the identifier 1, and neither table has a
flashable entry at all. -/
theorem quickConvert_binding_not_flashable :
    (∀ e ∈ ([⟨3, "BOOT", "", false⟩] : PitData), isFlashableSpec e = false) ∧
    (ConvertSamsungQuick.loop [⟨3, "BOOT", "", false⟩] ["boot.img"]).mapped
      = [⟨3, "boot.img"⟩] ∧
    (∀ e ∈ ([⟨1, "PIT", "", true⟩] : PitData), isFlashableSpec e = false) ∧
    (ConvertSamsungQuick.loop [⟨1, "PIT", "", true⟩] ["pit.bin"]).mapped
      = [⟨1, "pit.bin"⟩] := by
  decide

/-- Claim C30, amended: for every PIT table and every list of source files,
every binding quick-convert produces names an identifier below `2^31` that is
the identifier of an entry of the table, an entry whose name is one of the
candidate names of the binding's file (whatever its flashable flag and its
name) or that the fallback accepts (flashable flag set, flash filename
matching); and the files of the bindings are a subsequence of the source
files, so the bindings keep the order of their files and a file yields at most
one binding. -/
theorem quickConvert_bindings (pit : PitData) (srcFiles : List String) :
    (∀ b ∈ (ConvertSamsungQuick.loop pit srcFiles).mapped,
      b.partitionId < 2 ^ 31 ∧
      ∃ e ∈ pit, e.GetIdentifier = b.partitionId ∧
        (e.GetPartitionName ∈ ConvertSamsungQuick.cands (basenameLower b.filename) ∨
          (e.IsFlashable = true ∧ findPartitionIdByFlashFilename.accepts e
            (stripExtensions (basenameLower b.filename)) = true))) ∧
    ((ConvertSamsungQuick.loop pit srcFiles).mapped.map FileInfo.GetFilename).Sublist
      srcFiles := by
  have hloop := ConvertSamsungQuick.foldl_mapped_eq pit srcFiles ⟨[], []⟩
  unfold ConvertSamsungQuick.loop
  rw [hloop, List.nil_append]
  constructor
  · intro b hb
    rw [List.mem_filterMap] at hb
    obtain ⟨path, _, hpath⟩ := hb
    by_cases harch : (QString.endsWith (basenameLower path) ".tar"
        || QString.endsWith (basenameLower path) ".md5") = true
    · rw [if_pos harch] at hpath
      cases hpath
    · by_cases hpart : ConvertSamsungQuick.partId pit path ≥ 0
      · rw [if_neg harch, if_pos hpart] at hpath
        cases hpath
        obtain ⟨e, he, hid, hor⟩ := tryCandidates_source pit
          (ConvertSamsungQuick.cands (basenameLower path))
          (stripExtensions (basenameLower path)) hpart
        have hpid : ConvertSamsungQuick.partId pit path = toInt32 e.GetIdentifier := hid
        have hnn : toInt32 e.GetIdentifier ≥ 0 := by rw [← hpid]; exact hpart
        obtain ⟨hlt, hnat⟩ := toInt32_nonneg hnn
        have hmod : e.GetIdentifier % 2 ^ 32 = e.GetIdentifier := by
          unfold PitEntry.GetIdentifier
          exact Nat.mod_mod _ _
        have hval : (ConvertSamsungQuick.partId pit path).toNat % 2 ^ 32 = e.GetIdentifier := by
          rw [hpid, hnat, hmod, hmod]
        simp only [hval]
        refine ⟨by rw [← hmod]; exact hlt, e, he, rfl, ?_⟩
        rcases hor with hor | hor
        · exact Or.inl hor
        · refine Or.inr ⟨?_, hor⟩
          unfold findPartitionIdByFlashFilename.accepts at hor
          simp only [Bool.and_eq_true] at hor
          exact hor.1.1
      · rw [if_neg harch, if_neg hpart] at hpath
        cases hpath
  · apply List.map_filterMap_sublist
    intro path b hb
    by_cases harch : (QString.endsWith (basenameLower path) ".tar"
        || QString.endsWith (basenameLower path) ".md5") = true
    · rw [if_pos harch] at hb
      cases hb
    · by_cases hpart : ConvertSamsungQuick.partId pit path ≥ 0
      · rw [if_neg harch, if_pos hpart] at hb
        cases hb
        rfl
      · rw [if_neg harch, if_neg hpart] at hb
        cases hb

/-- Witness of C30 amended: the files `cache.img.lz4`, `notes.txt` and
`boot.img` against a table with `BOOT` (flag unset) and an entry whose flash
filename is `cache.img`; the binding of `boot.img` is to the entry `BOOT`. -/
theorem quickConvert_bindings_witness :
    ((3 : Nat) < 2 ^ 31 ∧
      ∃ e ∈ ([⟨3, "BOOT", "", false⟩, ⟨5, "FOO", "cache.img", true⟩] : PitData),
        e.GetIdentifier = 3 ∧
        (e.GetPartitionName ∈ ConvertSamsungQuick.cands (basenameLower "boot.img") ∨
          (e.IsFlashable = true ∧ findPartitionIdByFlashFilename.accepts e
            (stripExtensions (basenameLower "boot.img")) = true))) ∧
    ((ConvertSamsungQuick.loop [⟨3, "BOOT", "", false⟩, ⟨5, "FOO", "cache.img", true⟩]
        ["cache.img.lz4", "notes.txt", "boot.img"]).mapped.map FileInfo.GetFilename).Sublist
      ["cache.img.lz4", "notes.txt", "boot.img"] :=
  ⟨(quickConvert_bindings [⟨3, "BOOT", "", false⟩, ⟨5, "FOO", "cache.img", true⟩]
      ["cache.img.lz4", "notes.txt", "boot.img"]).1 ⟨3, "boot.img"⟩ (by decide),
   (quickConvert_bindings [⟨3, "BOOT", "", false⟩, ⟨5, "FOO", "cache.img", true⟩]
      ["cache.img.lz4", "notes.txt", "boot.img"]).2⟩

/-! ## Theorems: the size of the scores of the TEE analysis -/

theorem TEE.addIfContains_length_le (indicators : List String) (haystack needle : String) :
    (TEE.addIfContains indicators haystack needle).length ≤ indicators.length + 1 := by
  unfold TEE.addIfContains
  split <;> simp

theorem TEE.addIfAny_length_le (indicators : List String) (haystack : String)
    (needles : List String) :
    (TEE.addIfAny indicators haystack needles).length ≤ indicators.length + needles.length := by
  induction needles generalizing indicators with
  | nil => simp [TEE.addIfAny]
  | cons n rest ih =>
    rw [TEE.addIfAny]
    have h1 := ih (TEE.addIfContains indicators haystack n)
    have h2 := TEE.addIfContains_length_le indicators haystack n
    simp only [List.length_cons]
    omega

theorem TEE.addLibs_length_le (hints vendorLibs texts : List String) :
    (TEE.addLibs hints vendorLibs texts).length ≤ hints.length + vendorLibs.length := by
  unfold TEE.addLibs
  rw [List.length_append]
  have := List.length_filter_le (fun lib => texts.any (fun t => TEE.containsCI lib t)) vendorLibs
  omega

theorem TEE.filterSize_le (hints alternatives : List String) :
    TEE.filterSize hints alternatives ≤ (hints.length : Int) := by
  unfold TEE.filterSize
  have := List.length_filter_le (fun h => alternatives.any (fun a => TEE.containsCI h a)) hints
  omega

/-- Every score of `analyze` is at most 36, the number of texts looked for,
plus three times the number of vendor libraries; so `score * 12` is within the
range of `int` for up to 59652311 vendor libraries. -/
theorem TEE.analyze.score_le (props devNodes kernelLog : String) (vendorLibs : List String) :
    ∀ c ∈ (TEE.analyze.cands props devNodes kernelLog vendorLibs).1,
      c.score ≤ 36 + 3 * (vendorLibs.length : Int) ∧
      (vendorLibs.length ≤ 59652311 → c.score * 12 < 2 ^ 31) := by
  have hmain : ∀ c ∈ (TEE.analyze.cands props devNodes kernelLog vendorLibs).1,
      c.score ≤ 36 + 3 * (vendorLibs.length : Int) := by
    intro c hc
    unfold TEE.analyze.cands at hc
    simp only [List.mem_cons, List.mem_singleton, List.not_mem_nil, or_false] at hc
    have b1 : (TEE.addIfAny [] props ["qcom", "qsee", "qtee", "keymaster.qcom"]).length ≤ 4 := by
      have hstep := TEE.addIfAny_length_le [] props ["qcom", "qsee", "qtee", "keymaster.qcom"]
      simpa using hstep
    generalize TEE.addIfAny [] props ["qcom", "qsee", "qtee", "keymaster.qcom"] = h1 at hc b1
    have b2 : (TEE.addIfContains h1 devNodes "qseecom").length ≤ 5 := by
      have hstep := TEE.addIfContains_length_le h1 devNodes "qseecom"
      simp only [List.length_cons, List.length_nil] at hstep
      omega
    generalize TEE.addIfContains h1 devNodes "qseecom" = h2 at hc b2
    have b3 : (TEE.addIfAny h2 kernelLog ["qseecom", "qsee", "qtee"]).length ≤ 8 := by
      have hstep := TEE.addIfAny_length_le h2 kernelLog ["qseecom", "qsee", "qtee"]
      simp only [List.length_cons, List.length_nil] at hstep
      omega
    generalize TEE.addIfAny h2 kernelLog ["qseecom", "qsee", "qtee"] = h3 at hc b3
    have b4 : (TEE.addLibs h3 vendorLibs ["QSEE", "QTEE", "QSEECom"]).length ≤ 8 + 1 * vendorLibs.length := by
      have hstep := TEE.addLibs_length_le h3 vendorLibs ["QSEE", "QTEE", "QSEECom"]
      simp only [List.length_cons, List.length_nil] at hstep
      omega
    generalize TEE.addLibs h3 vendorLibs ["QSEE", "QTEE", "QSEECom"] = h4 at hc b4
    have b5 : (TEE.addIfAny h4 devNodes ["/dev/tee0", "/dev/teepriv0"]).length ≤ 10 + 1 * vendorLibs.length := by
      have hstep := TEE.addIfAny_length_le h4 devNodes ["/dev/tee0", "/dev/teepriv0"]
      simp only [List.length_cons, List.length_nil] at hstep
      omega
    generalize TEE.addIfAny h4 devNodes ["/dev/tee0", "/dev/teepriv0"] = h5 at hc b5
    have b6 : (TEE.addIfAny h5 kernelLog ["optee", "tee core"]).length ≤ 12 + 1 * vendorLibs.length := by
      have hstep := TEE.addIfAny_length_le h5 kernelLog ["optee", "tee core"]
      simp only [List.length_cons, List.length_nil] at hstep
      omega
    generalize TEE.addIfAny h5 kernelLog ["optee", "tee core"] = h6 at hc b6
    have b7 : (TEE.addIfAny h6 props ["optee", "keymaster.optee"]).length ≤ 14 + 1 * vendorLibs.length := by
      have hstep := TEE.addIfAny_length_le h6 props ["optee", "keymaster.optee"]
      simp only [List.length_cons, List.length_nil] at hstep
      omega
    generalize TEE.addIfAny h6 props ["optee", "keymaster.optee"] = h7 at hc b7
    have b8 : (TEE.addIfAny h7 props ["trustonic", "mobicore", "kinibi"]).length ≤ 17 + 1 * vendorLibs.length := by
      have hstep := TEE.addIfAny_length_le h7 props ["trustonic", "mobicore", "kinibi"]
      simp only [List.length_cons, List.length_nil] at hstep
      omega
    generalize TEE.addIfAny h7 props ["trustonic", "mobicore", "kinibi"] = h8 at hc b8
    have b9 : (TEE.addIfAny h8 kernelLog ["trustonic", "mobicore", "kinibi"]).length ≤ 20 + 1 * vendorLibs.length := by
      have hstep := TEE.addIfAny_length_le h8 kernelLog ["trustonic", "mobicore", "kinibi"]
      simp only [List.length_cons, List.length_nil] at hstep
      omega
    generalize TEE.addIfAny h8 kernelLog ["trustonic", "mobicore", "kinibi"] = h9 at hc b9
    have b10 : (TEE.addLibs h9 vendorLibs ["McClient", "trustonic", "mobicore"]).length ≤ 20 + 2 * vendorLibs.length := by
      have hstep := TEE.addLibs_length_le h9 vendorLibs ["McClient", "trustonic", "mobicore"]
      simp only [List.length_cons, List.length_nil] at hstep
      omega
    generalize TEE.addLibs h9 vendorLibs ["McClient", "trustonic", "mobicore"] = h10 at hc b10
    have b11 : (TEE.addIfAny h10 props ["teegris", "tima"]).length ≤ 22 + 2 * vendorLibs.length := by
      have hstep := TEE.addIfAny_length_le h10 props ["teegris", "tima"]
      simp only [List.length_cons, List.length_nil] at hstep
      omega
    generalize TEE.addIfAny h10 props ["teegris", "tima"] = h11 at hc b11
    have b12 : (TEE.addIfAny h11 kernelLog ["teegris", "tima"]).length ≤ 24 + 2 * vendorLibs.length := by
      have hstep := TEE.addIfAny_length_le h11 kernelLog ["teegris", "tima"]
      simp only [List.length_cons, List.length_nil] at hstep
      omega
    generalize TEE.addIfAny h11 kernelLog ["teegris", "tima"] = h12 at hc b12
    have b13 : (TEE.addLibs h12 vendorLibs ["teegris", "tima"]).length ≤ 24 + 3 * vendorLibs.length := by
      have hstep := TEE.addLibs_length_le h12 vendorLibs ["teegris", "tima"]
      simp only [List.length_cons, List.length_nil] at hstep
      omega
    generalize TEE.addLibs h12 vendorLibs ["teegris", "tima"] = h13 at hc b13
    have b14 : (TEE.addIfAny h13 props ["mtk", "microtrust"]).length ≤ 26 + 3 * vendorLibs.length := by
      have hstep := TEE.addIfAny_length_le h13 props ["mtk", "microtrust"]
      simp only [List.length_cons, List.length_nil] at hstep
      omega
    generalize TEE.addIfAny h13 props ["mtk", "microtrust"] = h14 at hc b14
    have b15 : (TEE.addIfAny h14 kernelLog ["microtrust", "mtk tee"]).length ≤ 28 + 3 * vendorLibs.length := by
      have hstep := TEE.addIfAny_length_le h14 kernelLog ["microtrust", "mtk tee"]
      simp only [List.length_cons, List.length_nil] at hstep
      omega
    generalize TEE.addIfAny h14 kernelLog ["microtrust", "mtk tee"] = h15 at hc b15
    have b16 : (TEE.addIfAny h15 props ["hisi", "huawei", "itee"]).length ≤ 31 + 3 * vendorLibs.length := by
      have hstep := TEE.addIfAny_length_le h15 props ["hisi", "huawei", "itee"]
      simp only [List.length_cons, List.length_nil] at hstep
      omega
    generalize TEE.addIfAny h15 props ["hisi", "huawei", "itee"] = h16 at hc b16
    have b17 : (TEE.addIfAny h16 kernelLog ["hisi", "itee"]).length ≤ 33 + 3 * vendorLibs.length := by
      have hstep := TEE.addIfAny_length_le h16 kernelLog ["hisi", "itee"]
      simp only [List.length_cons, List.length_nil] at hstep
      omega
    generalize TEE.addIfAny h16 kernelLog ["hisi", "itee"] = h17 at hc b17
    have b18 : (TEE.addIfAny h17 props ["strongbox", "titan_m"]).length ≤ 35 + 3 * vendorLibs.length := by
      have hstep := TEE.addIfAny_length_le h17 props ["strongbox", "titan_m"]
      simp only [List.length_cons, List.length_nil] at hstep
      omega
    generalize TEE.addIfAny h17 props ["strongbox", "titan_m"] = h18 at hc b18
    have b19 : (TEE.addIfAny h18 kernelLog ["strongbox"]).length ≤ 36 + 3 * vendorLibs.length := by
      have hstep := TEE.addIfAny_length_le h18 kernelLog ["strongbox"]
      simp only [List.length_cons, List.length_nil] at hstep
      omega
    generalize TEE.addIfAny h18 kernelLog ["strongbox"] = h19 at hc b19
    have f1 := TEE.filterSize_le h4 ["qsee", "qtee", "qcom", "QSEE", "QTEE"]
    have f2 := TEE.filterSize_le h7 ["optee", "teepriv", "/dev/tee"]
    have f3 := TEE.filterSize_le h10 ["trustonic", "mobicore", "kinibi", "McClient"]
    have f4 := TEE.filterSize_le h13 ["teegris", "tima"]
    have f5 := TEE.filterSize_le h15 ["microtrust", "mtk"]
    have f6 := TEE.filterSize_le h17 ["itee", "hisi", "huawei"]
    have f7 := TEE.filterSize_le h19 ["strongbox", "titan"]
    rcases hc with h | h | h | h | h | h | h <;> rw [h] <;> simp only [] <;> omega
  intro c hc
  refine ⟨hmain c hc, fun hn => ?_⟩
  have := hmain c hc
  omega

/-! ## Theorems: the confidence of the TEE analysis -/

theorem TEE.mulInt_of_lt (x : Int) (h0 : 0 ≤ x) (hlt : x * 12 < 2 ^ 31) :
    TEE.mulInt x 12 = x * 12 := by
  unfold TEE.mulInt toInt32
  have hm : (x * 12) % 2 ^ 32 = x * 12 := Int.emod_eq_of_lt (by omega) (by omega)
  rw [hm]
  have hnat : ((x * 12).toNat : Int) = x * 12 := Int.toNat_of_nonneg (by omega)
  have hlt2 : (x * 12).toNat < 2 ^ 31 := by omega
  have hmod : (x * 12).toNat % 2 ^ 32 = (x * 12).toNat := Nat.mod_eq_of_lt (by omega)
  rw [hmod, if_pos hlt2, hnat]

theorem TEE.analyze.best_mem (best : TEE.Candidate) (cands : List TEE.Candidate) :
    TEE.analyze.best best cands = best ∨ TEE.analyze.best best cands ∈ cands := by
  induction cands generalizing best with
  | nil => exact Or.inl rfl
  | cons c rest ih =>
    rw [TEE.analyze.best]
    rcases ih (if c.score > best.score then c else best) with h | h
    · rw [h]
      by_cases hgt : c.score > best.score
      · rw [if_pos hgt]
        exact Or.inr (List.mem_cons_self c rest)
      · rw [if_neg hgt]
        exact Or.inl rfl
    · exact Or.inr (List.mem_cons_of_mem c h)

theorem TEE.addIfAny_empty_haystack (indicators needles : List String)
    (h : ∀ n ∈ needles, TEE.containsCI "" n = false) :
    TEE.addIfAny indicators "" needles = indicators := by
  induction needles generalizing indicators with
  | nil => rfl
  | cons n rest ih =>
    rw [TEE.addIfAny, TEE.addIfContains, h n (List.mem_cons_self n rest)]
    exact ih _ (fun m hm => h m (List.mem_cons_of_mem n hm))

theorem TEE.addLibs_replicate_of_pos (hints texts : List String) (n : Nat) (lib : String)
    (h : texts.any (fun t => TEE.containsCI lib t) = true) :
    TEE.addLibs hints (List.replicate n lib) texts = hints ++ List.replicate n lib := by
  unfold TEE.addLibs
  simp [List.filter_replicate, h]

theorem TEE.addLibs_replicate_of_neg (hints texts : List String) (n : Nat) (lib : String)
    (h : texts.any (fun t => TEE.containsCI lib t) = false) :
    TEE.addLibs hints (List.replicate n lib) texts = hints := by
  unfold TEE.addLibs
  simp [List.filter_replicate, h]

theorem TEE.filterSize_replicate_of_pos (alternatives : List String) (n : Nat) (hint : String)
    (h : alternatives.any (fun a => TEE.containsCI hint a) = true) :
    TEE.filterSize (List.replicate n hint) alternatives = (n : Int) := by
  unfold TEE.filterSize
  simp [List.filter_replicate, h]

theorem TEE.filterSize_replicate_of_neg (alternatives : List String) (n : Nat) (hint : String)
    (h : alternatives.any (fun a => TEE.containsCI hint a) = false) :
    TEE.filterSize (List.replicate n hint) alternatives = 0 := by
  unfold TEE.filterSize
  simp [List.filter_replicate, h]

theorem TEE.analyze.cands_replicate_qsee (n : Nat) :
    (TEE.analyze.cands "" "" "" (List.replicate n "qsee")).1
      = [⟨TEE.TeeType.QualcommQSEE, "Qualcomm QSEE (QTEE)", (n : Int)⟩,
         ⟨TEE.TeeType.OPTEE, "OP-TEE", 0⟩,
         ⟨TEE.TeeType.TrustonicKinibi, "Trustonic Kinibi (Mobicore)", 0⟩,
         ⟨TEE.TeeType.SamsungTEEgris, "Samsung TEEgris (TIMA)", 0⟩,
         ⟨TEE.TeeType.MediaTekMicrotrust, "MediaTek Microtrust", 0⟩,
         ⟨TEE.TeeType.HuaweiiTEE, "Huawei iTEE", 0⟩,
         ⟨TEE.TeeType.GoogleStrongBoxTitanM, "Google StrongBox (Titan M)", 0⟩] := by
  unfold TEE.analyze.cands
  simp only []
  simp only [TEE.addIfAny_empty_haystack [] ["qcom", "qsee", "qtee", "keymaster.qcom"] (by decide)]
  rw [show TEE.addIfContains [] "" "qseecom" = [] from by decide]
  simp only [TEE.addIfAny_empty_haystack [] ["qseecom", "qsee", "qtee"] (by decide)]
  rw [TEE.addLibs_replicate_of_pos [] ["QSEE", "QTEE", "QSEECom"] n "qsee" (by decide), List.nil_append]
  simp only [TEE.addIfAny_empty_haystack (List.replicate n "qsee") ["/dev/tee0", "/dev/teepriv0"] (by decide)]
  simp only [TEE.addIfAny_empty_haystack (List.replicate n "qsee") ["optee", "tee core"] (by decide)]
  simp only [TEE.addIfAny_empty_haystack (List.replicate n "qsee") ["optee", "keymaster.optee"] (by decide)]
  simp only [TEE.addIfAny_empty_haystack (List.replicate n "qsee") ["trustonic", "mobicore", "kinibi"] (by decide)]
  rw [TEE.addLibs_replicate_of_neg (List.replicate n "qsee") ["McClient", "trustonic", "mobicore"] n "qsee" (by decide)]
  simp only [TEE.addIfAny_empty_haystack (List.replicate n "qsee") ["teegris", "tima"] (by decide)]
  rw [TEE.addLibs_replicate_of_neg (List.replicate n "qsee") ["teegris", "tima"] n "qsee" (by decide)]
  simp only [TEE.addIfAny_empty_haystack (List.replicate n "qsee") ["mtk", "microtrust"] (by decide)]
  simp only [TEE.addIfAny_empty_haystack (List.replicate n "qsee") ["microtrust", "mtk tee"] (by decide)]
  simp only [TEE.addIfAny_empty_haystack (List.replicate n "qsee") ["hisi", "huawei", "itee"] (by decide)]
  simp only [TEE.addIfAny_empty_haystack (List.replicate n "qsee") ["hisi", "itee"] (by decide)]
  simp only [TEE.addIfAny_empty_haystack (List.replicate n "qsee") ["strongbox", "titan_m"] (by decide)]
  simp only [TEE.addIfAny_empty_haystack (List.replicate n "qsee") ["strongbox"] (by decide)]
  rw [TEE.filterSize_replicate_of_pos ["qsee", "qtee", "qcom", "QSEE", "QTEE"] n "qsee" (by decide)]
  rw [TEE.filterSize_replicate_of_neg ["optee", "teepriv", "/dev/tee"] n "qsee" (by decide)]
  rw [TEE.filterSize_replicate_of_neg ["trustonic", "mobicore", "kinibi", "McClient"] n "qsee" (by decide)]
  rw [TEE.filterSize_replicate_of_neg ["teegris", "tima"] n "qsee" (by decide)]
  rw [TEE.filterSize_replicate_of_neg ["microtrust", "mtk"] n "qsee" (by decide)]
  rw [TEE.filterSize_replicate_of_neg ["itee", "hisi", "huawei"] n "qsee" (by decide)]
  rw [TEE.filterSize_replicate_of_neg ["strongbox", "titan"] n "qsee" (by decide)]
  simp

/-- The analysis of `n` vendor libraries named `qsee`, with no other input:
the best score is `n`, the type is Qualcomm QSEE and the confidence is the
32-bit product of `n` and 12, bounded to 0..100. -/
theorem TEE.analyze_replicate_qsee (n : Nat) (hn : 0 < n) :
    ((TEE.analyze.cands "" "" "" (List.replicate n "qsee")).1.map
      TEE.Candidate.score).foldl Max.max 0 = (n : Int) ∧
    (TEE.analyze "" "" "" (List.replicate n "qsee")).type = TEE.TeeType.QualcommQSEE ∧
    (TEE.analyze "" "" "" (List.replicate n "qsee")).confidence
      = TEE.qBound 0 (TEE.mulInt (n : Int) 12) 100 := by
  have hpos : (n : Int) > 0 := by omega
  have hnot : ¬ ((0 : Int) > (n : Int)) := by omega
  have hbest : TEE.analyze.best ⟨TEE.TeeType.Unknown, "Unknown", 0⟩
      (TEE.analyze.cands "" "" "" (List.replicate n "qsee")).1
        = ⟨TEE.TeeType.QualcommQSEE, "Qualcomm QSEE (QTEE)", (n : Int)⟩ := by
    rw [TEE.analyze.cands_replicate_qsee]
    simp only [TEE.analyze.best, hpos, hnot, if_true, if_false]
  refine ⟨?_, ?_, ?_⟩
  · rw [TEE.analyze.cands_replicate_qsee]
    simp only [List.map_cons, List.map_nil, List.foldl_cons, List.foldl_nil]
    have h0 : Max.max (0 : Int) (n : Int) = (n : Int) := max_eq_right (by omega)
    have h1 : Max.max (n : Int) 0 = (n : Int) := max_eq_left (by omega)
    simp only [h0, h1]
  · show (TEE.analyze.best ⟨TEE.TeeType.Unknown, "Unknown", 0⟩
      (TEE.analyze.cands "" "" "" (List.replicate n "qsee")).1).type = _
    rw [hbest]
  · show TEE.qBound 0 (TEE.mulInt (TEE.analyze.best ⟨TEE.TeeType.Unknown, "Unknown", 0⟩
      (TEE.analyze.cands "" "" "" (List.replicate n "qsee")).1).score 12) 100 = _
    rw [hbest]

/-- Claim C27, the code at the failing input: 178956971 vendor libraries named
`qsee` and no other input. The best candidate is Qualcomm QSEE with the score
178956971; the 32-bit product of the score and 12 is negative, so the
confidence is 0 although the type is not `Unknown`, where the smaller of 100
and 12 times the best score is 100. -/
theorem TEE_analyze_confidence_overflow :
    ((TEE.analyze.cands "" "" "" (List.replicate 178956971 "qsee")).1.map
      TEE.Candidate.score).foldl Max.max 0 = 178956971 ∧
    (TEE.analyze "" "" "" (List.replicate 178956971 "qsee")).type
      = TEE.TeeType.QualcommQSEE ∧
    TEE.mulInt 178956971 12 = -2147483644 ∧
    (TEE.analyze "" "" "" (List.replicate 178956971 "qsee")).confidence = 0 ∧
    Min.min (100 : Int) (12 * 178956971) = 100 := by
  obtain ⟨h1, h2, h3⟩ := TEE.analyze_replicate_qsee 178956971 (by decide)
  have hq : TEE.qBound 0 (TEE.mulInt ((178956971 : Nat) : Int) 12) 100 = 0 := by decide
  exact ⟨h1, h2, by decide, h3.trans hq, by decide⟩

/-- Where the product stays within `int`: the confidence `TEE::analyze` returns
is between 0 and 100 for every input, and for up to 59652311 vendor libraries
it equals the smaller of 100 and 12 times the best candidate score, and the
type is `Unknown` exactly when the confidence is 0. -/
theorem TEE.analyze.confidence_of_libs_le (props devNodes kernelLog : String)
    (vendorLibs : List String) :
    0 ≤ (TEE.analyze props devNodes kernelLog vendorLibs).confidence ∧
    (TEE.analyze props devNodes kernelLog vendorLibs).confidence ≤ 100 ∧
    (vendorLibs.length ≤ 59652311 →
      (TEE.analyze props devNodes kernelLog vendorLibs).confidence
        = Min.min 100 (12 * (((TEE.analyze.cands props devNodes kernelLog vendorLibs).1.map
            TEE.Candidate.score).foldl Max.max 0)) ∧
      ((TEE.analyze props devNodes kernelLog vendorLibs).type = TEE.TeeType.Unknown
        ↔ (TEE.analyze props devNodes kernelLog vendorLibs).confidence = 0)) := by
  obtain ⟨h0, hun, hmax⟩ := TEE.analyze.best_spec ⟨TEE.TeeType.Unknown, "Unknown", 0⟩
    (TEE.analyze.cands props devNodes kernelLog vendorLibs).1 (le_refl 0)
    ⟨fun _ => rfl, fun _ => rfl⟩ (TEE.analyze.cands_types props devNodes kernelLog vendorLibs)
  have hconf : (TEE.analyze props devNodes kernelLog vendorLibs).confidence
      = TEE.qBound 0 (TEE.mulInt (TEE.analyze.best ⟨TEE.TeeType.Unknown, "Unknown", 0⟩
          (TEE.analyze.cands props devNodes kernelLog vendorLibs).1).score 12) 100 := rfl
  have htype : (TEE.analyze props devNodes kernelLog vendorLibs).type
      = (TEE.analyze.best ⟨TEE.TeeType.Unknown, "Unknown", 0⟩
          (TEE.analyze.cands props devNodes kernelLog vendorLibs).1).type := rfl
  refine ⟨?_, ?_, ?_⟩
  · rw [hconf]
    exact le_max_left _ _
  · rw [hconf]
    exact max_le (by decide) (min_le_left _ _)
  · intro hlen
    have hrange : (TEE.analyze.best ⟨TEE.TeeType.Unknown, "Unknown", 0⟩
        (TEE.analyze.cands props devNodes kernelLog vendorLibs).1).score * 12 < 2 ^ 31 := by
      rcases TEE.analyze.best_mem ⟨TEE.TeeType.Unknown, "Unknown", 0⟩
        (TEE.analyze.cands props devNodes kernelLog vendorLibs).1 with h | h
      · rw [h]
        decide
      · exact (TEE.analyze.score_le props devNodes kernelLog vendorLibs _ h).2 hlen
    rw [hconf, htype, TEE.mulInt_of_lt _ h0 hrange, ← hmax]
    generalize (TEE.analyze.best ⟨TEE.TeeType.Unknown, "Unknown", 0⟩
      (TEE.analyze.cands props devNodes kernelLog vendorLibs).1) = b at h0 hun
    unfold TEE.qBound
    refine ⟨?_, ?_⟩
    · rw [max_eq_right (le_min (by decide) (by omega)), mul_comm]
    · rw [max_eq_right (le_min (by decide) (by omega)), hun]
      constructor
      · intro h
        rw [h]
        decide
      · intro h
        by_contra hne
        have hpos : 1 ≤ b.score := by omega
        have h12 : 12 ≤ b.score * 12 := by omega
        have : (12 : Int) ≤ Min.min 100 (b.score * 12) := le_min (by decide) h12
        omega

end Heimdall
